import Mathlib

/-! VectorAI response-to-file-system pipeline: a shallow embedding.

The definitions below embed the dependency/extraction/materialization logic of
`editor/vector_ai/vector_ai_panel.cpp` and the message handling of
`editor/vector_ai/claude_api.cpp`.  Engine strings are lists of characters,
the dependency table (`HashMap<String, DependencyInfo>`, which iterates in
insertion order) is an association list, storage is an explicit value that is
threaded through the writers, and the random generator and the clock are
explicit arguments.
-/

set_option maxRecDepth 100000
set_option maxHeartbeats 4000000

namespace VectorAI

/-- Engine string: a sequence of characters. -/
abbrev Str := List Char

/-! ## Engine string primitives (core/string/ustring.cpp) -/

/-- `String::begins_with`. -/
def begins_with (s p : Str) : Bool := p.isPrefixOf s

/-- `String::ends_with`. -/
def ends_with (s p : Str) : Bool := p.isSuffixOf s

/-- Position of the first occurrence of `key` at or after the current position,
counted from `i`; the engine's `find` never matches an empty key. -/
def findFrom (key : Str) : Nat → Str → Option Nat
  | _, [] => none
  | i, c :: t => if key.isPrefixOf (c :: t) then some i else findFrom key (i + 1) t

/-- `String::find(key)`: index of the first occurrence, `-1` when absent or when
the key is empty. -/
def find (s key : Str) : Int :=
  if key.isEmpty then -1
  else match findFrom key 0 s with
    | some i => (i : Int)
    | none => -1

/-- The test `s.find(key) != -1` used all over the panel. -/
def contains (s key : Str) : Bool := find s key != -1

/-- Position of the last occurrence of `key`, scanning left to right and keeping
the latest hit. -/
def rfindFrom (key : Str) : Nat → Option Nat → Str → Option Nat
  | _, best, [] => best
  | i, best, c :: t =>
    rfindFrom key (i + 1) (if key.isPrefixOf (c :: t) then some i else best) t

/-- `String::rfind(key)`: index of the last occurrence, `-1` when absent. -/
def rfind (s key : Str) : Int :=
  if key.isEmpty then -1
  else match rfindFrom key 0 none s with
    | some i => (i : Int)
    | none => -1

/-- `String::substr(from, chars)` for non-negative arguments. -/
def substr (s : Str) (start len : Nat) : Str := (s.drop start).take len

/-- `String::substr(from)`: the rest of the string. -/
def substrFrom (s : Str) (start : Nat) : Str := s.drop start

/-- Worker of `replace`: `skip` counts the characters of a matched key that are
still to be dropped. -/
def replaceGo (key w : Str) : Nat → Str → Str
  | _, [] => []
  | skip + 1, _ :: t => replaceGo key w skip t
  | 0, c :: t =>
    if key.isPrefixOf (c :: t) then w ++ replaceGo key w (key.length - 1) t
    else c :: replaceGo key w 0 t

/-- `String::replace(key, with)`: every non-overlapping occurrence of `key`,
found left to right, is replaced; an empty key replaces nothing. -/
def replace (s key w : Str) : Str :=
  if key.isEmpty then s else replaceGo key w 0 s

/-- `String::to_lower` on the ASCII range. -/
def to_lower (s : Str) : Str :=
  s.map (fun c => if 'A' ≤ c ∧ c ≤ 'Z' then Char.ofNat (c.toNat + 32) else c)

/-- Characters removed by `strip_edges`: code points up to 32. -/
def isEdge (c : Char) : Bool := c.toNat ≤ 32

/-- `String::strip_edges()`. -/
def strip_edges (s : Str) : Str :=
  ((s.dropWhile isEdge).reverse.dropWhile isEdge).reverse

/-- Larger of the last `/` and the last `\` position, as `get_file`,
`get_extension` and `get_basename` compute it. -/
def lastSep (s : Str) : Int := max (rfind s ['/']) (rfind s ['\\'])

/-- `String::get_file()`. -/
def get_file (s : Str) : Str :=
  let sep := lastSep s
  if sep = -1 then s else substrFrom s (sep + 1).toNat

/-- `String::get_extension()`. -/
def get_extension (s : Str) : Str :=
  let pos := rfind s ['.']
  if pos < 0 ∨ pos < lastSep s then [] else substrFrom s (pos + 1).toNat

/-- `String::get_basename()`. -/
def get_basename (s : Str) : Str :=
  let pos := rfind s ['.']
  if pos < 0 ∨ pos < lastSep s then s else substr s 0 pos.toNat

/-- `String::get_base_dir()` (URL-scheme, drive and Unix-root bases; network
shares are left out). -/
def get_base_dir (s : Str) : Str :=
  let e1 : Nat := if find s "://".toList = -1 then 0 else (find s "://".toList).toNat + 3
  let e2 : Nat :=
    if e1 ≠ 0 then e1
    else if find s ":/".toList ≠ -1 then (find s ":/".toList).toNat + 2
    else if find s ":\\".toList ≠ -1 then (find s ":\\".toList).toNat + 2
    else 0
  let e : Nat := if e2 ≠ 0 then e2 else if begins_with s ['/'] then 1 else 0
  let rs := substrFrom s e
  let base := substr s 0 e
  let sep := lastSep rs
  if sep = -1 then base else base ++ substr rs 0 sep.toNat

/-- Worker of `split`: `cur` is the piece being collected, reversed. -/
def splitGo (sep : Str) : Nat → Str → Str → List Str
  | _, cur, [] => [cur.reverse]
  | skip + 1, cur, _ :: t => splitGo sep skip cur t
  | 0, cur, c :: t =>
    if sep.isPrefixOf (c :: t) then cur.reverse :: splitGo sep (sep.length - 1) [] t
    else splitGo sep 0 (c :: cur) t

/-- `String::split(sep)` with empty pieces kept, for a non-empty separator. -/
def split (s sep : Str) : List Str := splitGo sep 0 [] s

/-! ## Regular expressions (modules/regex, PCRE2 without Unicode properties) -/

/-- Abstract syntax of the patterns the panel compiles. -/
inductive Re where
  | eps : Re
  | lit : Str → Re
  | cls : Bool → List (Char × Char) → Re
  | seq : Re → Re → Re
  | alt : Re → Re → Re
  | star : Bool → Re → Re
  | cap : Nat → Re → Re
  | eos : Re

/-- Captured groups: group number and captured text, latest first. -/
abbrev Caps := List (Nat × Str)

/-- Membership of a character in a class given by ranges, possibly negated. -/
def inClass (neg : Bool) (rs : List (Char × Char)) (c : Char) : Bool :=
  xor neg (rs.any (fun r => decide (r.1 ≤ c) && decide (c ≤ r.2)))

/-- Repetition of a matcher `m`: greedy tries one more round first, lazy tries
the continuation first; a round must consume input. -/
def iterate (m : Str → Caps → (Str → Caps → Option (Str × Caps)) → Option (Str × Caps))
    (greedy : Bool) :
    Nat → Str → Caps → (Str → Caps → Option (Str × Caps)) → Option (Str × Caps)
  | 0, s, c, k => k s c
  | n + 1, s, c, k =>
    if greedy then
      match m s c (fun s1 c1 => if s1.length < s.length then iterate m greedy n s1 c1 k else none) with
      | some r => some r
      | none => k s c
    else
      match k s c with
      | some r => some r
      | none => m s c (fun s1 c1 => if s1.length < s.length then iterate m greedy n s1 c1 k else none)

/-- Backtracking matcher in continuation-passing style: alternatives are tried
in order, so the first successful path is the one PCRE reports. -/
def Re.run : Re → Str → Caps → (Str → Caps → Option (Str × Caps)) → Option (Str × Caps)
  | .eps, s, c, k => k s c
  | .lit p, s, c, k => if p.isPrefixOf s then k (s.drop p.length) c else none
  | .cls neg rs, s, c, k =>
    match s with
    | [] => none
    | x :: t => if inClass neg rs x then k t c else none
  | .seq a b, s, c, k => a.run s c (fun s1 c1 => b.run s1 c1 k)
  | .alt a b, s, c, k =>
    match a.run s c k with
    | some r => some r
    | none => b.run s c k
  | .star g a, s, c, k => iterate a.run g (s.length + 1) s c k
  | .cap i a, s, c, k => a.run s c (fun s1 c1 => k s1 ((i, s.take (s.length - s1.length)) :: c1))
  | .eos, s, c, k => if s.isEmpty || s == ['\n'] then k s c else none

/-- `a+`. -/
def Re.plus (a : Re) : Re := .seq a (.star true a)

/-- `a?`. -/
def Re.opt (a : Re) : Re := .alt a .eps

/-- `\s`. -/
def Re.space : Re := .cls false [(' ', ' '), ('\t', '\r')]

/-- `\d`. -/
def Re.digit : Re := .cls false [('0', '9')]

/-- Concatenation of a list of patterns. -/
def Re.seqs : List Re → Re
  | [] => .eps
  | [a] => a
  | a :: b :: r => .seq a (Re.seqs (b :: r))

/-- Ordered alternation of a list of patterns. -/
def Re.alts : List Re → Re
  | [] => .cls false []
  | [a] => a
  | a :: b :: r => .alt a (Re.alts (b :: r))

/-- Ordered alternation of literals. -/
def Re.lits (l : List String) : Re := Re.alts (l.map (fun w => Re.lit w.toList))

/-- `\w`. -/
def Re.word : Re := .cls false [('a', 'z'), ('A', 'Z'), ('0', '9'), ('_', '_')]

/-- Any character, as `.` under `(?s)`. -/
def Re.anychar : Re := .cls true []

/-- `.` without `(?s)`: any character but the newline. -/
def Re.dot : Re := .cls true [('\n', '\n')]

/-- The optional quote ``[`'"]?``. -/
def Re.quote : Re := .cls false [('`', '`'), ('\'', '\''), ('"', '"')]

/-- `RegExMatch`: start and end offsets of the whole match and the text of the
groups, group 0 first. -/
structure RegExMatch where
  start : Nat
  stop : Nat
  whole : Str
  caps : Caps

/-- `RegExMatch::get_string(i)`: the text of group `i`, empty when the group did
not take part in the match. -/
def RegExMatch.get_string (m : RegExMatch) (i : Nat) : Str :=
  if i = 0 then m.whole
  else match m.caps.find? (fun p => p.1 == i) with
    | some p => p.2
    | none => []

/-- `RegEx::search` from a given offset: the leftmost position at which the
pattern matches. -/
def searchFrom (re : Re) : Nat → Str → Option RegExMatch
  | i, [] =>
    match re.run [] [] (fun s c => some (s, c)) with
    | some (_, c) => some ⟨i, i, [], c⟩
    | none => none
  | i, x :: t =>
    match re.run (x :: t) [] (fun s c => some (s, c)) with
    | some (rest, c) =>
      let n := (x :: t).length - rest.length
      some ⟨i, i + n, (x :: t).take n, c⟩
    | none => searchFrom re (i + 1) t

/-- Loop of `RegEx::search_all`: after a match the search resumes at its end, or
one past it when the match was empty. -/
def searchAllGo (re : Re) (subject : Str) : Nat → Nat → List RegExMatch
  | 0, _ => []
  | fuel + 1, offset =>
    if subject.length < offset then []
    else match searchFrom re offset (subject.drop offset) with
      | none => []
      | some m => m :: searchAllGo re subject fuel (if m.start = m.stop then m.stop + 1 else m.stop)

/-- `RegEx::search_all(subject)`. -/
def search_all (re : Re) (subject : Str) : List RegExMatch :=
  searchAllGo re subject (subject.length + 2) 0

/-! ## LegacyFormatUpgrader: `VectorAIPanel::_update_scene_format` -/

namespace VectorAIPanel

/-- Alphabet of generated unique ids. -/
def uid_chars : Str := "abcdefghijklmnopqrstuvwxyzABCDEFGHIJKLMNOPQRSTUVWXYZ0123456789".toList

/-- The uid loop: `uid://` followed by 22 characters `uid_chars[randi() % length]`;
`rng k` is the value of the k-th `randi()` call of the freshly seeded generator. -/
def generate_uid (rng : Nat → Nat) : Str :=
  "uid://".toList ++ (List.range 22).map (fun k => uid_chars.getD (rng k % uid_chars.length) 'a')

/-- Pattern `ExtResource\(\s*(\d+)\s*\)`. -/
def ext_resource_regex : Re :=
  .seq (.lit "ExtResource(".toList) (.seq (.star true Re.space)
    (.seq (.cap 1 Re.digit.plus) (.seq (.star true Re.space) (.lit ")".toList))))

/-- Pattern `SubResource\(\s*(\d+)\s*\)`. -/
def sub_resource_regex : Re :=
  .seq (.lit "SubResource(".toList) (.seq (.star true Re.space)
    (.seq (.cap 1 Re.digit.plus) (.seq (.star true Re.space) (.lit ")".toList))))

/-- Pattern `script\s*=\s*ExtResource\("([^"]+)"\)`. -/
def script_path_regex : Re :=
  .seq (.lit "script".toList) (.seq (.star true Re.space) (.seq (.lit "=".toList)
    (.seq (.star true Re.space) (.seq (.lit "ExtResource(\"".toList)
      (.seq (.cap 1 (Re.plus (.cls true [('"', '"')]))) (.lit "\")".toList))))))

/-- One round of the id-quoting loops: `kind(id)` becomes `kind("id")`. -/
def quote_id (kind : Str) (code : Str) (m : RegExMatch) : Str :=
  let id := m.get_string 1
  replace code (kind ++ id ++ ")".toList) (kind ++ "\"".toList ++ id ++ "\")".toList)

/-- One round of the script-reference loop: a path without `.gd`, `.vs` or `.cs`
gets `.gd` appended in `script = ExtResource("path")`. -/
def fix_script_ref (code : Str) (m : RegExMatch) : Str :=
  let script_path := m.get_string 1
  if !ends_with script_path ".gd".toList && !ends_with script_path ".vs".toList
      && !ends_with script_path ".cs".toList then
    replace code ("script = ExtResource(\"".toList ++ script_path ++ "\")".toList)
      ("script = ExtResource(\"".toList ++ (script_path ++ ".gd".toList) ++ "\")".toList)
  else code

/-- The fixed table of whole-string replacements applied after the id-quoting
loops, in source order (quote collapse, array types, class names, property
names). -/
def rename_table : List (Str × Str) :=
  [ ("\"\"".toList, "\"".toList),
    ("PoolIntArray".toList, "PackedInt32Array".toList),
    ("PoolByteArray".toList, "PackedByteArray".toList),
    ("PoolRealArray".toList, "PackedFloat32Array".toList),
    ("PoolStringArray".toList, "PackedStringArray".toList),
    ("PoolVector2Array".toList, "PackedVector2Array".toList),
    ("PoolVector3Array".toList, "PackedVector3Array".toList),
    ("PoolColorArray".toList, "PackedColorArray".toList),
    ("Spatial".toList, "Node3D".toList),
    ("KinematicBody".toList, "CharacterBody3D".toList),
    ("KinematicBody2D".toList, "CharacterBody2D".toList),
    ("RigidBody".toList, "RigidBody3D".toList),
    ("StaticBody".toList, "StaticBody3D".toList),
    ("MeshInstance".toList, "MeshInstance3D".toList),
    ("Sprite ".toList, "Sprite2D ".toList),
    ("type=\"Sprite\"".toList, "type=\"Sprite2D\"".toList),
    ("AnimatedSprite ".toList, "AnimatedSprite2D ".toList),
    ("type=\"AnimatedSprite\"".toList, "type=\"AnimatedSprite2D\"".toList),
    ("CollisionShape ".toList, "CollisionShape3D ".toList),
    ("type=\"CollisionShape\"".toList, "type=\"CollisionShape3D\"".toList),
    ("Camera ".toList, "Camera3D ".toList),
    ("type=\"Camera\"".toList, "type=\"Camera3D\"".toList),
    ("Light ".toList, "Light3D ".toList),
    ("type=\"Light\"".toList, "type=\"Light3D\"".toList),
    ("Position3D".toList, "Marker3D".toList),
    ("Position2D".toList, "Marker2D".toList),
    ("use_in_baked_light".toList, "bake_mode".toList),
    ("transform/".toList, []),
    ("z/z".toList, "z_index".toList),
    ("xy_scale".toList, "scale".toList),
    ("\"texture\"".toList, "\"texture\"".toList) ]

/-- Header rewrite: the two format-version replacements. -/
def update_header (code : Str) : Str :=
  replace (replace code "[gd_scene load_steps=".toList "[gd_scene format=3 load_steps=".toList)
    "[gd_scene format=2".toList "[gd_scene format=3".toList

/-- Unique-id injection: only when the text has no `uid=`. -/
def inject_uid (rng : Nat → Nat) (code : Str) : Str :=
  if find code "uid=".toList = -1 then
    replace code "[gd_scene format=3".toList
      ("[gd_scene format=3 uid=\"".toList ++ generate_uid rng ++ "\"".toList)
  else code

/-- Both id-quoting loops; each loop runs over the matches found before it
started. -/
def quote_ids (code : Str) : Str :=
  let c1 := (search_all ext_resource_regex code).foldl (quote_id "ExtResource(".toList) code
  (search_all sub_resource_regex c1).foldl (quote_id "SubResource(".toList) c1

/-- The replacement table applied in order. -/
def apply_renames (code : Str) : Str :=
  rename_table.foldl (fun acc r => replace acc r.1 r.2) code

/-- The script-reference loop over the matches found before it started. -/
def fix_script_refs (code : Str) : Str :=
  (search_all script_path_regex code).foldl fix_script_ref code

/-- `VectorAIPanel::_update_scene_format`: the new value of `p_scene_code`. -/
def _update_scene_format (rng : Nat → Nat) (p_scene_code : Str) : Str :=
  fix_script_refs (apply_renames (quote_ids (inject_uid rng (update_header p_scene_code))))

/-! ## Dependency table, storage and panel state -/

/-- `DependencyInfo` of `vector_ai_panel.h`. -/
structure DependencyInfo where
  path : Str
  code : Str
  type : Str
  created : Bool
  dependencies : List Str
  deriving DecidableEq

/-- `HashMap<String, V>`: keys are unique and iteration follows insertion
order, so the map is an association list. -/
abbrev Map (V : Type) := List (Str × V)

/-- `HashMap::has`. -/
def Map.has {V : Type} (m : Map V) (k : Str) : Bool := m.any (fun e => e.1 == k)

/-- Lookup of a key. -/
def Map.get? {V : Type} (m : Map V) (k : Str) : Option V :=
  match m with
  | [] => none
  | e :: r => if e.1 == k then some e.2 else Map.get? r k

/-- Assignment `m[k] = v`: an existing key keeps its place, a new key goes to
the end of the iteration order. -/
def Map.set {V : Type} (m : Map V) (k : Str) (v : V) : Map V :=
  match m with
  | [] => [(k, v)]
  | e :: r => if e.1 == k then (k, v) :: r else e :: Map.set r k v

/-- Keys in iteration order. -/
def Map.keys {V : Type} (m : Map V) : List Str := m.map (fun e => e.1)

/-- The table `pending_dependencies`. -/
abbrev Table := Map DependencyInfo

/-- Value-initialised `DependencyInfo`, what `operator[]` yields for a key that
is not in the table. -/
def DependencyInfo.empty : DependencyInfo := ⟨[], [], [], false, []⟩

/-- Read access `pending_dependencies[path]`. -/
def Table.at (t : Table) (k : Str) : DependencyInfo := (Map.get? t k).getD DependencyInfo.empty

/-- Storage behind `FileAccess` and `DirAccess`: the files with their content,
the existing directories, and the error codes that creating a directory or
opening a file for writing returns (0 is `OK`). -/
structure Storage where
  files : List (Str × Str)
  dirs : List Str
  mkdirErr : Str → Nat
  openErr : Str → Nat

/-- `FileAccess::exists`. -/
def Storage.file_exists (st : Storage) (path : Str) : Bool := Map.has st.files path

/-- `DirAccess::exists`. -/
def Storage.dir_exists (st : Storage) (dir : Str) : Bool := st.dirs.contains dir

/-- Content of a file, if it exists. -/
def Storage.read (st : Storage) (path : Str) : Option Str := Map.get? st.files path

/-- `DirAccess::make_dir_recursive_absolute`: the error code, and the storage
with the directory added on success. -/
def Storage.make_dir_recursive (st : Storage) (dir : Str) : Nat × Storage :=
  if st.mkdirErr dir = 0 then (0, { st with dirs := st.dirs ++ [dir] }) else (st.mkdirErr dir, st)

/-- `FileAccess::open(path, WRITE, &err)` as it behaves in the editor, where
safe save is on by default (`FileAccess::set_backup_save`, fed from the editor
setting `filesystem/on_save/safe_save_on_backup_then_rename`; core/io and
editor sources, outside the module): the handle writes to a temporary file, so
the result is the error code and the storage, on which the target is as it was
for as long as the handle is open. -/
def Storage.open_write (st : Storage) (path : Str) : Nat × Storage := (st.openErr path, st)

/-- `f->store_string(content)` together with the release of the handle `f` at
the end of the enclosing function, when the temporary file is renamed onto the
target: from then on the target exists and holds `content`. -/
def Storage.store_string (st : Storage) (path content : Str) : Storage :=
  { st with files := Map.set st.files path content }

/-- `itos` and `String::num_int64` on non-negative numbers. -/
def itos (n : Nat) : Str := (Nat.repr n).toList

/-- Functions the panel calls whose bodies are not part of the sources, and the
sources of nondeterminism: the script template generator (declared in
`vector_ai_panel.h`), `String::capitalize`, the random generators (`rng n k` is
the k-th `randi()` of the n-th generator created) and the clock. -/
structure Env where
  _generate_script_template : Str → Str → Str
  capitalize : Str → Str
  rng : Nat → Nat → Nat
  unix_time : Nat

/-- State of the panel that the pipeline reads and writes: the table, the
processing order, storage, the chat messages added by `_add_claude_message`
and the number of random generators created so far. -/
structure Panel where
  pending_dependencies : Table
  processing_order : List Str
  storage : Storage
  messages : List Str
  seeds : Nat

/-- `_add_claude_message(text)`: the chat gets one more message. -/
def Panel._add_claude_message (p : Panel) (text : Str) : Panel :=
  { p with messages := p.messages ++ [text] }

/-- `VectorAIPanel::_auto_apply_changes`. -/
def _auto_apply_changes (p : Panel) (p_code p_target_file : Str) : Panel :=
  let dir := get_base_dir p_target_file
  let mk : Nat × Storage :=
    if !dir.isEmpty && !p.storage.dir_exists dir then p.storage.make_dir_recursive dir
    else (0, p.storage)
  if mk.1 ≠ 0 then
    p._add_claude_message ("Error: Failed to create directory for ".toList ++ p_target_file
      ++ ". Error code: ".toList ++ itos mk.1)
  else
    let final_code := p_code
    let op := mk.2.open_write p_target_file
    if op.1 ≠ 0 then
      { p with storage := op.2 }._add_claude_message ("Error: Failed to save file ".toList
        ++ p_target_file ++ ". Error code: ".toList ++ itos op.1)
    else
      -- `f` is still open when `FileAccess::exists` runs: the test sees the target as it was
      -- before the call, and the stored text replaces the target when the function returns
      let action : Str :=
        if op.2.file_exists p_target_file then "updated".toList else "created".toList
      { p with storage := op.2.store_string p_target_file final_code }._add_claude_message
        ("Successfully ".toList ++ action ++ " ".toList ++ get_file p_target_file)

/-- `VectorAIPanel::_create_placeholder_resource`. -/
def _create_placeholder_resource (p : Panel) (p_resource_path : Str) : Panel :=
  let dir := get_base_dir p_resource_path
  let mk : Nat × Storage :=
    if !p.storage.dir_exists dir then p.storage.make_dir_recursive dir else (0, p.storage)
  if mk.1 ≠ 0 then
    p._add_claude_message ("Error: Failed to create directory for ".toList ++ p_resource_path
      ++ ". Error code: ".toList ++ itos mk.1)
  else
    let filename := to_lower (get_file p_resource_path)
    let resource_type : Str :=
      if get_extension p_resource_path == "tres".toList then
        if contains filename "tileset".toList then "TileSet".toList
        else if contains filename "theme".toList then "Theme".toList
        else if contains filename "material".toList then "Material".toList
        else if contains filename "font".toList then "Font".toList
        else if contains filename "texture".toList || contains filename "image".toList then
          "Texture2D".toList
        else "Resource".toList
      else "Resource".toList
    let content0 : Str := "[gd_resource type=\"".toList ++ resource_type
      ++ "\" format=3]\n\n[resource]\n".toList
    let content : Str :=
      if resource_type == "TileSet".toList then content0 ++ "tile_shape = 0\n".toList else content0
    let op := mk.2.open_write p_resource_path
    if op.1 ≠ 0 then
      { p with storage := op.2 }._add_claude_message
        ("Error: Failed to create placeholder resource ".toList ++ p_resource_path
          ++ ". Error code: ".toList ++ itos op.1)
    else
      { p with storage := op.2.store_string p_resource_path content }._add_claude_message
        ("Created placeholder resource: ".toList ++ get_file p_resource_path)

/-- Root node type that `_create_placeholder_scene` infers from the node name. -/
def placeholder_scene_node_type (node_name : Str) : Str :=
  let l := to_lower node_name
  if contains l "control".toList || contains l "panel".toList || contains l "ui".toList
      || contains l "menu".toList then "Control".toList
  else if contains l "sprite".toList then "Sprite2D".toList
  else if contains l "player".toList || contains l "character".toList
      || contains l "enemy".toList then "CharacterBody2D".toList
  else if contains l "3d".toList then "Node3D".toList
  else if contains l "tile".toList || contains l "map".toList then "TileMap".toList
  else "Node2D".toList

/-- `VectorAIPanel::_create_placeholder_scene`. -/
def _create_placeholder_scene (env : Env) (p : Panel) (p_scene_path : Str) : Panel :=
  let dir := get_base_dir p_scene_path
  let mk : Nat × Storage :=
    if !p.storage.dir_exists dir then p.storage.make_dir_recursive dir else (0, p.storage)
  if mk.1 ≠ 0 then
    p._add_claude_message ("Error: Failed to create directory for ".toList ++ p_scene_path
      ++ ". Error code: ".toList ++ itos mk.1)
  else
    let uid := generate_uid (env.rng p.seeds)
    let node_name := get_file (get_basename p_scene_path)
    let node_type := placeholder_scene_node_type node_name
    let content : Str := "[gd_scene format=3 uid=\"".toList ++ uid ++ "\"]\n\n".toList
      ++ ("[node name=\"".toList ++ node_name ++ "\" type=\"".toList ++ node_type ++ "\"]\n".toList)
    let op := mk.2.open_write p_scene_path
    if op.1 ≠ 0 then
      { p with storage := op.2, seeds := p.seeds + 1 }._add_claude_message
        ("Error: Failed to create placeholder scene ".toList ++ p_scene_path
          ++ ". Error code: ".toList ++ itos op.1)
    else
      { p with storage := op.2.store_string p_scene_path content, seeds := p.seeds + 1
        }._add_claude_message ("Created placeholder scene: ".toList ++ get_file p_scene_path)

/-! ## DependencyGraphScheduler: `VectorAIPanel::_process_dependencies` -/

/-- First loop: every scene entry with non-empty code containing `format=2` is
run through `_update_scene_format`, each call with a generator of its own. -/
def upgrade_scenes (env : Env) : Table → Nat → Table × Nat
  | [], seeds => ([], seeds)
  | E :: rest, seeds =>
    if E.2.type == "scene".toList && !E.2.code.isEmpty && find E.2.code "format=2".toList != -1 then
      let r := upgrade_scenes env rest (seeds + 1)
      ((E.1, { E.2 with code := _update_scene_format (env.rng seeds) E.2.code }) :: r.1, r.2)
    else
      let r := upgrade_scenes env rest seeds
      (E :: r.1, r.2)

/-- Inner counting loop for one dependency of one entry. -/
def count_dependency (t : Table) (reference_count : Map Int) (dep_path : Str) : Map Int :=
  if Map.has t dep_path then
    if !Map.has reference_count dep_path then Map.set reference_count dep_path 1
    else Map.set reference_count dep_path ((Map.get? reference_count dep_path).getD 0 + 1)
  else reference_count

/-- Body of the counting loop for one table entry. -/
def count_entry (t : Table) (reference_count : Map Int) (E : Str × DependencyInfo) : Map Int :=
  let rc := if !Map.has reference_count E.1 then Map.set reference_count E.1 0 else reference_count
  E.2.dependencies.foldl (count_dependency t) rc

/-- The map `reference_count` after the counting loop. -/
def count_references (t : Table) : Map Int := t.foldl (count_entry t) []

/-- `String::operator<`: lexicographic comparison of code points, a proper
prefix being smaller. -/
def str_lt : Str → Str → Bool
  | [], [] => false
  | [], _ :: _ => true
  | _ :: _, [] => false
  | a :: s, b :: t => if a.toNat < b.toNat then true else if b.toNat < a.toNat then false else str_lt s t

/-- The engine's comparator template `PairSort<F, S>` (core/templates/pair.h,
outside the panel sources) at `<String, int>`:
`A.first != B.first ? A.first < B.first : A.second < B.second`. -/
def PairSort (A B : Str × Int) : Bool :=
  if A.1 != B.1 then str_lt A.1 B.1 else decide (A.2 < B.2)

/-- Insertion of one element into a list sorted by `lt`. -/
def insert_sorted {α : Type} (lt : α → α → Bool) (x : α) : List α → List α
  | [] => [x]
  | y :: r => if lt x y then x :: y :: r else y :: insert_sorted lt x r

/-- `Vector::sort_custom<C>`: the elements in ascending order of the comparator. -/
def sort_custom {α : Type} (lt : α → α → Bool) (v : List α) : List α :=
  v.foldr (insert_sorted lt) []

/-- Keys pushed by the resource loop. -/
def resource_keys (t : Table) : List Str :=
  (t.filter (fun E => E.2.type == "resource".toList && !ends_with E.2.path ".gd".toList
    && !ends_with E.2.path ".tscn".toList)).map (fun E => E.1)

/-- Keys pushed by the script loop. -/
def script_keys (t : Table) : List Str :=
  (t.filter (fun E => E.2.type == "script".toList)).map (fun E => E.1)

/-- The vector `scene_order` before sorting: scene keys with their reference
count. -/
def scene_pairs (t : Table) : List (Str × Int) :=
  let reference_count := count_references t
  (t.filter (fun E => E.2.type == "scene".toList)).map (fun E =>
    (E.1, if Map.has reference_count E.1 then (Map.get? reference_count E.1).getD 0 else 0))

/-- The processing order pushed before the walk: resources, scripts, then the
sorted scenes. -/
def build_order (t : Table) : List Str :=
  resource_keys t ++ script_keys t ++ (sort_custom PairSort (scene_pairs t)).map (fun e => e.1)

/-- `Vector::insert(pos, value)`. -/
def insert_at (v : List Str) (pos : Nat) (x : Str) : List Str := v.take pos ++ x :: v.drop pos

/-- Root node type inferred by the walk for a scene placeholder. -/
def inline_scene_node_type (node_name : Str) : Str :=
  let l := to_lower node_name
  if contains l "control".toList || contains l "panel".toList || contains l "ui".toList
      || contains l "menu".toList then "Control".toList
  else if contains l "sprite".toList then "Sprite2D".toList
  else if contains l "player".toList || contains l "character".toList
      || contains l "enemy".toList then "CharacterBody2D".toList
  else if contains l "3d".toList then "Node3D".toList
  else "Node2D".toList

/-- Code of the script placeholder the walk synthesizes. -/
def script_placeholder_code : Str :=
  "# Generated by VectorAI as a dependency placeholder\nextends Node\n\nfunc _ready():\n\tpass\n".toList

/-- Body of the inner loop of the walk for one declared dependency; the state is
the panel together with the walk index `i`. -/
def check_dependency (env : Env) (st : Panel × Nat) (dep_path : Str) : Panel × Nat :=
  let p := st.1
  let i := st.2
  if !p.storage.file_exists dep_path && !Map.has p.pending_dependencies dep_path then
    let ext := get_extension dep_path
    if ext == "gd".toList then
      let script_dep : DependencyInfo :=
        { path := dep_path, type := "script".toList, created := false,
          code := script_placeholder_code, dependencies := [] }
      ({ p with pending_dependencies := Map.set p.pending_dependencies dep_path script_dep,
                processing_order := insert_at p.processing_order i dep_path }, i + 1)
    else if ext == "tscn".toList then
      let uid := generate_uid (env.rng p.seeds)
      let node_name := get_file (get_basename dep_path)
      let node_type := inline_scene_node_type node_name
      let code0 : Str := "[gd_scene format=3 uid=\"".toList ++ uid ++ "\"]\n\n[node name=\"".toList
        ++ node_name ++ "\" type=\"".toList ++ node_type ++ "\"]\n".toList
      let script_path := get_basename dep_path ++ ".gd".toList
      let code1 : Str :=
        if p.storage.file_exists script_path || Map.has p.pending_dependencies script_path then
          code0 ++ "script = ExtResource(\"".toList ++ get_file script_path ++ "\")\n".toList
        else code0
      let scene_dep : DependencyInfo :=
        { path := dep_path, type := "scene".toList, created := false, code := code1,
          dependencies := [] }
      ({ p with pending_dependencies := Map.set p.pending_dependencies dep_path scene_dep,
                processing_order := insert_at p.processing_order i dep_path,
                seeds := p.seeds + 1 }, i + 1)
    else if ext == "tres".toList then
      (_create_placeholder_resource p dep_path, i)
    else st
  else st

/-- Base type of a script placeholder, inferred from the lower-cased file name. -/
def script_base_type (file_name : Str) : Str :=
  if contains file_name "player".toList || contains file_name "character".toList
      || contains file_name "enemy".toList then "CharacterBody2D".toList
  else if contains file_name "ui".toList || contains file_name "menu".toList
      || contains file_name "button".toList then "Control".toList
  else if contains file_name "sprite".toList then "Sprite2D".toList
  else if contains file_name "3d".toList then "Node3D".toList
  else if contains file_name "resource".toList then "Resource".toList
  else "Node".toList

/-- The write inside the block `// Now apply this file` for an entry that is
not yet created: non-empty code is applied as it is, an empty script gets the
generated template stored in the entry and applied, an empty scene or `.tres`
resource gets its placeholder file. -/
def materialize (env : Env) (p : Panel) (path : Str) : Panel :=
  let info := Table.at p.pending_dependencies path
  if !info.code.isEmpty then _auto_apply_changes p info.code info.path
  else if info.type == "script".toList then
    let file_name := to_lower (get_file info.path)
    let base_type := script_base_type file_name
    let class_name := replace (env.capitalize (get_file (get_basename info.path))) " ".toList []
    let code := env._generate_script_template base_type class_name
    _auto_apply_changes
      { p with pending_dependencies := Map.set p.pending_dependencies path { info with code := code } }
      code info.path
  else if info.type == "scene".toList then _create_placeholder_scene env p info.path
  else if ends_with info.path ".tres".toList then _create_placeholder_resource p info.path
  else p

/-- The block `// Now apply this file` for the entry stored under `path`: an
entry not yet created is materialized and then marked created. -/
def apply_entry (env : Env) (p : Panel) (path : Str) : Panel :=
  let info := Table.at p.pending_dependencies path
  if !info.created then
    let p1 := materialize env p path
    { p1 with pending_dependencies :=
        Map.set p1.pending_dependencies path { Table.at p1.pending_dependencies path with created := true } }
  else p

/-- One iteration of the walk at index `i` (with `i < processing_order.size()`):
the panel afterwards and the index the `for` loop continues with. -/
def walk_step (env : Env) (p : Panel) (i : Nat) : Panel × Nat :=
  let path := p.processing_order.getD i []
  let info := Table.at p.pending_dependencies path
  let st := info.dependencies.foldl (check_dependency env) (p, i)
  (apply_entry env st.1 path, st.2 + 1)

/-- The walk `for (int i = 0; i < processing_order.size(); i++)`; `none` when
the fuel runs out before the loop condition fails. -/
def walk (env : Env) : Nat → Panel → Nat → Option Panel
  | 0, _, _ => none
  | fuel + 1, p, i =>
    if i < p.processing_order.length then
      let st := walk_step env p i
      walk env fuel st.1 st.2
    else some p

/-- The panel when the walk starts: scenes upgraded and the order pushed onto
`processing_order`. -/
def prepare (env : Env) (p : Panel) : Panel :=
  let up := upgrade_scenes env p.pending_dependencies p.seeds
  { p with pending_dependencies := up.1, seeds := up.2,
           processing_order := p.processing_order ++ build_order up.1 }

/-- `VectorAIPanel::_process_dependencies`. -/
def _process_dependencies (env : Env) (p : Panel) : Option Panel :=
  let q := prepare env p
  walk env (q.processing_order.length + 1) q 0

/-! ## DependencyScanner: `VectorAIPanel::_scan_for_dependencies` -/

-- Source pattern: (?:create|need|requires?|missing|using|include|import|load|add|generate|make|create)\s+(?:a|an|the)?\s*(?:new)?\s*(?:file|script|scene|resource|subscene|tileset|asset)?\s*(?:called|named)?\s*[`'"]?([\w\.\-/]+\.(tres|tscn|gd|res|import|shader))[`'"]?
/-- The scanner's `resource_regex`: a verb, optional article, `new`, noun and `called`/`named`, then a possibly quoted path with one of six extensions. -/
def scan_resource_regex : Re :=
  Re.seqs
    [ Re.alts [.lit "create".toList, .lit "need".toList, .seq (.lit "require".toList) (Re.opt (.lit "s".toList)),
        .lit "missing".toList, .lit "using".toList, .lit "include".toList, .lit "import".toList,
        .lit "load".toList, .lit "add".toList, .lit "generate".toList, .lit "make".toList,
        .lit "create".toList],
      Re.space.plus, Re.opt (Re.lits ["a", "an", "the"]), .star true Re.space,
      Re.opt (.lit "new".toList), .star true Re.space,
      Re.opt (Re.lits ["file", "script", "scene", "resource", "subscene", "tileset", "asset"]),
      .star true Re.space, Re.opt (Re.lits ["called", "named"]), .star true Re.space,
      Re.opt Re.quote,
      .cap 1 (Re.seqs
        [ Re.plus (.cls false [('a', 'z'), ('A', 'Z'), ('0', '9'), ('_', '_'), ('.', '.'), ('-', '-'), ('/', '/')]),
          .lit ".".toList, .cap 2 (Re.lits ["tres", "tscn", "gd", "res", "import", "shader"]) ]),
      Re.opt Re.quote ]

-- Source pattern: (?:player|character|enemy|item|ui|menu|hud|level|world|button|panel|container|node)\s+(?:scene|subscene|component)\s*(?:called|named)?\s*[`'"]?([\w\-/]+)[`'"]?
/-- The scanner's `subscene_regex`: a domain noun, `scene`/`subscene`/`component`, then a possibly quoted name. -/
def subscene_regex : Re :=
  Re.seqs
    [ Re.lits ["player", "character", "enemy", "item", "ui", "menu", "hud", "level", "world",
        "button", "panel", "container", "node"],
      Re.space.plus, Re.lits ["scene", "subscene", "component"], .star true Re.space,
      Re.opt (Re.lits ["called", "named"]), .star true Re.space, Re.opt Re.quote,
      .cap 1 (Re.plus (.cls false [('a', 'z'), ('A', 'Z'), ('0', '9'), ('_', '_'), ('-', '-'), ('/', '/')])),
      Re.opt Re.quote ]

-- Source pattern: (?:create|make|generate|need)\s+(?:the\s+)?(?:following|these)\s+(?:files|scenes|scripts):\s*(?:\n|\r|\s)*(.+?)(?:(?:\n\n)|$|\Z)
/-- The scanner's `file_list_regex`: the announcement of a list and the text up to a blank line or the end. -/
def file_list_regex : Re :=
  Re.seqs
    [ Re.lits ["create", "make", "generate", "need"], Re.space.plus,
      Re.opt (.seq (.lit "the".toList) Re.space.plus), Re.lits ["following", "these"], Re.space.plus,
      Re.lits ["files", "scenes", "scripts"], .lit ":".toList, .star true Re.space,
      .star true (Re.alts [.lit "\n".toList, .lit "\r".toList, Re.space]),
      .cap 1 (.seq Re.dot (.star false Re.dot)),
      Re.alts [.lit "\n\n".toList, .eos, .eos] ]

-- Source pattern: (?:[-*•]|\d+\.)\s*([\w\-/]+(?:\.[\w]+)?)
/-- The scanner's `list_item_regex`: a bullet or a number, then a file name. -/
def list_item_regex : Re :=
  Re.seqs
    [ .alt (.cls false [('-', '-'), ('*', '*'), ('•', '•')]) (.seq Re.digit.plus (.lit ".".toList)),
      .star true Re.space,
      .cap 1 (.seq
        (Re.plus (.cls false [('a', 'z'), ('A', 'Z'), ('0', '9'), ('_', '_'), ('-', '-'), ('/', '/')]))
        (Re.opt (.seq (.lit ".".toList) Re.word.plus))) ]

-- Source pattern: (?:refer(?:s|ring)?|depend(?:s|ing)?|based on|needs|using)\s+(?:the|a|an)?\s+(?:script|scene|resource|file)\s+[`'"]([\w\-/\.]+)[`'"]
/-- The scanner's `description_regex`: a referring verb, an article, a noun, then a quoted name. -/
def description_regex : Re :=
  Re.seqs
    [ Re.alts [.seq (.lit "refer".toList) (Re.opt (Re.lits ["s", "ring"])),
        .seq (.lit "depend".toList) (Re.opt (Re.lits ["s", "ing"])),
        .lit "based on".toList, .lit "needs".toList, .lit "using".toList],
      Re.space.plus, Re.opt (Re.lits ["the", "a", "an"]), Re.space.plus,
      Re.lits ["script", "scene", "resource", "file"], Re.space.plus, Re.quote,
      .cap 1 (Re.plus (.cls false [('a', 'z'), ('A', 'Z'), ('0', '9'), ('_', '_'), ('-', '-'), ('/', '/'), ('.', '.')])),
      Re.quote ]

/-- What one scan rule derives from one match: the path to track, its type, and
whether a companion script is considered once the path has been added. -/
structure Candidate where
  path : Str
  type : Str
  with_script : Bool

/-- `if (!path.begins_with("res://")) path = "res://" + path;`. -/
def ensure_res (path : Str) : Str :=
  if !begins_with path "res://".toList then "res://".toList ++ path else path

/-- Type chosen from an extension: `gd` is a script, `tscn` a scene, anything
else a resource. -/
def type_of_ext (ext : Str) : Str :=
  if ext == "gd".toList then "script".toList
  else if ext == "tscn".toList then "scene".toList
  else "resource".toList

/-- Code of the companion script the scanner pairs with a scene. -/
def companion_script_code : Str :=
  "# Generated by VectorAI as a dependency placeholder\nextends Node2D\n\nfunc _ready():\n\tpass\n".toList

/-- The guarded insertion every scan rule ends with: nothing happens when the
path is a key of the table or exists on storage; otherwise an entry with empty
code is added and, when asked for, the companion script under the same guard. -/
def track (p : Panel) (c : Candidate) : Panel :=
  if !Map.has p.pending_dependencies c.path && !p.storage.file_exists c.path then
    let t1 := Map.set p.pending_dependencies c.path
      { path := c.path, code := [], type := c.type, created := false, dependencies := [] }
    if c.with_script then
      let script_path := get_basename c.path ++ ".gd".toList
      if !Map.has t1 script_path && !p.storage.file_exists script_path then
        let script_dep : DependencyInfo :=
          { path := script_path, code := companion_script_code, type := "script".toList,
            created := false, dependencies := [] }
        { p with pending_dependencies := Map.set t1 script_path script_dep }
      else { p with pending_dependencies := t1 }
    else { p with pending_dependencies := t1 }
  else p

/-- First rule, one match of `resource_regex`. -/
def resource_candidate (m : RegExMatch) : Option Candidate :=
  let resource_path := m.get_string 1
  if !resource_path.isEmpty then
    let resource_path := ensure_res resource_path
    some ⟨resource_path, type_of_ext (get_extension resource_path), false⟩
  else none

/-- Second rule, one match of `subscene_regex`. -/
def subscene_candidate (m : RegExMatch) : Option Candidate :=
  let scene_name := m.get_string 1
  if !scene_name.isEmpty then
    let scene_name := if !ends_with scene_name ".tscn".toList then scene_name ++ ".tscn".toList else scene_name
    some ⟨ensure_res scene_name, "scene".toList, true⟩
  else none

/-- Third rule, one list item of one matched file list. -/
def list_item_candidate (file_list : Str) (m : RegExMatch) : Option Candidate :=
  let file_name := m.get_string 1
  if !file_name.isEmpty then
    let ext := get_extension file_name
    let typed : Str × Str :=
      if ext.isEmpty then
        if find (to_lower file_list) "script".toList != -1 || find file_name "Controller".toList != -1
            || find file_name "Manager".toList != -1 then
          (file_name ++ ".gd".toList, "script".toList)
        else (file_name ++ ".tscn".toList, "scene".toList)
      else (file_name, type_of_ext ext)
    some ⟨ensure_res typed.1, typed.2,
      typed.2 == "scene".toList && find (to_lower file_list) "no script".toList == -1⟩
  else none

/-- Third rule, one match of `file_list_regex`: the candidates of its items. -/
def file_list_candidates (m : RegExMatch) : List Candidate :=
  let file_list := m.get_string 1
  (search_all list_item_regex file_list).filterMap (list_item_candidate file_list)

/-- Fourth rule, one match of `description_regex`. -/
def description_candidate (p_response : Str) (m : RegExMatch) : Option Candidate :=
  let file_name := m.get_string 1
  if !file_name.isEmpty then
    let ext := get_extension file_name
    let typed : Str × Str :=
      if ext.isEmpty then
        if find (to_lower p_response) (file_name ++ ".gd".toList) != -1
            || find (to_lower p_response) ("script ".toList ++ file_name) != -1 then
          (file_name ++ ".gd".toList, "script".toList)
        else (file_name ++ ".tscn".toList, "scene".toList)
      else (file_name, type_of_ext ext)
    some ⟨ensure_res typed.1, typed.2, false⟩
  else none

/-- All candidates of a response in the order the four loops meet them. -/
def scan_candidates (p_response : Str) : List Candidate :=
  (search_all scan_resource_regex p_response).filterMap resource_candidate
  ++ (search_all subscene_regex p_response).filterMap subscene_candidate
  ++ ((search_all file_list_regex p_response).map file_list_candidates).flatten
  ++ (search_all description_regex p_response).filterMap (description_candidate p_response)

/-- `VectorAIPanel::_scan_for_dependencies`: the four loops, each running the
guarded insertion on its candidates in match order. -/
def _scan_for_dependencies (p : Panel) (p_response : Str) : Panel :=
  (scan_candidates p_response).foldl track p

/-! ## TextBlockExtractor: the fast and the legacy extractors -/

/-- One extracted block, the `Dictionary` with keys `code`, `file_path` and (fast
extractor only) `type`; the legacy extractors leave `type` empty. -/
structure CodeBlock where
  code : Str
  file_path : Str
  type : Str
  deriving DecidableEq

/-- `RegEx::search(subject)`: the first match. -/
def search (re : Re) (subject : Str) : Option RegExMatch := searchFrom re 0 subject

/-- Pattern `\[node name="([^"]+)"`. -/
def node_regex : Re :=
  .seq (.lit "[node name=\"".toList) (.seq (.cap 1 (Re.plus (.cls true [('"', '"')]))) (.lit "\"".toList))

/-- Pattern `class_name\s+([A-Za-z0-9_]+)`. -/
def class_regex : Re :=
  .seq (.lit "class_name".toList) (.seq Re.space.plus (.cap 1 Re.word.plus))

/-- `VectorAIPanel::_generate_scene_path`. -/
def _generate_scene_path (env : Env) (p_code : Str) : Str :=
  match search node_regex p_code with
  | some m => "res://".toList ++ m.get_string 1 ++ ".tscn".toList
  | none => "res://Scene_".toList ++ itos env.unix_time ++ ".tscn".toList

/-- `VectorAIPanel::_generate_script_path`. -/
def _generate_script_path (env : Env) (p_code : Str) : Str :=
  match search class_regex p_code with
  | some m => "res://".toList ++ m.get_string 1 ++ ".gd".toList
  | none => "res://Script_".toList ++ itos env.unix_time ++ ".gd".toList

/-- The hint the fast extractor reads from the text before a block: the line
that starts at the last `File:`, with every `File:` removed and the edges
stripped; empty when there is no `File:`. -/
def fast_file_hint (text_before : Str) : Str :=
  let file_pos := rfind text_before "File:".toList
  if file_pos != -1 then
    let file_line := substrFrom text_before file_pos.toNat
    let line_end := find file_line "\n".toList
    let file_line := if line_end != -1 then substr file_line 0 line_end.toNat else file_line
    strip_edges (replace file_line "File:".toList [])
  else []

/-- Path normalization of the fast extractor for a non-empty hint:
`if (!file_path.begins_with("res://")) file_path = "res://" + file_path;`. -/
def fast_normalize (file_path : Str) : Str :=
  if !begins_with file_path "res://".toList then "res://".toList ++ file_path else file_path

/-- Body of the loop of `_extract_code_blocks_fast` for the part at odd index
`i`: the block it pushes, or nothing when it `continue`s. -/
def fast_block (env : Env) (parts : List Str) (i : Nat) : Option CodeBlock :=
  let language_and_code := parts.getD i []
  let newline_pos := find language_and_code "\n".toList
  if newline_pos == -1 then none
  else
    let language := strip_edges (substr language_and_code 0 newline_pos.toNat)
    let code := substrFrom language_and_code (newline_pos.toNat + 1)
    if (strip_edges code).isEmpty then none
    else
      let text_before := parts.getD (i - 1) []
      let file_path := fast_file_hint text_before
      if file_path.isEmpty then
        if language == "tscn".toList || begins_with code "[gd_scene".toList then
          some ⟨code, _generate_scene_path env code, "scene".toList⟩
        else if language == "gdscript".toList || language == "gd".toList
            || find code "extends ".toList != -1 then
          some ⟨code, _generate_script_path env code, "script".toList⟩
        else none
      else
        let file_path := fast_normalize file_path
        let type : Str :=
          if ends_with file_path ".tscn".toList then "scene".toList
          else if ends_with file_path ".gd".toList then "script".toList
          else "resource".toList
        some ⟨code, file_path, type⟩

/-- Indices visited by `for (int i = 1; i < parts.size() - 1; i += 2)`. -/
def fast_indices (size : Nat) : List Nat :=
  (List.range size).filter (fun i => i % 2 == 1 && decide (i + 1 < size))

/-- `VectorAIPanel::_extract_code_blocks_fast`: the return value and the new
content of `r_code_blocks`. -/
def _extract_code_blocks_fast (env : Env) (p_response : Str) (r_code_blocks : List CodeBlock) :
    Bool × List CodeBlock :=
  let parts := split p_response "```".toList
  if parts.length < 3 then (false, r_code_blocks)
  else
    let blocks := r_code_blocks ++ (fast_indices parts.length).filterMap (fast_block env parts)
    (decide (blocks.length > 0), blocks)

-- Source pattern: ```(?:[a-zA-Z0-9_+-]+)?\s*\n((?s:.+?))\n```
/-- The fenced-block pattern of both legacy extractors: the fence, an optional
language tag, blanks up to a newline, the lazily matched content, and a newline
followed by the closing fence. -/
def block_regex : Re :=
  Re.seqs
    [ .lit "```".toList,
      Re.opt (Re.plus (.cls false [('a', 'z'), ('A', 'Z'), ('0', '9'), ('_', '_'), ('+', '+'), ('-', '-')])),
      .star true Re.space, .lit "\n".toList,
      .cap 1 (.seq Re.anychar (.star false Re.anychar)),
      .lit "\n```".toList ]

/-- The tail shared by both path-hint patterns: an optional filler word, an
optional quote, the captured path with an extension, an optional quote. -/
def file_regex_tail : List Re :=
  [ Re.opt (Re.lits ["the ", "file ", "a ", "an "]), Re.opt Re.quote,
    .cap 1 (Re.seqs
      [ Re.plus (.cls false [('a', 'z'), ('A', 'Z'), ('0', '9'), ('_', '_'), ('.', '.'), ('-', '-'), ('/', '/')]),
        .lit ".".toList, Re.plus (.cls false [('a', 'z'), ('A', 'Z'), ('0', '9')]) ]),
    Re.opt Re.quote ]

-- Source pattern: (?:file:|path:|for |in |to |creates?|save|generating?|make|write)(?:the |file |a |an )?[`'"]?([\w\.\-/]+\.[a-zA-Z0-9]+)[`'"]?
/-- The path-hint pattern of `_extract_multiple_code_blocks`. -/
def multi_file_regex : Re :=
  Re.seqs
    (Re.alts [.lit "file:".toList, .lit "path:".toList, .lit "for ".toList, .lit "in ".toList,
        .lit "to ".toList, .seq (.lit "create".toList) (Re.opt (.lit "s".toList)), .lit "save".toList,
        .seq (.lit "generatin".toList) (Re.opt (.lit "g".toList)), .lit "make".toList,
        .lit "write".toList]
      :: file_regex_tail)

-- Source pattern: (?:file:|path:|in |to |for |save|generate|create|make|write)(?:the |file |a |an )?[`'"]?([\w\.\-/]+\.[a-zA-Z0-9]+)[`'"]?
/-- The path-hint pattern of `_extract_code_block`. -/
def single_file_regex : Re :=
  Re.seqs
    (Re.lits ["file:", "path:", "in ", "to ", "for ", "save", "generate", "create", "make", "write"]
      :: file_regex_tail)

/-- Path normalization of the legacy extractors for a non-empty hint: a
relative path gets the prefix, a path starting with `/` is rebased, anything
else is kept. -/
def legacy_normalize (path : Str) : Str :=
  if !begins_with path "res://".toList && !begins_with path "/".toList then "res://".toList ++ path
  else if begins_with path "/".toList then "res://".toList ++ substrFrom path 1
  else path

/-- Extension guessed for a generic resource from the shape of its content. -/
def guess_resource_ext (code : Str) : Str :=
  if begins_with code "\x7b".toList || begins_with code "[".toList then ".json".toList
  else if find code "<".toList != -1 && find code ">".toList != -1 then ".xml".toList
  else ".txt".toList

/-- Path that `_extract_multiple_code_blocks` derives from the content when no
hint was found. -/
def multi_path_from_content (env : Env) (code : Str) : Str :=
  if begins_with code "[gd_scene".toList then
    let scene_name0 := "scene_".toList ++ itos env.unix_time
    let scene_name :=
      match search node_regex code with
      | some m =>
        if !(m.get_string 1).isEmpty then replace (to_lower (m.get_string 1)) " ".toList "_".toList
        else scene_name0
      | none => scene_name0
    "res://".toList ++ scene_name ++ ".tscn".toList
  else if find code "extends ".toList != -1 || find code "func ".toList != -1
      || find code "class_name ".toList != -1 then
    let script_name0 := "script_".toList ++ itos env.unix_time
    let script_name :=
      match search class_regex code with
      | some m => if !(m.get_string 1).isEmpty then m.get_string 1 else script_name0
      | none => script_name0
    "res://".toList ++ script_name ++ ".gd".toList
  else "res://resource_".toList ++ itos env.unix_time ++ guess_resource_ext code

/-- The hinted path `_extract_multiple_code_blocks` finds for a block: the last
hint in the text before the block, normalized; empty when there is none. -/
def multi_hinted_path (text_before_block : Str) : Str :=
  match (search_all multi_file_regex text_before_block).getLast? with
  | some path_match =>
    if !(path_match.get_string 1).isEmpty then legacy_normalize (path_match.get_string 1) else []
  | none => []

/-- Body of the loop of `_extract_multiple_code_blocks` for one fenced block. -/
def multi_block (env : Env) (p_text : Str) (m : RegExMatch) : CodeBlock :=
  let code := m.get_string 1
  let file_path := multi_hinted_path (substr p_text 0 m.start)
  let file_path := if file_path.isEmpty then multi_path_from_content env code else file_path
  ⟨code, file_path, []⟩

/-- `VectorAIPanel::_extract_multiple_code_blocks`: the return value and the new
content of `r_code_blocks`. -/
def _extract_multiple_code_blocks (env : Env) (p_text : Str) (r_code_blocks : List CodeBlock) :
    Bool × List CodeBlock :=
  let found := search_all block_regex p_text
  if found.length == 0 then (false, r_code_blocks)
  else
    let blocks := r_code_blocks ++ found.map (multi_block env p_text)
    (decide (blocks.length > 0), blocks)

/-- Path that `_extract_code_block` derives from the content when no hint was
found. -/
def single_path_from_content (env : Env) (extracted_code : Str) : Str :=
  if begins_with extracted_code "[gd_scene".toList then
    "res://".toList ++ ("scene_".toList ++ itos env.unix_time) ++ ".tscn".toList
  else if find extracted_code "extends ".toList != -1 || find extracted_code "func ".toList != -1
      || find extracted_code "class_name ".toList != -1 then
    "res://".toList ++ ("script_".toList ++ itos env.unix_time) ++ ".gd".toList
  else "res://resource_".toList ++ itos env.unix_time ++ guess_resource_ext extracted_code

/-- `VectorAIPanel::_extract_code_block`: the return value and the new values
of `r_code` and `r_file_path`. -/
def _extract_code_block (env : Env) (p_text r_code r_file_path : Str) : Bool × Str × Str :=
  let r_file_path :=
    match search single_file_regex p_text with
    | some file_match =>
      if !(file_match.get_string 1).isEmpty then legacy_normalize (file_match.get_string 1)
      else r_file_path
    | none => r_file_path
  match search_all block_regex p_text with
  | m :: _ =>
    let extracted_code := m.get_string 1
    if !extracted_code.isEmpty then
      (true, extracted_code,
        if r_file_path.isEmpty then single_path_from_content env extracted_code else r_file_path)
    else (false, r_code, r_file_path)
  | [] => (false, r_code, r_file_path)

/-! ## Materializer of the fast path: validation and `_apply_code_block` -/

/-- `VectorAIPanel::_validate_tscn_code`. -/
def _validate_tscn_code (p_code : Str) : Bool :=
  if !begins_with p_code "[gd_scene".toList then false
  else if find p_code "format=3".toList == -1 then false
  else if find p_code "[node".toList == -1 then false
  else true

/-- `VectorAIPanel::_apply_code_block`: the return value and the panel (its
storage) afterwards. -/
def _apply_code_block (p : Panel) (p_code p_file_path p_type : Str) : Bool × Panel :=
  if p_type == "scene".toList && !_validate_tscn_code p_code then (false, p)
  else
    let dir := get_base_dir p_file_path
    let mk : Nat × Storage :=
      if !dir.isEmpty && !p.storage.dir_exists dir then p.storage.make_dir_recursive dir
      else (0, p.storage)
    if mk.1 ≠ 0 then (false, p)
    else
      let op := mk.2.open_write p_file_path
      if op.1 ≠ 0 then (false, { p with storage := op.2 })
      else (true, { p with storage := op.2.store_string p_file_path p_code })

/-- Body of the loop of `_process_and_apply_code` for one block; the state is
the flag `success`, the vector `r_modified_files` and the panel. -/
def apply_block_step (st : Bool × List Str × Panel) (b : CodeBlock) : Bool × List Str × Panel :=
  let r := _apply_code_block st.2.2 b.code b.file_path b.type
  if r.1 then (st.1, st.2.1 ++ [get_file b.file_path], r.2)
  else (false, st.2.1, r.2)

/-- `VectorAIPanel::_process_and_apply_code`: the return value, the new content
of `r_modified_files` and the panel afterwards. -/
def _process_and_apply_code (env : Env) (p : Panel) (p_response : Str)
    (r_modified_files : List Str) : Bool × List Str × Panel :=
  let ex := _extract_code_blocks_fast env p_response []
  if !ex.1 then (false, r_modified_files, p)
  else ex.2.foldl apply_block_step (true, r_modified_files, p)

/-! ## Scene and script dependency analyzers, and `_detect_code_changes` -/

/-- The reference head `(?:ExtResource|Resource)\(\s*["']([^"']+)["']\s*\)` shared
by three scene patterns: the capture is the quoted path. -/
def quoted_reference : List Re :=
  [ Re.lits ["ExtResource", "Resource"], .lit "(".toList, .star true Re.space,
    .cls false [('"', '"'), ('\'', '\'')],
    .cap 1 (Re.plus (.cls true [('"', '"'), ('\'', '\'')])),
    .cls false [('"', '"'), ('\'', '\'')], .star true Re.space, .lit ")".toList ]

/-- Pattern `script\s*=\s*(?:ExtResource|Resource)\(\s*["']([^"']+)["']\s*\)`. -/
def scene_script_regex : Re :=
  Re.seqs ([.lit "script".toList, .star true Re.space, .lit "=".toList, .star true Re.space]
    ++ quoted_reference)

/-- Pattern `(?:ExtResource|Resource)\(\s*["']([^"']+)["']\s*\)`. -/
def scene_resource_regex : Re := Re.seqs quoted_reference

/-- Pattern
`(?:instance|packed_scene)\s*=\s*(?:ExtResource|Resource)\(\s*["']([^"']+)["']\s*\)`. -/
def instance_regex : Re :=
  Re.seqs ([Re.lits ["instance", "packed_scene"], .star true Re.space, .lit "=".toList,
    .star true Re.space] ++ quoted_reference)

/-- Pattern
`\[node\s+name=\s*["'][^"']*["']\s+(?:instance|parent)=\s*["']([^"']+)["']`. -/
def child_scene_regex : Re :=
  Re.seqs
    [ .lit "[node".toList, Re.space.plus, .lit "name=".toList, .star true Re.space,
      .cls false [('"', '"'), ('\'', '\'')],
      .star true (.cls true [('"', '"'), ('\'', '\'')]),
      .cls false [('"', '"'), ('\'', '\'')], Re.space.plus,
      Re.lits ["instance", "parent"], .lit "=".toList, .star true Re.space,
      .cls false [('"', '"'), ('\'', '\'')],
      .cap 1 (Re.plus (.cls true [('"', '"'), ('\'', '\'')])),
      .cls false [('"', '"'), ('\'', '\'')] ]

/-- Pattern `preload\(\s*["']([^"']+)["']\s*\)`. -/
def preload_regex : Re :=
  Re.seqs
    [ .lit "preload(".toList, .star true Re.space, .cls false [('"', '"'), ('\'', '\'')],
      .cap 1 (Re.plus (.cls true [('"', '"'), ('\'', '\'')])),
      .cls false [('"', '"'), ('\'', '\'')], .star true Re.space, .lit ")".toList ]

/-- Pattern `load\(\s*["']([^"']+)["']\s*\)`. -/
def load_regex : Re :=
  Re.seqs
    [ .lit "load(".toList, .star true Re.space, .cls false [('"', '"'), ('\'', '\'')],
      .cap 1 (Re.plus (.cls true [('"', '"'), ('\'', '\'')])),
      .cls false [('"', '"'), ('\'', '\'')], .star true Re.space, .lit ")".toList ]

-- Source pattern: res://[\w\.\-/]+\.(tres|tscn|gd|res|import|shader)
/-- The direct-reference pattern of the script analyzer: `res://`, path
characters, a dot and one of six extensions. -/
def script_resource_regex : Re :=
  Re.seqs
    [ .lit "res://".toList,
      Re.plus (.cls false [('a', 'z'), ('A', 'Z'), ('0', '9'), ('_', '_'), ('.', '.'), ('-', '-'), ('/', '/')]),
      .lit ".".toList, .cap 1 (Re.lits ["tres", "tscn", "gd", "res", "import", "shader"]) ]

/-- Body shared by the loops over group 1: a non-empty path gets the `res://`
prefix when it lacks it and is pushed unless the vector has it. -/
def add_dependency (r_dependencies : List Str) (m : RegExMatch) : List Str :=
  let path := m.get_string 1
  if !path.isEmpty then
    let path := if !begins_with path "res://".toList then "res://".toList ++ path else path
    if !r_dependencies.contains path then r_dependencies ++ [path] else r_dependencies
  else r_dependencies

/-- Body of the last loop of the script analyzer: the whole match is pushed
unless it is empty or the vector has it. -/
def add_direct_dependency (r_dependencies : List Str) (m : RegExMatch) : List Str :=
  let path := m.get_string 0
  if !path.isEmpty && !r_dependencies.contains path then r_dependencies ++ [path]
  else r_dependencies

/-- `VectorAIPanel::_extract_dependencies_from_scene`: the new content of
`r_dependencies`. -/
def _extract_dependencies_from_scene (p_scene_code : Str) (r_dependencies : List Str) : List Str :=
  let d1 := (search_all scene_script_regex p_scene_code).foldl add_dependency r_dependencies
  let d2 := (search_all scene_resource_regex p_scene_code).foldl add_dependency d1
  let d3 := (search_all instance_regex p_scene_code).foldl add_dependency d2
  (search_all child_scene_regex p_scene_code).foldl add_dependency d3

/-- `VectorAIPanel::_extract_dependencies_from_script`: the new content of
`r_dependencies`. -/
def _extract_dependencies_from_script (p_script_code : Str) (r_dependencies : List Str) : List Str :=
  let d1 := (search_all preload_regex p_script_code).foldl add_dependency r_dependencies
  let d2 := (search_all load_regex p_script_code).foldl add_dependency d1
  (search_all script_resource_regex p_script_code).foldl add_direct_dependency d2

/-- Type that `_detect_code_changes` gives a code block, from the end of its path. -/
def block_type (file_path : Str) : Str :=
  if ends_with file_path ".gd".toList then "script".toList
  else if ends_with file_path ".tscn".toList then "scene".toList
  else "resource".toList

/-- Body of the loop of `_detect_code_changes` over the code blocks: the entry
built for the block is stored under its path. -/
def add_code_block (t : Table) (b : CodeBlock) : Table :=
  let type := block_type b.file_path
  let dependencies : List Str :=
    if type == "scene".toList then _extract_dependencies_from_scene b.code []
    else if type == "script".toList then _extract_dependencies_from_script b.code []
    else []
  Map.set t b.file_path
    { path := b.file_path, code := b.code, type := type, created := false,
      dependencies := dependencies }

/-- The vector `all_code_blocks` of `_detect_code_changes`: the blocks of
`_extract_multiple_code_blocks`, else the single block of `_extract_code_block`;
`none` when neither finds a block. -/
def detect_blocks (env : Env) (p_response : Str) : Option (List CodeBlock) :=
  let multi := _extract_multiple_code_blocks env p_response []
  if multi.1 then some multi.2
  else
    let single := _extract_code_block env p_response [] []
    if single.1 then some [⟨single.2.1, single.2.2, []⟩] else none

/-- The panel of `_detect_code_changes` at the call of `_process_dependencies`:
table and order cleared, the response scanned, the code blocks added; `none`
when the function returns early because no code block was found. -/
def collect_dependencies (env : Env) (p : Panel) (p_response : Str) : Option Panel :=
  match detect_blocks env p_response with
  | none => none
  | some all_code_blocks =>
    let p1 := _scan_for_dependencies { p with pending_dependencies := [], processing_order := [] }
      p_response
    some { p1 with pending_dependencies := all_code_blocks.foldl add_code_block p1.pending_dependencies }

/-- `VectorAIPanel::_detect_code_changes`. -/
def _detect_code_changes (env : Env) (p : Panel) (p_response : Str) : Option Panel :=
  match collect_dependencies env p p_response with
  | none => some { p with pending_dependencies := [], processing_order := [] }
  | some p1 => _process_dependencies env p1

end VectorAIPanel

/-! ## ClaudeAPI: `send_message` and `_on_request_completed` (claude_api.cpp) -/

/-- `ClaudeAPI::Message` of `claude_api.h`. -/
structure Message where
  role : Str
  content : Str
  deriving DecidableEq

/-- The engine's `Variant` as far as parsed JSON needs it; a `Dictionary` is
the list of its entries. -/
inductive Variant where
  | nil : Variant
  | bool : Bool → Variant
  | num : Int → Variant
  | str : Str → Variant
  | array : List Variant → Variant
  | dict : List (Str × Variant) → Variant

/-- Conversion `Dictionary d = v`: the entries of a dictionary, and the empty
dictionary for any other value. -/
def Variant.as_dict : Variant → List (Str × Variant)
  | .dict d => d
  | _ => []

/-- The comparison `v == "text"` of a `Variant` with a string. -/
def Variant.is_str (v : Variant) (s : Str) : Bool :=
  match v with
  | .str t => t == s
  | _ => false

/-- `Dictionary::has`. -/
def dict_has (d : List (Str × Variant)) (k : Str) : Bool := d.any (fun e => e.1 == k)

/-- `Dictionary::operator[]` for reading: the value of the key, `nil` when the
key is absent. -/
def dict_get (d : List (Str × Variant)) (k : Str) : Variant :=
  match d.find? (fun e => e.1 == k) with
  | some e => e.2
  | none => .nil

/-- The dictionary `body` of `send_message`, before `JSON::stringify`. -/
structure RequestBody where
  model : Str
  max_tokens : Nat
  system : Option Str
  messages : List Message

/-- One call of `http_request->request(url, headers, METHOD_POST, body)`. -/
structure Request where
  url : Str
  headers : List Str
  body : RequestBody

/-- What `ClaudeAPI` calls without its body being part of claude_api.cpp, and
the two prompt templates: the constants `ASK_MODE_SYSTEM_PROMPT` and
`COMPOSER_MODE_SYSTEM_PROMPT`, the error code of `HTTPRequest::request`,
`String::utf8`, `JSON::parse` with `get_data` (error code or parsed value) and
the conversion of a `Variant` to `String`. -/
structure ApiEnv where
  ask_prompt : Str
  composer_prompt : Str
  request : Request → Nat
  utf8 : List Nat → Str
  json_parse : Str → Except Nat Variant
  to_string : Variant → Str

/-- State of the `ClaudeAPI` node, with three logs of what it has called: the
requests handed to `http_request`, and the arguments of the error and response
callbacks. -/
structure ClaudeAPI where
  api_key : Str
  current_mode : Int
  active_scene_path : Str
  attached_script_paths : List Str
  attached_file_context : Str
  request_in_progress : Bool
  pending_user_message : Str
  conversation_history : List Message
  response_callback_valid : Bool
  error_callback_valid : Bool
  requests : List Request
  errors : List Str
  responses : List Str

namespace ClaudeAPI

/-- The constant `API_URL`. -/
def API_URL : Str := "https://api.anthropic.com/v1/messages".toList

/-- The constant `API_VERSION`. -/
def API_VERSION : Str := "2023-06-01".toList

/-- The constant `DEFAULT_MODEL`. -/
def DEFAULT_MODEL : Str := "claude-3-5-sonnet-20241022".toList

/-- The constant `MAX_TOKENS`. -/
def MAX_TOKENS : Nat := 8192

/-- The constant `MODE_ASK`. -/
def MODE_ASK : Int := 0

/-- `itos` on a possibly negative number. -/
def itos_int (n : Int) : Str := if n < 0 then '-' :: VectorAIPanel.itos n.natAbs else VectorAIPanel.itos n.toNat

/-- The guarded call `if (error_callback.is_valid()) error_callback.call(msg)`. -/
def report_error (api : ClaudeAPI) (msg : Str) : ClaudeAPI :=
  if api.error_callback_valid then { api with errors := api.errors ++ [msg] } else api

/-- `ClaudeAPI::add_to_history`. -/
def add_to_history (api : ClaudeAPI) (p_role p_content : Str) : ClaudeAPI :=
  { api with conversation_history := api.conversation_history ++ [⟨p_role, p_content⟩] }

/-- `ClaudeAPI::clear_history`. -/
def clear_history (api : ClaudeAPI) : ClaudeAPI := { api with conversation_history := [] }

/-- The loop building `script_list`: the attached script paths joined by a
comma and a blank. -/
def script_list : List Str → Str
  | [] => []
  | [a] => a
  | a :: b :: r => a ++ ", ".toList ++ script_list (b :: r)

/-- `ClaudeAPI::_build_system_prompt`. -/
def _build_system_prompt (env : ApiEnv) (api : ClaudeAPI) : Str :=
  let scripts := script_list api.attached_script_paths
  let system_prompt := if api.current_mode = MODE_ASK then env.ask_prompt else env.composer_prompt
  let system_prompt := replace system_prompt "\x7bactive_scene\x7d".toList
    (if api.active_scene_path.isEmpty then "None".toList else api.active_scene_path)
  let system_prompt := replace system_prompt "\x7battached_scripts\x7d".toList
    (if scripts.isEmpty then "None".toList else scripts)
  replace system_prompt "\x7battached_files\x7d".toList
    (if api.attached_file_context.isEmpty then "None".toList else api.attached_file_context)

/-- The history loop of `send_message`,
`for (int i = start_idx; i < conversation_history.size(); i++)`: the entries
at the indices from `start_idx` on, in index order. -/
def history_messages (conversation_history : List Message) (start_idx : Int) : List Message :=
  (List.range' start_idx.toNat (conversation_history.length - start_idx.toNat)).map
    (fun i => conversation_history.getD i ⟨[], []⟩)

/-- The array `messages` that `send_message` builds for `p_message`. -/
def request_messages (api : ClaudeAPI) (p_message : Str) : List Message :=
  let start_idx : Int := max 0 ((api.conversation_history.length : Int) - 10)
  history_messages api.conversation_history start_idx ++ [⟨"user".toList, p_message⟩]

/-- The request that `send_message` hands to `http_request` for `p_message`. -/
def build_request (env : ApiEnv) (api : ClaudeAPI) (p_message : Str) : Request :=
  let headers : List Str :=
    [ "Content-Type: application/json".toList, "x-api-key: ".toList ++ api.api_key,
      "anthropic-version: ".toList ++ API_VERSION ]
  let system_prompt := _build_system_prompt env api
  { url := API_URL, headers := headers,
    body :=
      { model := DEFAULT_MODEL, max_tokens := MAX_TOKENS,
        system := if !system_prompt.isEmpty then some system_prompt else none,
        messages := request_messages api p_message } }

/-- `ClaudeAPI::send_message`. -/
def send_message (env : ApiEnv) (api : ClaudeAPI) (p_message : Str) : ClaudeAPI :=
  if api.api_key.isEmpty then
    api.report_error "API key not set. Please set your Claude API key in the settings.".toList
  else if !begins_with api.api_key "sk-ant-".toList then
    api.report_error "Invalid API key format. Claude API keys should start with 'sk-ant-'".toList
  else if api.request_in_progress then
    api.report_error "A request is already in progress. Please wait for it to complete.".toList
  else
    let req := build_request env api p_message
    let api1 : ClaudeAPI :=
      { api with pending_user_message := p_message, request_in_progress := true,
                 requests := api.requests ++ [req] }
    let err := env.request req
    if err ≠ 0 then
      { api1.report_error ("Failed to send request to Claude API: ".toList ++ VectorAIPanel.itos err) with
        request_in_progress := false }
    else api1

/-- The text the `switch` of `_on_request_completed` appends to
`Network error: `; the cases are the values of `HTTPRequest::Result`
(scene/main/http_request.h, outside the sources of the module). -/
def network_error_text (p_result : Int) : Str :=
  if p_result = 2 then "Can't connect to server".toList
  else if p_result = 3 then "Can't resolve hostname".toList
  else if p_result = 4 then "Connection error".toList
  else if p_result = 5 then "TLS handshake error".toList
  else if p_result = 6 then "No response from server".toList
  else if p_result = 7 then "Response too large".toList
  else if p_result = 9 then "Request failed".toList
  else if p_result = 10 then "Can't open download file".toList
  else if p_result = 11 then "Download file write error".toList
  else if p_result = 12 then "Redirect limit reached".toList
  else if p_result = 13 then "Request timeout".toList
  else "Unknown error (".toList ++ itos_int p_result ++ ")".toList

/-- The message reported for a response code other than 200. -/
def api_error_message (env : ApiEnv) (p_response_code : Int) (p_body : List Nat) : Str :=
  let error_text : Str := if p_body.length > 0 then env.utf8 p_body else "Unknown error".toList
  let error_msg : Str := "API returned error ".toList ++ itos_int p_response_code
  match env.json_parse error_text with
  | .ok (.dict error_data) =>
    if dict_has error_data "error".toList then
      let error_info := (dict_get error_data "error".toList).as_dict
      if dict_has error_info "message".toList then
        error_msg ++ ": ".toList ++ env.to_string (dict_get error_info "message".toList)
      else error_msg
    else error_msg
  | .ok _ => error_msg
  | .error _ => error_msg ++ ": ".toList ++ substr error_text 0 200

/-- Body of the loop over the content items: the text of an item of type
`text` is appended. -/
def append_text (env : ApiEnv) (response_text : Str) (content_item_var : Variant) : Str :=
  match content_item_var with
  | .dict content_item =>
    if dict_has content_item "type".toList && (dict_get content_item "type".toList).is_str "text".toList
        && dict_has content_item "text".toList then
      response_text ++ env.to_string (dict_get content_item "text".toList)
    else response_text
  | _ => response_text

/-- `ClaudeAPI::_on_request_completed` (the headers are not read). -/
def _on_request_completed (env : ApiEnv) (api : ClaudeAPI) (p_result p_response_code : Int)
    (p_body : List Nat) : ClaudeAPI :=
  let api : ClaudeAPI := { api with request_in_progress := false }
  if p_result ≠ 0 then
    api.report_error ("Network error: ".toList ++ network_error_text p_result)
  else if p_response_code ≠ 200 then
    api.report_error (api_error_message env p_response_code p_body)
  else if p_body.length = 0 then api.report_error "Empty response from Claude API".toList
  else
    match env.json_parse (env.utf8 p_body) with
    | .error err => api.report_error ("Failed to parse response JSON: ".toList ++ VectorAIPanel.itos err)
    | .ok (.dict response_data) =>
      if !dict_has response_data "content".toList then
        api.report_error "No content array found in response".toList
      else
        match dict_get response_data "content".toList with
        | .array content =>
          let response_text := content.foldl (append_text env) []
          if response_text.isEmpty then
            api.report_error "Received empty response from Claude API".toList
          else
            let api2 := (api.add_to_history "user".toList api.pending_user_message).add_to_history
              "assistant".toList response_text
            if api2.response_callback_valid then
              { api2 with responses := api2.responses ++ [response_text] }
            else api2
        | _ => api.report_error "No content array found in response".toList
    | .ok _ => api.report_error "Invalid response format - not a dictionary".toList

end ClaudeAPI

namespace VectorAIPanel

/-- A text on which no rule of `_update_scene_format` finds anything to rewrite:
no legacy header, a `uid=` whenever the current header is there, no key of the
two id-quoting loops, no key of the replacement table (unless the replacement
is the key itself), and no script reference that the last loop would extend. -/
def no_rule_applies (y : Str) : Bool :=
  !contains y "[gd_scene load_steps=".toList && !contains y "[gd_scene format=2".toList
  && (contains y "uid=".toList || !contains y "[gd_scene format=3".toList)
  && (search_all ext_resource_regex y).all
      (fun m => !contains y ("ExtResource(".toList ++ m.get_string 1 ++ ")".toList))
  && (search_all sub_resource_regex y).all
      (fun m => !contains y ("SubResource(".toList ++ m.get_string 1 ++ ")".toList))
  && rename_table.all (fun r => !contains y r.1 || r.1 == r.2)
  && (search_all script_path_regex y).all
      (fun m => ends_with (m.get_string 1) ".gd".toList || ends_with (m.get_string 1) ".vs".toList
        || ends_with (m.get_string 1) ".cs".toList
        || !contains y ("script = ExtResource(\"".toList ++ m.get_string 1 ++ "\")".toList))

/-- A legacy scene whose root node is a `RigidBody`. -/
def rigid_body_scene : Str := "[gd_scene format=2]\n\n[node name=\"Crate\" type=\"RigidBody\"]\n".toList

/-- A legacy scene whose root node is a `Spatial`. -/
def spatial_scene : Str := "[gd_scene format=2]\n\n[node name=\"World\" type=\"Spatial\"]\n".toList

/-- The scene of Scenario B. -/
def scenario_B_scene : Str :=
  "[gd_scene format=2]\n\n[node name=\"Enemy\" type=\"KinematicBody2D\"]\n".toList

/-- A path the scanner leaves alone: a key of the table or a file on storage. -/
def tracked (p : Panel) (k : Str) : Prop :=
  Map.has p.pending_dependencies k = true ∨ p.storage.file_exists k = true

/-- Table `t2` extends table `t1`: every key of `t1` is a key of `t2`, with the
same path, type and dependencies, the same code when the code was not empty,
and `created` still set when it was set. -/
def Extends (t1 t2 : Table) : Prop :=
  ∀ k e, Map.get? t1 k = some e →
    ∃ e2, Map.get? t2 k = some e2 ∧ e2.type = e.type ∧ e2.path = e.path
      ∧ e2.dependencies = e.dependencies ∧ (e.code ≠ [] → e2.code = e.code)
      ∧ (e.created = true → e2.created = true)

/-- Rank of a type string in the intended order: resources, scripts, scenes. -/
def kind_rank (type : Str) : Nat :=
  if type == "resource".toList then 0
  else if type == "script".toList then 1
  else if type == "scene".toList then 2
  else 3

/-- The ordering invariant for an order, with paths classified by the table:
no path of a later kind stands before a path of an earlier kind. -/
def ordered_by_kind (t : Table) (order : List Str) : Prop :=
  order.Pairwise (fun a b => kind_rank (Table.at t a).type ≤ kind_rank (Table.at t b).type)

instance (t : Table) (order : List Str) : Decidable (ordered_by_kind t order) := by
  unfold ordered_by_kind; infer_instance

/-- An environment for evaluating the pipeline on concrete inputs. -/
def sample_env : Env :=
  { _generate_script_template := fun base _ => "extends ".toList ++ base ++ "\n".toList,
    capitalize := fun s => s, rng := fun _ _ => 0, unix_time := 1700000000 }

/-- A storage holding no file, with the project root as its only directory and
no failing operation. -/
def empty_storage : Storage :=
  { files := [], dirs := ["res://".toList], mkdirErr := fun _ => 0, openErr := fun _ => 0 }

/-- The scene of Scenario C: it refers to `res://Player.gd`, which is neither
on storage nor in the table. -/
def main_scene_entry : DependencyInfo :=
  { path := "res://Main.tscn".toList,
    code := "[gd_scene format=3]\n\n[node name=\"Main\" type=\"Node2D\"]\nscript = ExtResource(\"res://Player.gd\")\n".toList,
    type := "scene".toList, created := false, dependencies := ["res://Player.gd".toList] }

/-- The panel of Scenario C when `_process_dependencies` is called. -/
def scenario_C_panel : Panel :=
  { pending_dependencies := [("res://Main.tscn".toList, main_scene_entry)],
    processing_order := [], storage := empty_storage, messages := [], seeds := 0 }

/-- A scene without references. -/
def arena_scene_entry : DependencyInfo :=
  { path := "res://Arena.tscn".toList,
    code := "[gd_scene format=3]\n\n[node name=\"Arena\" type=\"Node2D\"]\n".toList,
    type := "scene".toList, created := false, dependencies := [] }

/-- Scenario C with a second scene in the table. -/
def two_scene_panel : Panel :=
  { pending_dependencies :=
      [("res://Arena.tscn".toList, arena_scene_entry), ("res://Main.tscn".toList, main_scene_entry)],
    processing_order := [], storage := empty_storage, messages := [], seeds := 0 }

/-- A scene `res://a.tscn` without references. -/
def scene_a_entry : DependencyInfo :=
  { path := "res://a.tscn".toList,
    code := "[gd_scene format=3]\n\n[node name=\"a\" type=\"Node2D\"]\n".toList,
    type := "scene".toList, created := false, dependencies := [] }

/-- A scene `res://b.tscn` that instances `res://a.tscn`. -/
def scene_b_entry : DependencyInfo :=
  { path := "res://b.tscn".toList,
    code := "[gd_scene format=3]\n\n[node name=\"b\" type=\"Node2D\"]\n[node name=\"child\" instance=\"res://a.tscn\"]\n".toList,
    type := "scene".toList, created := false, dependencies := ["res://a.tscn".toList] }

/-- A table in which `res://a.tscn` is referenced once and `res://b.tscn` never. -/
def referenced_scene_table : Table :=
  [("res://b.tscn".toList, scene_b_entry), ("res://a.tscn".toList, scene_a_entry)]

/-- What the claims observe of a run for one path: the final order, whether the
path is a key, the content of its file and its created flag. -/
def outcome (q : Option Panel) (path : Str) : Option (List Str × Bool × Option Str × Bool) :=
  q.map (fun q => (q.processing_order, Map.has q.pending_dependencies path,
    q.storage.read path, (Table.at q.pending_dependencies path).created))

/-- A response whose `File:` line repeats the project-root marker. -/
def doubled_prefix_response : Str :=
  "File: res://res://a.gd\n```gdscript\nextends Node\n```".toList

/-- A response whose `File:` line gives an absolute path. -/
def absolute_hint_response : Str :=
  "File: /scenes/a.gd\n```gdscript\nextends Node\n```".toList

/-- Outcome of every block when the blocks are applied one after the other, each
on the storage its predecessors left: the block and whether `_apply_code_block`
succeeded for it. -/
def attempts (p : Panel) : List CodeBlock → List (CodeBlock × Bool)
  | [] => []
  | b :: r =>
    (b, (_apply_code_block p b.code b.file_path b.type).1)
      :: attempts (_apply_code_block p b.code b.file_path b.type).2 r

/-- The response of Scenario A. -/
def scenario_A_response : Str :=
  "Here is the file:\n```gdscript\nextends Node\nfunc _ready():\n\tpass\n```".toList

/-- A response with one untagged block that holds a function only. -/
def func_only_response : Str := "```\nfunc foo():\n\tpass\n```".toList

/-- Script name chosen by the legacy extractor: the declared class name when
`class_regex` finds one, else `script_<timestamp>`. -/
def legacy_script_name (env : Env) (code : Str) : Str :=
  match search class_regex code with
  | some m => if !(m.get_string 1).isEmpty then m.get_string 1 else "script_".toList ++ itos env.unix_time
  | none => "script_".toList ++ itos env.unix_time

/-- The variable `language` of the fast extractor for the part `language_and_code`. -/
def fast_language (language_and_code : Str) : Str :=
  strip_edges (substr language_and_code 0 (find language_and_code "\n".toList).toNat)

/-- The variable `code` of the fast extractor for the part `language_and_code`. -/
def fast_code (language_and_code : Str) : Str :=
  substrFrom language_and_code ((find language_and_code "\n".toList).toNat + 1)

/-- A response with a `text` block between two script blocks. -/
def three_block_response : Str :=
  "File: a.gd\n```gdscript\nextends Node\n```\nSome notes:\n```text\nremember the milk\n```\nFile: b.gd\n```gdscript\nextends Node2D\n```\n".toList

/-- A legacy scene with a `load_steps` header. -/
def load_steps_scene : Str :=
  "[gd_scene load_steps=2 format=2]\n\n[node name=\"Level\" type=\"Node2D\"]\n".toList

/-- A random source whose first 22 values select `x7SpatialQ2mLk90aZbT4e`. -/
def spatial_rng (k : Nat) : Nat :=
  [23, 59, 44, 15, 0, 19, 8, 0, 11, 42, 54, 12, 37, 10, 61, 52, 0, 51, 1, 45, 56, 4].getD k 0

/-- A response with one untagged block of plain text and no path hint. -/
def plain_block_response : Str := "Notes:\n```\nplain words\n```".toList

/-- The match of `block_regex` in `plain_block_response`. -/
def plain_block_match : RegExMatch :=
  { start := 7, stop := 26, whole := "```\nplain words\n```".toList, caps := [(1, "plain words".toList)] }

/-- Storage `s2` has every file of `s1` and the same error oracles. -/
def StorageGrows (s1 s2 : Storage) : Prop :=
  (∀ k, s1.file_exists k = true → s2.file_exists k = true)
  ∧ s2.mkdirErr = s1.mkdirErr ∧ s2.openErr = s1.openErr

/-- A reference the walk resolves: one with extension `gd` or `tscn`, or with
extension `tres` when the storage `s` lets the directory be created and the
file be opened. -/
def resolvable (s : Storage) (d : Str) : Prop :=
  get_extension d = "gd".toList ∨ get_extension d = "tscn".toList
  ∨ (get_extension d = "tres".toList ∧ s.mkdirErr (get_base_dir d) = 0 ∧ s.openErr d = 0)

/-- An entry the order-building loops push: a script, a scene, or a resource
whose path ends neither in `.gd` nor in `.tscn`. -/
def walked_kind (e : DependencyInfo) : Prop :=
  e.type = "script".toList ∨ e.type = "scene".toList
  ∨ (e.type = "resource".toList ∧ ends_with e.path ".gd".toList = false
      ∧ ends_with e.path ".tscn".toList = false)

/-- The created flag stored under key `k`. -/
def created_at (p : Panel) (k : Str) : Bool := (Table.at p.pending_dependencies k).created

/-- A candidate whose entry the order-building loops push. -/
def Candidate.walked (c : Candidate) : Prop := walked_kind ⟨c.path, [], c.type, false, []⟩

/-- A panel with an empty table, an empty order and the empty storage. -/
def blank_panel : Panel :=
  { pending_dependencies := [], processing_order := [], storage := empty_storage, messages := [],
    seeds := 0 }

/-- A response with one scene block whose node refers to the image
`res://icon.png`. -/
def icon_scene_response : Str :=
  "Here is the scene.\n```tscn\n[gd_scene format=3]\n\n[node name=\"Main\" type=\"Sprite2D\"]\ntexture = ExtResource(\"res://icon.png\")\n```\n".toList

/-- A panel on a storage where every directory creation and every file open
fails. -/
def write_failing_panel : Panel :=
  { pending_dependencies := [], processing_order := [],
    storage := { files := [], dirs := ["res://".toList], mkdirErr := fun _ => 1, openErr := fun _ => 1 },
    messages := [], seeds := 0 }

/-- A legacy scene whose numeric resource ids are written with blanks inside
the parentheses. -/
def spaced_id_scene : Str :=
  "[gd_scene format=2]\n\n[node name=\"Icon\" type=\"Sprite2D\"]\ntexture = ExtResource( 1 )\nshape = SubResource( 2 )\n".toList

/-- A legacy scene whose script reference has no extension and no blanks
around the equals sign. -/
def unspaced_script_scene : Str :=
  "[gd_scene format=2]\n\n[node name=\"Player\" type=\"Node2D\"]\nscript=ExtResource(\"player\")\n".toList

/-- A response that mentions a scene `Hero` in words and carries one script
block: the scanner tracks `res://Hero.tscn` with empty code together with its
companion script `res://Hero.gd`. -/
def hero_response : Str :=
  "Use the player scene named Hero.\n```gdscript\nextends Node\n```".toList

/-- The test under which the walk synthesizes a `.gd` or `.tscn` placeholder for
the reference `d` in the panel `p`: `d` is neither a file nor a key, and its
extension is `gd` or `tscn`. -/
def spliced (p : Panel) (d : Str) : Bool :=
  !p.storage.file_exists d && !Map.has p.pending_dependencies d
    && (get_extension d == "gd".toList || get_extension d == "tscn".toList)

/-- The type of an entry agrees with the end of its path: `script` exactly for
`.gd`, `scene` exactly for `.tscn`. -/
def type_agrees (e : DependencyInfo) : Prop :=
  (e.type = "script".toList ↔ ends_with e.path ".gd".toList = true)
  ∧ (e.type = "scene".toList ↔ ends_with e.path ".tscn".toList = true)

/-- A candidate whose type agrees with the end of its path. -/
def Candidate.agrees (c : Candidate) : Prop := type_agrees ⟨c.path, [], c.type, false, []⟩

/-- A scene entry that declares two references, a script and a scene, neither
on storage nor in the table. -/
def hud_scene_entry : DependencyInfo :=
  { path := "res://Main.tscn".toList,
    code := "[gd_scene format=3]\n\n[node name=\"Main\" type=\"Node2D\"]\n".toList,
    type := "scene".toList, created := false,
    dependencies := ["res://Player.gd".toList, "res://Hud.tscn".toList] }

/-- A panel at the start of the walk: a script that is already on storage and
in the table, then the scene with the two missing references. -/
def two_reference_panel : Panel :=
  { pending_dependencies :=
      [ ("res://Game.gd".toList,
          { path := "res://Game.gd".toList, code := "extends Node\n".toList, type := "script".toList,
            created := false, dependencies := [] }),
        ("res://Main.tscn".toList, hud_scene_entry) ],
    processing_order := ["res://Game.gd".toList, "res://Main.tscn".toList],
    storage := empty_storage, messages := [], seeds := 0 }

/-- A table with one entry of every kind and a second scene: a scene that
refers to the missing script `res://Player.gd`, a script, a resource and a scene
without references, in this iteration order. -/
def mixed_kind_panel : Panel :=
  { pending_dependencies :=
      [ ("res://Main.tscn".toList, main_scene_entry),
        ("res://tool.gd".toList,
          { path := "res://tool.gd".toList, code := "extends Node\n".toList, type := "script".toList,
            created := false, dependencies := [] }),
        ("res://theme.tres".toList,
          { path := "res://theme.tres".toList,
            code := "[gd_resource type=\"Theme\" format=3]\n".toList, type := "resource".toList,
            created := false, dependencies := [] }),
        ("res://Arena.tscn".toList, arena_scene_entry) ],
    processing_order := [], storage := empty_storage, messages := [], seeds := 0 }

/-- The state in which the reference `d` is out of reach of the walk: it is
neither a key nor a file, no entry is written at `d`, and every path of the
order is a key. -/
def untouched (d : Str) (p : Panel) : Prop :=
  Map.has p.pending_dependencies d = false
  ∧ p.storage.file_exists d = false
  ∧ (∀ k e, Map.get? p.pending_dependencies k = some e → e.path ≠ d)
  ∧ (∀ k ∈ p.processing_order, Map.has p.pending_dependencies k = true)

/-- The panel that `_detect_code_changes` hands to `_process_dependencies` for
`icon_scene_response` on a blank panel: one scene that refers to the image
`res://icon.png`. -/
def icon_scene_panel : Panel :=
  { pending_dependencies :=
      [ ("res://main.tscn".toList,
          { path := "res://main.tscn".toList,
            code := "[gd_scene format=3]\n\n[node name=\"Main\" type=\"Sprite2D\"]\ntexture = ExtResource(\"res://icon.png\")".toList,
            type := "scene".toList, created := false,
            dependencies := ["res://icon.png".toList] }) ],
    processing_order := [], storage := empty_storage, messages := [], seeds := 0 }

end VectorAIPanel
namespace ClaudeAPI

/-- The assistant text of a successful round trip, read off the arguments of
`_on_request_completed`: the result is success, the code is 200, the body is
not empty and parses to a dictionary whose `content` is an array with a
non-empty concatenated text; `none` in every other case. -/
def assistant_text (env : ApiEnv) (p_result p_response_code : Int) (p_body : List Nat) :
    Option Str :=
  if p_result = 0 ∧ p_response_code = 200 ∧ p_body ≠ [] then
    match env.json_parse (env.utf8 p_body) with
    | .ok (.dict response_data) =>
      match dict_get response_data "content".toList with
      | .array content =>
        if dict_has response_data "content".toList
            ∧ (content.foldl (append_text env) []).isEmpty = false then
          some (content.foldl (append_text env) [])
        else none
      | _ => none
    | _ => none
  else none

/-- An environment for evaluating the API node: requests are accepted, bytes
are code points, the body `ok` parses to a response with two text items and
any other body is a parse error. -/
def sample_api_env : ApiEnv :=
  { ask_prompt := "Scene: \x7bactive_scene\x7d".toList, composer_prompt := "Compose".toList,
    request := fun _ => 0, utf8 := fun b => b.map Char.ofNat,
    json_parse := fun s =>
      if s == "ok".toList then
        .ok (.dict [("content".toList, .array
          [ .dict [("type".toList, .str "text".toList), ("text".toList, .str "Hello".toList)],
            .str "x".toList,
            .dict [("type".toList, .str "text".toList), ("text".toList, .str " there".toList)] ])])
      else .error 43,
    to_string := fun v => match v with
      | .str s => s
      | _ => "?".toList }

/-- An idle node with a valid key and a history of twelve messages numbered
0 to 11. -/
def sample_api : ClaudeAPI :=
  { api_key := "sk-ant-abc".toList, current_mode := 0, active_scene_path := [],
    attached_script_paths := [], attached_file_context := [], request_in_progress := false,
    pending_user_message := [],
    conversation_history := (List.range 12).map (fun i =>
      ⟨if i % 2 = 0 then "user".toList else "assistant".toList, VectorAIPanel.itos i⟩),
    response_callback_valid := true, error_callback_valid := true, requests := [], errors := [],
    responses := [] }

end ClaudeAPI

/-! ## Lemmas on the string primitives -/

theorem replaceGo_of_findFrom_none (key w : Str) :
    ∀ (s : Str) (i : Nat), findFrom key i s = none → replaceGo key w 0 s = s := by
  intro s
  induction s with
  | nil => intro i _; rfl
  | cons c t ih =>
    intro i h
    unfold findFrom at h
    by_cases hp : key.isPrefixOf (c :: t) = true
    · simp [hp] at h
    · simp only [hp] at h
      simp only [replaceGo, hp]
      simp [ih (i + 1) (by simpa using h)]

theorem replace_of_not_contains (s key w : Str) (h : contains s key = false) :
    replace s key w = s := by
  unfold replace
  by_cases he : key.isEmpty = true
  · simp [he]
  · simp only [he]
    unfold contains find at h
    simp only [he] at h
    cases hf : findFrom key 0 s with
    | none => simpa using replaceGo_of_findFrom_none key w s 0 hf
    | some i => simp [hf] at h

theorem replaceGo_self (key : Str) (hk : key ≠ []) :
    ∀ (s : Str) (n : Nat), replaceGo key key n s = s.drop n := by
  intro s
  induction s with
  | nil => intro n; cases n <;> simp [replaceGo]
  | cons c t ih =>
    intro n
    cases n with
    | succ n => simp [replaceGo, ih n]
    | zero =>
      by_cases hp : key.isPrefixOf (c :: t) = true
      · simp only [replaceGo, hp, if_true, ih, List.drop_zero]
        obtain ⟨r, hr⟩ := List.isPrefixOf_iff_prefix.mp hp
        cases key with
        | nil => exact absurd rfl hk
        | cons k0 k1 =>
          simp only [List.cons_append, List.cons.injEq] at hr
          obtain ⟨h0, h1⟩ := hr
          subst h0
          simp [← h1]
      · simp [replaceGo, hp, ih]

theorem replace_self (s key : Str) : replace s key key = s := by
  unfold replace
  by_cases he : key.isEmpty = true
  · simp [he]
  · simp only [he]
    have hk : key ≠ [] := by intro h; simp [h] at he
    simpa using replaceGo_self key hk s 0

/-! ## Lemmas on `_update_scene_format` -/

namespace VectorAIPanel

theorem foldl_quote_id_fixed (kind y : Str) :
    ∀ ms : List RegExMatch,
      (∀ m ∈ ms, contains y (kind ++ m.get_string 1 ++ ")".toList) = false) →
      ms.foldl (quote_id kind) y = y := by
  intro ms
  induction ms with
  | nil => intro _; rfl
  | cons m r ih =>
    intro h
    have h1 : quote_id kind y m = y := by
      unfold quote_id
      exact replace_of_not_contains _ _ _ (h m (List.mem_cons_self _ _))
    simp only [List.foldl_cons, h1]
    exact ih (fun m1 hm1 => h m1 (List.mem_cons_of_mem _ hm1))

theorem foldl_rename_fixed (y : Str) :
    ∀ rules : List (Str × Str),
      (∀ r ∈ rules, contains y r.1 = false ∨ r.1 = r.2) →
      rules.foldl (fun acc r => replace acc r.1 r.2) y = y := by
  intro rules
  induction rules with
  | nil => intro _; rfl
  | cons r rest ih =>
    intro h
    have h1 : replace y r.1 r.2 = y := by
      rcases h r (List.mem_cons_self _ _) with hc | he
      · exact replace_of_not_contains _ _ _ hc
      · rw [← he]; exact replace_self _ _
    simp only [List.foldl_cons, h1]
    exact ih (fun r1 hr1 => h r1 (List.mem_cons_of_mem _ hr1))

theorem foldl_fix_script_ref_fixed (y : Str) :
    ∀ ms : List RegExMatch,
      (∀ m ∈ ms, (ends_with (m.get_string 1) ".gd".toList || ends_with (m.get_string 1) ".vs".toList
          || ends_with (m.get_string 1) ".cs".toList
          || !contains y ("script = ExtResource(\"".toList ++ m.get_string 1 ++ "\")".toList)) = true) →
      ms.foldl fix_script_ref y = y := by
  intro ms
  induction ms with
  | nil => intro _; rfl
  | cons m r ih =>
    intro h
    have h1 : fix_script_ref y m = y := by
      have hm := h m (List.mem_cons_self _ _)
      unfold fix_script_ref
      simp only [Bool.or_eq_true, Bool.not_eq_true'] at hm
      dsimp only
      split
      · rename_i hcond
        rcases hm with ((hgd | hvs) | hcs) | hno
        · rw [hgd] at hcond; simp at hcond
        · rw [hvs] at hcond; simp at hcond
        · rw [hcs] at hcond; simp at hcond
        · exact replace_of_not_contains _ _ _ hno
      · rfl
    simp only [List.foldl_cons, h1]
    exact ih (fun m1 hm1 => h m1 (List.mem_cons_of_mem _ hm1))

/-- A text on which no rule applies is left as it is, whatever the generator. -/
theorem update_scene_format_fixed (rng : Nat → Nat) (y : Str) (h : no_rule_applies y = true) :
    _update_scene_format rng y = y := by
  unfold no_rule_applies at h
  simp only [Bool.and_eq_true, Bool.not_eq_true', Bool.or_eq_true, List.all_eq_true] at h
  obtain ⟨⟨⟨⟨⟨⟨h1, h2⟩, h3⟩, h4⟩, h5⟩, h6⟩, h7⟩ := h
  have e1 : update_header y = y := by
    unfold update_header
    rw [replace_of_not_contains _ _ _ h1, replace_of_not_contains _ _ _ h2]
  have e2 : inject_uid rng y = y := by
    unfold inject_uid
    split
    · rename_i hf
      rcases h3 with hu | hh
      · rw [contains, hf] at hu; exact absurd hu (by decide)
      · exact replace_of_not_contains _ _ _ hh
    · rfl
  have e3 : quote_ids y = y := by
    unfold quote_ids
    have a := foldl_quote_id_fixed "ExtResource(".toList y (search_all ext_resource_regex y)
      (fun m hm => h4 m hm)
    simp only [a]
    exact foldl_quote_id_fixed "SubResource(".toList y (search_all sub_resource_regex y)
      (fun m hm => h5 m hm)
  have e4 : apply_renames y = y := by
    unfold apply_renames
    apply foldl_rename_fixed
    intro r hr
    rcases h6 r hr with hc | he
    · exact Or.inl hc
    · exact Or.inr (by simpa using he)
  have e5 : fix_script_refs y = y := by
    unfold fix_script_refs
    apply foldl_fix_script_ref_fixed
    intro m hm
    have := h7 m hm
    simpa [Bool.or_eq_true] using this
  unfold _update_scene_format
  rw [e1, e2, e3, e4, e5]

/-! ## Lemmas on the association-list map -/

theorem Map.has_set_self {V : Type} (m : Map V) (k : Str) (v : V) :
    Map.has (Map.set m k v) k = true := by
  induction m with
  | nil => simp [Map.set, Map.has]
  | cons e r ih =>
    unfold Map.set
    by_cases h : (e.1 == k) = true
    · simp [h, Map.has]
    · simp only [h]
      simp only [Map.has, List.any_cons] at ih ⊢
      simp [ih]

theorem Map.has_set_ne {V : Type} (m : Map V) (k k1 : Str) (v : V) (hne : k1 ≠ k) :
    Map.has (Map.set m k v) k1 = Map.has m k1 := by
  induction m with
  | nil => simp [Map.set, Map.has]; exact fun h => hne h.symm
  | cons e r ih =>
    unfold Map.set
    by_cases h : (e.1 == k) = true
    · have he : e.1 = k := by simpa using h
      simp only [h, if_true, Map.has, List.any_cons]
      have h1 : (k == k1) = false := by simpa using fun h => hne h.symm
      have h2 : (e.1 == k1) = false := by rw [he]; exact h1
      simp [h1, h2]
    · simp only [h]
      simp only [Map.has, List.any_cons] at ih ⊢
      simp [ih]

theorem Map.has_set_of_has {V : Type} (m : Map V) (k k1 : Str) (v : V)
    (h : Map.has m k1 = true) : Map.has (Map.set m k v) k1 = true := by
  by_cases hk : k1 = k
  · subst hk; exact Map.has_set_self m k1 v
  · rw [Map.has_set_ne m k k1 v hk]; exact h

theorem Map.get?_set_ne {V : Type} (m : Map V) (k k1 : Str) (v : V) (hne : k1 ≠ k) :
    Map.get? (Map.set m k v) k1 = Map.get? m k1 := by
  induction m with
  | nil =>
    have h1 : (k == k1) = false := by simpa using fun h => hne h.symm
    simp [Map.set, Map.get?, h1]
  | cons e r ih =>
    unfold Map.set
    by_cases h : (e.1 == k) = true
    · have he : e.1 = k := by simpa using h
      have h1 : (k == k1) = false := by simpa using fun h => hne h.symm
      have h2 : (e.1 == k1) = false := by rw [he]; exact h1
      simp [h, Map.get?, h1, h2]
    · simp only [h]
      simp only [Map.get?]
      rw [ih]

theorem Map.get?_set_self {V : Type} (m : Map V) (k : Str) (v : V) :
    Map.get? (Map.set m k v) k = some v := by
  induction m with
  | nil => simp [Map.set, Map.get?]
  | cons e r ih =>
    unfold Map.set
    by_cases h : (e.1 == k) = true
    · simp [h, Map.get?]
    · simp only [h]
      simp only [Map.get?, h]
      simpa using ih

theorem Map.ne_of_has_of_not_has {V : Type} (m : Map V) (k k1 : Str)
    (h1 : Map.has m k1 = true) (h : Map.has m k = false) : k1 ≠ k := by
  intro he; subst he; rw [h1] at h; exact absurd h (by decide)

/-! ## Lemmas on the scanner -/

theorem track_storage (p : Panel) (c : Candidate) : (track p c).storage = p.storage := by
  unfold track
  split
  · dsimp only
    split
    · split <;> rfl
    · rfl
  · rfl

theorem track_of_tracked (p : Panel) (c : Candidate) (h : tracked p c.path) : track p c = p := by
  unfold track
  rcases h with h | h <;> simp [h]

theorem track_has_mono (p : Panel) (c : Candidate) (k : Str)
    (h : Map.has p.pending_dependencies k = true) :
    Map.has (track p c).pending_dependencies k = true := by
  unfold track
  split
  · dsimp only
    split
    · split
      · exact Map.has_set_of_has _ _ _ _ (Map.has_set_of_has _ _ _ _ h)
      · exact Map.has_set_of_has _ _ _ _ h
    · exact Map.has_set_of_has _ _ _ _ h
  · exact h

theorem track_tracked_mono (p : Panel) (c : Candidate) (k : Str) (h : tracked p k) :
    tracked (track p c) k := by
  rcases h with h | h
  · exact Or.inl (track_has_mono p c k h)
  · exact Or.inr (by rw [track_storage]; exact h)

theorem track_tracks (p : Panel) (c : Candidate) : tracked (track p c) c.path := by
  by_cases h : tracked p c.path
  · rw [track_of_tracked p c h]; exact h
  · left
    unfold tracked at h
    have h1 : Map.has p.pending_dependencies c.path = false := by
      cases hh : Map.has p.pending_dependencies c.path
      · rfl
      · exact absurd (Or.inl hh) h
    have h2 : p.storage.file_exists c.path = false := by
      cases hh : p.storage.file_exists c.path
      · rfl
      · exact absurd (Or.inr hh) h
    unfold track
    simp only [h1, h2, Bool.not_false, Bool.and_self, if_true]
    split
    · split
      · exact Map.has_set_of_has _ _ _ _ (Map.has_set_self _ _ _)
      · exact Map.has_set_self _ _ _
    · exact Map.has_set_self _ _ _

theorem track_get?_frame (p : Panel) (c : Candidate) (k : Str)
    (h : Map.has p.pending_dependencies k = true) :
    Map.get? (track p c).pending_dependencies k = Map.get? p.pending_dependencies k := by
  unfold track
  split
  · rename_i hg
    simp only [Bool.and_eq_true, Bool.not_eq_true'] at hg
    have hne : k ≠ c.path := Map.ne_of_has_of_not_has _ _ _ h hg.1
    dsimp only
    split
    · split
      · rename_i hs
        simp only [Bool.and_eq_true, Bool.not_eq_true'] at hs
        have hk1 := Map.has_set_of_has p.pending_dependencies c.path k
          { path := c.path, code := [], type := c.type, created := false, dependencies := [] } h
        have hne2 := Map.ne_of_has_of_not_has _ _ _ hk1 hs.1
        simp only []
        rw [Map.get?_set_ne _ _ _ _ hne2, Map.get?_set_ne _ _ _ _ hne]
      · simp only []; rw [Map.get?_set_ne _ _ _ _ hne]
    · simp only []; rw [Map.get?_set_ne _ _ _ _ hne]
  · rfl

theorem foldl_track_of_tracked :
    ∀ (cs : List Candidate) (p : Panel), (∀ c ∈ cs, tracked p c.path) → cs.foldl track p = p := by
  intro cs
  induction cs with
  | nil => intro p _; rfl
  | cons c r ih =>
    intro p h
    simp only [List.foldl_cons]
    rw [track_of_tracked p c (h c (List.mem_cons_self _ _))]
    exact ih p (fun c1 hc1 => h c1 (List.mem_cons_of_mem _ hc1))

theorem foldl_track_tracked_mono :
    ∀ (cs : List Candidate) (p : Panel) (k : Str), tracked p k → tracked (cs.foldl track p) k := by
  intro cs
  induction cs with
  | nil => intro p k h; exact h
  | cons c r ih =>
    intro p k h
    simp only [List.foldl_cons]
    exact ih _ k (track_tracked_mono p c k h)

theorem foldl_track_tracks :
    ∀ (cs : List Candidate) (p : Panel), ∀ c ∈ cs, tracked (cs.foldl track p) c.path := by
  intro cs
  induction cs with
  | nil => intro p c hc; cases hc
  | cons c0 r ih =>
    intro p c hc
    simp only [List.foldl_cons]
    rcases List.mem_cons.mp hc with h | h
    · subst h
      exact foldl_track_tracked_mono r _ _ (track_tracks p c)
    · exact ih _ c h

theorem foldl_track_get?_frame :
    ∀ (cs : List Candidate) (p : Panel) (k : Str), Map.has p.pending_dependencies k = true →
      Map.get? (cs.foldl track p).pending_dependencies k = Map.get? p.pending_dependencies k := by
  intro cs
  induction cs with
  | nil => intro p k _; rfl
  | cons c r ih =>
    intro p k h
    simp only [List.foldl_cons]
    rw [ih _ k (track_has_mono p c k h), track_get?_frame p c k h]

/-! ## Lemmas on the walk -/

theorem Map.has_iff_get? {V : Type} (m : Map V) (k : Str) :
    Map.has m k = true ↔ ∃ v, Map.get? m k = some v := by
  induction m with
  | nil =>
    constructor
    · intro h; exact absurd h (by simp [Map.has])
    · rintro ⟨v, hv⟩; exact absurd hv (by simp [Map.get?])
  | cons e r ih =>
    by_cases h : (e.1 == k) = true
    · constructor
      · intro _; exact ⟨e.2, by simp only [Map.get?, h, if_true]⟩
      · intro _; simp only [Map.has, List.any_cons, h, Bool.true_or]
    · have hh : Map.has (e :: r) k = Map.has r k := by
        simp only [Map.has, List.any_cons, h, Bool.false_or]
      have hg : Map.get? (e :: r) k = Map.get? r k := by
        simp only [Map.get?, h, if_false]
        rfl
      rw [hh, hg]; exact ih

theorem Map.get?_none_of_not_has {V : Type} (m : Map V) (k : Str) (h : Map.has m k = false) :
    Map.get? m k = none := by
  cases hg : Map.get? m k with
  | none => rfl
  | some v =>
    have := (Map.has_iff_get? m k).mpr ⟨v, hg⟩
    rw [this] at h; exact absurd h (by decide)

theorem Extends.refl (t : Table) : Extends t t :=
  fun _ e h => ⟨e, h, rfl, rfl, rfl, fun _ => rfl, fun h => h⟩

theorem Extends.trans {t1 t2 t3 : Table} (h12 : Extends t1 t2) (h23 : Extends t2 t3) :
    Extends t1 t3 := by
  intro k e h
  obtain ⟨e2, g2, a2, b2, c2, d2, f2⟩ := h12 k e h
  obtain ⟨e3, g3, a3, b3, c3, d3, f3⟩ := h23 k e2 g2
  refine ⟨e3, g3, a3.trans a2, b3.trans b2, c3.trans c2, ?_, fun hc => f3 (f2 hc)⟩
  intro hne
  have h2 : e2.code = e.code := d2 hne
  rw [d3 (by rw [h2]; exact hne), h2]

theorem Extends.has {t1 t2 : Table} (h : Extends t1 t2) (k : Str) (hk : Map.has t1 k = true) :
    Map.has t2 k = true := by
  obtain ⟨e, he⟩ := (Map.has_iff_get? t1 k).mp hk
  obtain ⟨e2, g2, _⟩ := h k e he
  exact (Map.has_iff_get? t2 k).mpr ⟨e2, g2⟩

theorem Extends.set_new (t : Table) (k : Str) (v : DependencyInfo) (h : Map.has t k = false) :
    Extends t (Map.set t k v) := by
  intro k1 e he
  have hk1 : Map.has t k1 = true := (Map.has_iff_get? t k1).mpr ⟨e, he⟩
  have hne := Map.ne_of_has_of_not_has t k k1 hk1 h
  exact ⟨e, by rw [Map.get?_set_ne _ _ _ _ hne]; exact he, rfl, rfl, rfl, fun _ => rfl, fun h => h⟩

theorem Extends.set_same (t : Table) (k : Str) (old v : DependencyInfo)
    (hold : Map.get? t k = some old) (h1 : v.type = old.type) (h2 : v.path = old.path)
    (h3 : v.dependencies = old.dependencies) (h4 : old.code ≠ [] → v.code = old.code)
    (h5 : old.created = true → v.created = true) :
    Extends t (Map.set t k v) := by
  intro k1 e he
  by_cases hk : k1 = k
  · subst hk
    rw [hold] at he
    cases he
    exact ⟨v, Map.get?_set_self _ _ _, h1, h2, h3, h4, h5⟩
  · exact ⟨e, by rw [Map.get?_set_ne _ _ _ _ hk]; exact he, rfl, rfl, rfl, fun _ => rfl, fun h => h⟩

theorem auto_apply_table (p : Panel) (code target : Str) :
    (_auto_apply_changes p code target).pending_dependencies = p.pending_dependencies
    ∧ (_auto_apply_changes p code target).processing_order = p.processing_order := by
  constructor <;> (unfold _auto_apply_changes Panel._add_claude_message; dsimp only; repeat' split) <;> rfl

theorem placeholder_resource_table (p : Panel) (path : Str) :
    (_create_placeholder_resource p path).pending_dependencies = p.pending_dependencies
    ∧ (_create_placeholder_resource p path).processing_order = p.processing_order := by
  constructor <;> (unfold _create_placeholder_resource Panel._add_claude_message; dsimp only; repeat' split) <;> rfl

theorem placeholder_scene_table (env : Env) (p : Panel) (path : Str) :
    (_create_placeholder_scene env p path).pending_dependencies = p.pending_dependencies
    ∧ (_create_placeholder_scene env p path).processing_order = p.processing_order := by
  constructor <;> (unfold _create_placeholder_scene Panel._add_claude_message; dsimp only; repeat' split) <;> rfl

/-- The inner loop body does nothing for a dependency that is a key of the
table. -/
theorem check_dependency_of_has (env : Env) (p : Panel) (i : Nat) (dep : Str)
    (h : Map.has p.pending_dependencies dep = true) :
    check_dependency env (p, i) dep = (p, i) := by
  unfold check_dependency
  simp [h]

/-- What the inner loop body can do: nothing to table and order; or add a new
key to the table and splice it into the order at the walk index. -/
theorem check_dependency_cases (env : Env) (p : Panel) (i : Nat) (dep : Str) :
    ((check_dependency env (p, i) dep).1.pending_dependencies = p.pending_dependencies
      ∧ (check_dependency env (p, i) dep).1.processing_order = p.processing_order
      ∧ (check_dependency env (p, i) dep).2 = i)
    ∨ (Map.has p.pending_dependencies dep = false
      ∧ (∃ v, (check_dependency env (p, i) dep).1.pending_dependencies
          = Map.set p.pending_dependencies dep v)
      ∧ (check_dependency env (p, i) dep).1.processing_order = insert_at p.processing_order i dep
      ∧ (check_dependency env (p, i) dep).2 = i + 1) := by
  unfold check_dependency
  dsimp only
  split
  · rename_i hg
    simp only [Bool.and_eq_true, Bool.not_eq_true'] at hg
    split
    · exact Or.inr ⟨hg.2, ⟨_, rfl⟩, rfl, rfl⟩
    · split
      · exact Or.inr ⟨hg.2, ⟨_, rfl⟩, rfl, rfl⟩
      · split
        · exact Or.inl ⟨(placeholder_resource_table p dep).1, (placeholder_resource_table p dep).2, rfl⟩
        · exact Or.inl ⟨rfl, rfl, rfl⟩
  · exact Or.inl ⟨rfl, rfl, rfl⟩

theorem check_dependency_extends (env : Env) (p : Panel) (i : Nat) (dep : Str) :
    Extends p.pending_dependencies (check_dependency env (p, i) dep).1.pending_dependencies := by
  rcases check_dependency_cases env p i dep with ⟨h, _, _⟩ | ⟨hn, ⟨v, hv⟩, _, _⟩
  · rw [h]; exact Extends.refl _
  · rw [hv]; exact Extends.set_new _ _ _ hn

theorem Table.at_of_get? (t : Table) (k : Str) (e : DependencyInfo) (h : Map.get? t k = some e) :
    Table.at t k = e := by
  unfold Table.at; rw [h]; rfl

theorem Table.at_set_self (t : Table) (k : Str) (v : DependencyInfo) :
    Table.at (Map.set t k v) k = v :=
  Table.at_of_get? _ _ _ (Map.get?_set_self t k v)

theorem mark_created_extends (t : Table) (path : Str) :
    Extends t (Map.set t path { Table.at t path with created := true }) := by
  cases hg : Map.get? t path with
  | none =>
    apply Extends.set_new
    cases hh : Map.has t path
    · rfl
    · obtain ⟨v, hv⟩ := (Map.has_iff_get? t path).mp hh
      rw [hv] at hg; cases hg
  | some old =>
    rw [Table.at_of_get? t path old hg]
    exact Extends.set_same t path old _ hg rfl rfl rfl (fun _ => rfl) (fun _ => rfl)

theorem set_code_extends (t : Table) (path code : Str) (h : (Table.at t path).code = []) :
    Extends t (Map.set t path { Table.at t path with code := code }) := by
  cases hg : Map.get? t path with
  | none =>
    apply Extends.set_new
    cases hh : Map.has t path
    · rfl
    · obtain ⟨v, hv⟩ := (Map.has_iff_get? t path).mp hh
      rw [hv] at hg; cases hg
  | some old =>
    rw [Table.at_of_get? t path old hg] at h ⊢
    exact Extends.set_same t path old _ hg rfl rfl rfl (fun hne => absurd h hne) (fun hc => hc)

theorem materialize_table (env : Env) (p : Panel) (path : Str) :
    (materialize env p path).processing_order = p.processing_order
    ∧ ((materialize env p path).pending_dependencies = p.pending_dependencies
      ∨ ((Table.at p.pending_dependencies path).code = []
        ∧ ∃ code, (materialize env p path).pending_dependencies
            = Map.set p.pending_dependencies path
                { Table.at p.pending_dependencies path with code := code })) := by
  unfold materialize
  dsimp only
  by_cases h1 : (!(Table.at p.pending_dependencies path).code.isEmpty) = true
  · rw [if_pos h1]
    exact ⟨(auto_apply_table _ _ _).2, Or.inl (auto_apply_table _ _ _).1⟩
  · rw [if_neg h1]
    have he : (Table.at p.pending_dependencies path).code = [] := by simpa using h1
    by_cases h2 : ((Table.at p.pending_dependencies path).type == "script".toList) = true
    · rw [if_pos h2]
      exact ⟨(auto_apply_table _ _ _).2, Or.inr ⟨he, _, (auto_apply_table _ _ _).1⟩⟩
    · rw [if_neg h2]
      by_cases h3 : ((Table.at p.pending_dependencies path).type == "scene".toList) = true
      · rw [if_pos h3]
        exact ⟨(placeholder_scene_table _ _ _).2, Or.inl (placeholder_scene_table _ _ _).1⟩
      · rw [if_neg h3]
        by_cases h4 : ends_with (Table.at p.pending_dependencies path).path ".tres".toList = true
        · rw [if_pos h4]
          exact ⟨(placeholder_resource_table _ _).2, Or.inl (placeholder_resource_table _ _).1⟩
        · rw [if_neg h4]
          exact ⟨rfl, Or.inl rfl⟩

theorem apply_entry_order (env : Env) (p : Panel) (path : Str) :
    (apply_entry env p path).processing_order = p.processing_order := by
  unfold apply_entry
  dsimp only
  by_cases hc : (!(Table.at p.pending_dependencies path).created) = true
  · rw [if_pos hc]; exact (materialize_table env p path).1
  · rw [if_neg hc]

theorem apply_entry_extends (env : Env) (p : Panel) (path : Str) :
    Extends p.pending_dependencies (apply_entry env p path).pending_dependencies := by
  unfold apply_entry
  dsimp only
  by_cases hc : (!(Table.at p.pending_dependencies path).created) = true
  · rw [if_pos hc]
    rcases (materialize_table env p path).2 with h | ⟨he, code, h⟩
    · simp only [h]
      exact mark_created_extends _ _
    · simp only [h]
      exact Extends.trans (set_code_extends _ path code he) (mark_created_extends _ _)
  · rw [if_neg hc]
    exact Extends.refl _

/-- An invariant of the panel that the inner loop body and the apply block keep
holds when the walk ends. -/
theorem walk_invariant (env : Env) (Inv : Panel → Prop)
    (hcheck : ∀ p i d, Inv p → Inv (check_dependency env (p, i) d).1)
    (happly : ∀ p path, Inv p → Inv (apply_entry env p path)) :
    ∀ (fuel : Nat) (p : Panel) (i : Nat) (q : Panel),
      Inv p → walk env fuel p i = some q → Inv q := by
  have hfold : ∀ (deps : List Str) (st : Panel × Nat), Inv st.1 →
      Inv (deps.foldl (check_dependency env) st).1 := by
    intro deps
    induction deps with
    | nil => intro st h; exact h
    | cons d r ih =>
      intro st h
      simp only [List.foldl_cons]
      exact ih _ (hcheck st.1 st.2 d h)
  intro fuel
  induction fuel with
  | zero => intro p i q _ h; simp [walk] at h
  | succ n ih =>
    intro p i q hp h
    unfold walk at h
    by_cases hi : i < p.processing_order.length
    · simp only [hi, if_true] at h
      exact ih _ _ q (happly _ _ (hfold _ (p, i) hp)) h
    · simp only [hi, if_false] at h
      cases h; exact hp

theorem insert_at_length (v : List Str) (i : Nat) (x : Str) :
    (insert_at v i x).length = v.length + 1 := by
  unfold insert_at
  simp only [List.length_append, List.length_cons, List.length_take, List.length_drop]
  omega

theorem check_dependency_measure (env : Env) (st : Panel × Nat) (d : Str) :
    (check_dependency env st d).1.processing_order.length + st.2
      = st.1.processing_order.length + (check_dependency env st d).2 := by
  rcases check_dependency_cases env st.1 st.2 d with ⟨_, h2, h3⟩ | ⟨_, _, h2, h3⟩
  · rw [h2, h3]
  · rw [h2, h3, insert_at_length]; omega

theorem foldl_check_measure (env : Env) :
    ∀ (deps : List Str) (st : Panel × Nat),
      (deps.foldl (check_dependency env) st).1.processing_order.length + st.2
        = st.1.processing_order.length + (deps.foldl (check_dependency env) st).2 := by
  intro deps
  induction deps with
  | nil => intro st; rfl
  | cons d r ih =>
    intro st
    simp only [List.foldl_cons]
    have h1 := ih (check_dependency env st d)
    have h2 := check_dependency_measure env st d
    omega

/-- The walk ends: the distance between the size of the order and the index
drops by one in every iteration, so any fuel beyond it is enough. -/
theorem walk_total (env : Env) :
    ∀ (fuel : Nat) (p : Panel) (i : Nat), p.processing_order.length - i < fuel →
      ∃ q, walk env fuel p i = some q := by
  intro fuel
  induction fuel with
  | zero => intro p i h; omega
  | succ n ih =>
    intro p i h
    unfold walk
    by_cases hi : i < p.processing_order.length
    · simp only [hi, if_true]
      apply ih
      unfold walk_step
      dsimp only
      rw [apply_entry_order]
      have hm := foldl_check_measure env
        (Table.at p.pending_dependencies (p.processing_order.getD i [])).dependencies (p, i)
      simp only at hm
      omega
    · simp only [hi, if_false]
      exact ⟨p, rfl⟩

theorem process_dependencies_total (env : Env) (p : Panel) :
    ∃ q, _process_dependencies env p = some q := by
  unfold _process_dependencies
  exact walk_total env _ _ 0 (by omega)

/-! ## Lemmas on the order built before the walk -/

theorem Map.get?_of_mem_nodup {V : Type} :
    ∀ (m : Map V) (k : Str) (v : V), (Map.keys m).Nodup → (k, v) ∈ m → Map.get? m k = some v := by
  intro m
  induction m with
  | nil => intro k v _ h; cases h
  | cons e r ih =>
    intro k v hn hm
    simp only [Map.keys, List.map_cons, List.nodup_cons] at hn
    rcases List.mem_cons.mp hm with h | h
    · subst h; simp [Map.get?]
    · have hne : (e.1 == k) = false := by
        have : e.1 ≠ k := by
          intro he
          apply hn.1
          rw [he]
          exact List.mem_map.mpr ⟨(k, v), h, rfl⟩
        simpa using this
      simp only [Map.get?, hne]
      exact ih k v hn.2 h

theorem insert_sorted_mem {α : Type} (lt : α → α → Bool) (x y : α) :
    ∀ l : List α, y ∈ insert_sorted lt x l ↔ y = x ∨ y ∈ l := by
  intro l
  induction l with
  | nil => simp [insert_sorted]
  | cons z r ih =>
    unfold insert_sorted
    split
    · simp
    · simp only [List.mem_cons, ih]
      constructor
      · rintro (h | h | h)
        · exact Or.inr (Or.inl h)
        · exact Or.inl h
        · exact Or.inr (Or.inr h)
      · rintro (h | h | h)
        · exact Or.inr (Or.inl h)
        · exact Or.inl h
        · exact Or.inr (Or.inr h)

theorem sort_custom_mem {α : Type} (lt : α → α → Bool) (y : α) :
    ∀ l : List α, y ∈ sort_custom lt l ↔ y ∈ l := by
  intro l
  induction l with
  | nil => simp [sort_custom]
  | cons z r ih =>
    unfold sort_custom at ih ⊢
    simp only [List.foldr_cons, insert_sorted_mem, ih, List.mem_cons]

theorem pairwise_of_const {f : Str → Nat} {c : Nat} :
    ∀ l : List Str, (∀ a ∈ l, f a = c) → l.Pairwise (fun a b => f a ≤ f b) := by
  intro l
  induction l with
  | nil => intro _; exact List.Pairwise.nil
  | cons x r ih =>
    intro h
    refine List.Pairwise.cons ?_ (ih (fun a ha => h a (List.mem_cons_of_mem _ ha)))
    intro b hb
    rw [h x (List.mem_cons_self _ _), h b (List.mem_cons_of_mem _ hb)]

theorem resource_keys_type (t : Table) (hn : (Map.keys t).Nodup) :
    ∀ k ∈ resource_keys t, Map.has t k = true ∧ kind_rank (Table.at t k).type = 0 := by
  intro k hk
  unfold resource_keys at hk
  obtain ⟨E, hE, rfl⟩ := List.mem_map.mp hk
  obtain ⟨hm, hf⟩ := List.mem_filter.mp hE
  have hg := Map.get?_of_mem_nodup t E.1 E.2 hn hm
  refine ⟨(Map.has_iff_get? t E.1).mpr ⟨_, hg⟩, ?_⟩
  rw [Table.at_of_get? t E.1 E.2 hg]
  simp only [Bool.and_eq_true] at hf
  have : E.2.type = "resource".toList := by simpa using hf.1.1
  rw [this]; rfl

theorem script_keys_type (t : Table) (hn : (Map.keys t).Nodup) :
    ∀ k ∈ script_keys t, Map.has t k = true ∧ kind_rank (Table.at t k).type = 1 := by
  intro k hk
  unfold script_keys at hk
  obtain ⟨E, hE, rfl⟩ := List.mem_map.mp hk
  obtain ⟨hm, hf⟩ := List.mem_filter.mp hE
  have hg := Map.get?_of_mem_nodup t E.1 E.2 hn hm
  refine ⟨(Map.has_iff_get? t E.1).mpr ⟨_, hg⟩, ?_⟩
  rw [Table.at_of_get? t E.1 E.2 hg]
  have : E.2.type = "script".toList := by simpa using hf
  rw [this]; rfl

theorem scene_keys_type (t : Table) (hn : (Map.keys t).Nodup) :
    ∀ k ∈ (sort_custom PairSort (scene_pairs t)).map (fun e => e.1),
      Map.has t k = true ∧ kind_rank (Table.at t k).type = 2 := by
  intro k hk
  obtain ⟨pr, hpr, rfl⟩ := List.mem_map.mp hk
  rw [sort_custom_mem] at hpr
  unfold scene_pairs at hpr
  obtain ⟨E, hE, rfl⟩ := List.mem_map.mp hpr
  obtain ⟨hm, hf⟩ := List.mem_filter.mp hE
  have hg := Map.get?_of_mem_nodup t E.1 E.2 hn hm
  refine ⟨(Map.has_iff_get? t E.1).mpr ⟨_, hg⟩, ?_⟩
  dsimp only
  rw [Table.at_of_get? t E.1 E.2 hg]
  have : E.2.type = "scene".toList := by simpa using hf
  rw [this]; rfl

/-- The order pushed before the walk lists keys of the table only and respects
the kinds. -/
theorem build_order_ordered (t : Table) (hn : (Map.keys t).Nodup) :
    (∀ k ∈ build_order t, Map.has t k = true) ∧ ordered_by_kind t (build_order t) := by
  have hr := resource_keys_type t hn
  have hs := script_keys_type t hn
  have hc := scene_keys_type t hn
  constructor
  · intro k hk
    unfold build_order at hk
    rcases List.mem_append.mp hk with h | h
    · rcases List.mem_append.mp h with h | h
      · exact (hr k h).1
      · exact (hs k h).1
    · exact (hc k h).1
  · unfold ordered_by_kind build_order
    rw [List.pairwise_append, List.pairwise_append]
    refine ⟨⟨pairwise_of_const _ (fun a ha => (hr a ha).2),
      pairwise_of_const _ (fun a ha => (hs a ha).2), ?_⟩,
      pairwise_of_const _ (fun a ha => (hc a ha).2), ?_⟩
    · intro a ha b hb
      rw [(hr a ha).2, (hs b hb).2]; omega
    · intro a ha b hb
      rw [(hc b hb).2]
      rcases List.mem_append.mp ha with h | h
      · rw [(hr a h).2]; omega
      · rw [(hs a h).2]; omega

theorem Table.at_type (t : Table) (k : Str) :
    (Table.at t k).type = ((Map.get? t k).map (fun e => e.type)).getD [] := by
  unfold Table.at
  cases Map.get? t k <;> rfl

theorem upgrade_scenes_extends (env : Env) :
    ∀ (t : Table) (seeds : Nat),
      Map.keys (upgrade_scenes env t seeds).1 = Map.keys t
      ∧ ∀ k, (Map.get? (upgrade_scenes env t seeds).1 k).map (fun e => e.type)
          = (Map.get? t k).map (fun e => e.type) := by
  intro t
  induction t with
  | nil => intro seeds; exact ⟨rfl, fun _ => rfl⟩
  | cons E r ih =>
    intro seeds
    unfold upgrade_scenes
    by_cases hc : (E.2.type == "scene".toList && !E.2.code.isEmpty
        && find E.2.code "format=2".toList != -1) = true
    · rw [if_pos hc]
      dsimp only
      constructor
      · simp only [Map.keys, List.map_cons]
        have := (ih (seeds + 1)).1
        simp only [Map.keys] at this
        rw [this]
      · intro k
        by_cases hk : (E.1 == k) = true
        · simp only [Map.get?, hk, if_true, Option.map_some']
        · simp only [Map.get?, hk, if_false]
          exact (ih (seeds + 1)).2 k
    · rw [if_neg hc]
      dsimp only
      constructor
      · simp only [Map.keys, List.map_cons]
        have := (ih seeds).1
        simp only [Map.keys] at this
        rw [this]
      · intro k
        by_cases hk : (E.1 == k) = true
        · simp only [Map.get?, hk, if_true, Option.map_some']
        · simp only [Map.get?, hk, if_false]
          exact (ih seeds).2 k

theorem Map.has_eq_of_keys_eq {V W : Type} (m : Map V) (n : Map W) (h : Map.keys m = Map.keys n)
    (k : Str) : Map.has m k = Map.has n k := by
  have hm : ∀ (U : Type) (x : Map U), Map.has x k = (Map.keys x).any (fun a => a == k) := by
    intro U x
    induction x with
    | nil => rfl
    | cons e r ih =>
      simp only [Map.has, Map.keys, List.any_cons, List.map_cons] at ih ⊢
      rw [ih]
  rw [hm V m, hm W n, h]

theorem filter_insert_at (P : Str → Bool) (v : List Str) (i : Nat) (x : Str) (h : P x = false) :
    (insert_at v i x).filter P = v.filter P := by
  unfold insert_at
  rw [List.filter_append, List.filter_cons, h]
  simp only [Bool.false_eq_true, if_false]
  rw [← List.filter_append, List.take_append_drop]

theorem filter_of_forall (P : Str → Bool) :
    ∀ l : List Str, (∀ a ∈ l, P a = true) → l.filter P = l := by
  intro l h
  exact List.filter_eq_self.mpr h

/-- Through the walk the table only grows in the sense of `Extends`, and the
paths that were keys at the start keep their relative order. -/
theorem walk_keeps_original_order (env : Env) (t0 : Table) (o0 : List Str) :
    ∀ (fuel : Nat) (p : Panel) (i : Nat) (q : Panel),
      (Extends t0 p.pending_dependencies
        ∧ p.processing_order.filter (fun k => Map.has t0 k) = o0) →
      walk env fuel p i = some q →
      (Extends t0 q.pending_dependencies
        ∧ q.processing_order.filter (fun k => Map.has t0 k) = o0) := by
  apply walk_invariant env
    (fun p => Extends t0 p.pending_dependencies
      ∧ p.processing_order.filter (fun k => Map.has t0 k) = o0)
  · intro p i d ⟨he, ho⟩
    refine ⟨Extends.trans he (check_dependency_extends env p i d), ?_⟩
    rcases check_dependency_cases env p i d with ⟨_, h2, _⟩ | ⟨hn, _, h2, _⟩
    · rw [h2]; exact ho
    · rw [h2, filter_insert_at _ _ _ _ ?_]
      · exact ho
      · cases hh : Map.has t0 d
        · rfl
        · rw [Extends.has he d hh] at hn; exact absurd hn (by decide)
  · intro p path ⟨he, ho⟩
    exact ⟨Extends.trans he (apply_entry_extends env p path), by rw [apply_entry_order]; exact ho⟩

theorem begins_with_append (a r : Str) : begins_with (a ++ r) a = true := by
  unfold begins_with
  exact List.isPrefixOf_iff_prefix.mpr (List.prefix_append a r)

theorem begins_with_append_iff (a b r : Str) :
    begins_with (a ++ r) (a ++ b) = begins_with r b := by
  unfold begins_with
  cases h : b.isPrefixOf r
  · cases h2 : (a ++ b).isPrefixOf (a ++ r)
    · rfl
    · have := (List.prefix_append_right_inj a).mp (List.isPrefixOf_iff_prefix.mp h2)
      rw [List.isPrefixOf_iff_prefix.mpr this] at h
      exact absurd h (by decide)
  · exact List.isPrefixOf_iff_prefix.mpr
      ((List.prefix_append_right_inj a).mpr (List.isPrefixOf_iff_prefix.mp h))

theorem eq_append_of_begins_with (s a : Str) (h : begins_with s a = true) :
    s = a ++ s.drop a.length := by
  unfold begins_with at h
  obtain ⟨r, hr⟩ := List.isPrefixOf_iff_prefix.mp h
  rw [← hr, List.drop_left]

theorem begins_with_false_of_not (s a : Str) (h : ¬ begins_with s a = true) :
    begins_with s a = false := by
  cases hh : begins_with s a
  · rfl
  · exact absurd hh h

/-! ## Lemmas on the extractors and the fast materializer -/

theorem validate_tscn_iff (code : Str) :
    _validate_tscn_code code = true
      ↔ (begins_with code "[gd_scene".toList = true ∧ contains code "format=3".toList = true
          ∧ contains code "[node".toList = true) := by
  unfold _validate_tscn_code contains
  cases begins_with code "[gd_scene".toList <;>
    cases h2 : (find code "format=3".toList == -1) <;>
    cases h3 : (find code "[node".toList == -1) <;>
    simp_all [bne]

theorem attempts_blocks (bs : List CodeBlock) :
    ∀ p : Panel, (attempts p bs).map (fun a => a.1) = bs := by
  induction bs with
  | nil => intro p; rfl
  | cons b r ih => intro p; simp [attempts, ih]

theorem foldl_apply_block_step (bs : List CodeBlock) :
    ∀ (s : Bool) (r : List Str) (p : Panel),
      (bs.foldl apply_block_step (s, r, p)).1 = (s && (attempts p bs).all (fun a => a.2))
      ∧ (bs.foldl apply_block_step (s, r, p)).2.1
          = r ++ ((attempts p bs).filter (fun a => a.2)).map (fun a => get_file a.1.file_path) := by
  induction bs with
  | nil => intro s r p; simp [attempts]
  | cons b rest ih =>
    intro s r p
    simp only [List.foldl_cons, attempts]
    cases hr : (_apply_code_block p b.code b.file_path b.type).1
    · have hs : apply_block_step (s, r, p) b
          = (false, r, (_apply_code_block p b.code b.file_path b.type).2) := by
        simp [apply_block_step, hr]
      rw [hs]
      obtain ⟨h1, h2⟩ := ih false r (_apply_code_block p b.code b.file_path b.type).2
      rw [h1, h2]
      simp
    · have hs : apply_block_step (s, r, p) b
          = (s, r ++ [get_file b.file_path], (_apply_code_block p b.code b.file_path b.type).2) := by
        simp [apply_block_step, hr]
      rw [hs]
      obtain ⟨h1, h2⟩ := ih s (r ++ [get_file b.file_path])
        (_apply_code_block p b.code b.file_path b.type).2
      rw [h1, h2]
      simp

theorem extract_fast_flag (env : Env) (p_response : Str) :
    (_extract_code_blocks_fast env p_response []).1
      = !(_extract_code_blocks_fast env p_response []).2.isEmpty := by
  unfold _extract_code_blocks_fast
  dsimp only
  split
  · rfl
  · simp only [List.nil_append]
    cases (List.filterMap (fast_block env (split p_response "```".toList))
      (fast_indices (split p_response "```".toList).length)) <;> simp

theorem ends_with_append (a b : Str) : ends_with (a ++ b) b = true := by
  unfold ends_with
  exact List.isSuffixOf_iff_suffix.mpr (List.suffix_append a b)

theorem generate_script_path_gd (env : Env) (code : Str) :
    ends_with (_generate_script_path env code) ".gd".toList = true
    ∧ begins_with (_generate_script_path env code) "res://".toList = true := by
  unfold _generate_script_path
  split
  · exact ⟨ends_with_append _ _, by rw [List.append_assoc]; exact begins_with_append _ _⟩
  · exact ⟨ends_with_append _ _, by rfl⟩

theorem filterMap_filter_ne {α : Type} (f : Nat → Option α) (i : Nat) (h : f i = none) :
    ∀ l : List Nat, (l.filter (fun j => j != i)).filterMap f = l.filterMap f := by
  intro l
  induction l with
  | nil => rfl
  | cons j r ih =>
    by_cases hj : j = i
    · subst hj
      simp [List.filter_cons, List.filterMap_cons, h, ih]
    · have : (j != i) = true := by simpa using hj
      simp only [List.filter_cons, this, if_true, List.filterMap_cons, ih]

theorem fast_block_local (env : Env) (parts parts2 : List Str) (j j2 : Nat)
    (h1 : parts.getD j [] = parts2.getD j2 [])
    (h2 : parts.getD (j - 1) [] = parts2.getD (j2 - 1) []) :
    fast_block env parts j = fast_block env parts2 j2 := by
  unfold fast_block
  rw [h1, h2]

theorem legacy_normalize_res (h : Str) : begins_with (legacy_normalize h) "res://".toList = true := by
  unfold legacy_normalize
  by_cases hb : begins_with h "res://".toList = true
  · rw [hb]
    simp only [Bool.not_true, Bool.false_and, Bool.false_eq_true, if_false]
    split
    · exact begins_with_append _ _
    · exact hb
  · have hb2 := begins_with_false_of_not _ _ hb
    rw [hb2]
    by_cases hs : begins_with h "/".toList = true
    · rw [hs]
      simp only [Bool.not_false, Bool.not_true, Bool.and_false, Bool.false_eq_true, if_false, if_true]
      exact begins_with_append _ _
    · have hs2 := begins_with_false_of_not _ _ hs
      rw [hs2]
      simp only [Bool.not_false, Bool.and_self, if_true]
      exact begins_with_append _ _

theorem multi_path_from_content_res (env : Env) (code : Str) :
    begins_with (multi_path_from_content env code) "res://".toList = true := by
  unfold multi_path_from_content
  split
  · dsimp only
    rw [List.append_assoc]; exact begins_with_append _ _
  · split
    · dsimp only
      rw [List.append_assoc]; exact begins_with_append _ _
    · rfl

theorem multi_hinted_path_res (t : Str) (h : multi_hinted_path t ≠ []) :
    begins_with (multi_hinted_path t) "res://".toList = true := by
  unfold multi_hinted_path at h ⊢
  cases hg : (search_all multi_file_regex t).getLast? with
  | none => rw [hg] at h; exact absurd rfl h
  | some pm =>
    rw [hg] at h
    dsimp only at h ⊢
    by_cases hc : (!(pm.get_string 1).isEmpty) = true
    · rw [if_pos hc]; exact legacy_normalize_res _
    · rw [if_neg hc] at h; exact absurd rfl h

theorem multi_block_res (env : Env) (p_text : Str) (m : RegExMatch) :
    begins_with (multi_block env p_text m).file_path "res://".toList = true := by
  unfold multi_block
  dsimp only
  by_cases he : (multi_hinted_path (substr p_text 0 m.start)).isEmpty = true
  · rw [if_pos he]; exact multi_path_from_content_res env _
  · rw [if_neg he]
    exact multi_hinted_path_res _ (by intro h; rw [h] at he; exact he rfl)

theorem ne_nil_of_begins_with_res (s : Str) (h : begins_with s "res://".toList = true) : s ≠ [] := by
  intro hs; rw [hs] at h; exact absurd h (by decide)

/-! ## Lemmas on storage growth -/

theorem storage_grows_refl (s : Storage) : StorageGrows s s := ⟨fun _ h => h, rfl, rfl⟩

theorem storage_grows_trans {s1 s2 s3 : Storage} (h12 : StorageGrows s1 s2)
    (h23 : StorageGrows s2 s3) : StorageGrows s1 s3 :=
  ⟨fun k h => h23.1 k (h12.1 k h), h23.2.1.trans h12.2.1, h23.2.2.trans h12.2.2⟩

theorem make_dir_grows (s : Storage) (dir : Str) : StorageGrows s (s.make_dir_recursive dir).2 := by
  unfold Storage.make_dir_recursive
  split
  · exact ⟨fun _ h => h, rfl, rfl⟩
  · exact storage_grows_refl s

theorem open_write_grows (s : Storage) (path : Str) : StorageGrows s (s.open_write path).2 :=
  storage_grows_refl s

theorem store_string_grows (s : Storage) (path content : Str) :
    StorageGrows s (s.store_string path content) :=
  ⟨fun _ h => Map.has_set_of_has _ _ _ _ h, rfl, rfl⟩

theorem mkdir_choice_grows (s : Storage) (c : Bool) (dir : Str) :
    StorageGrows s (if c = true then s.make_dir_recursive dir else (0, s)).2 := by
  cases c
  · exact storage_grows_refl s
  · exact make_dir_grows s dir

theorem auto_apply_grows (p : Panel) (code target : Str) :
    StorageGrows p.storage (_auto_apply_changes p code target).storage := by
  have h := mkdir_choice_grows p.storage
    (!(get_base_dir target).isEmpty && !p.storage.dir_exists (get_base_dir target))
    (get_base_dir target)
  unfold _auto_apply_changes Panel._add_claude_message
  dsimp only
  generalize (if (!(get_base_dir target).isEmpty && !p.storage.dir_exists (get_base_dir target)) = true
      then p.storage.make_dir_recursive (get_base_dir target) else (0, p.storage)) = mk at h ⊢
  by_cases h1 : mk.1 ≠ 0
  · rw [if_pos h1]; exact storage_grows_refl _
  · rw [if_neg h1]
    by_cases h2 : (mk.2.open_write target).1 ≠ 0
    · rw [if_pos h2]; exact storage_grows_trans h (open_write_grows mk.2 target)
    · rw [if_neg h2]
      exact storage_grows_trans h (storage_grows_trans (open_write_grows mk.2 target) (store_string_grows _ _ _))

theorem auto_apply_grows_of_eq (p p2 : Panel) (code target : Str) (h : p2.storage = p.storage) :
    StorageGrows p.storage (_auto_apply_changes p2 code target).storage := by
  rw [← h]; exact auto_apply_grows p2 code target

theorem placeholder_resource_grows (p : Panel) (path : Str) :
    StorageGrows p.storage (_create_placeholder_resource p path).storage := by
  have h := mkdir_choice_grows p.storage (!p.storage.dir_exists (get_base_dir path))
    (get_base_dir path)
  unfold _create_placeholder_resource Panel._add_claude_message
  dsimp only
  generalize (if (!p.storage.dir_exists (get_base_dir path)) = true
      then p.storage.make_dir_recursive (get_base_dir path) else (0, p.storage)) = mk at h ⊢
  by_cases h1 : mk.1 ≠ 0
  · rw [if_pos h1]; exact storage_grows_refl _
  · rw [if_neg h1]
    by_cases h2 : (mk.2.open_write path).1 ≠ 0
    · rw [if_pos h2]; exact storage_grows_trans h (open_write_grows mk.2 path)
    · rw [if_neg h2]
      exact storage_grows_trans h (storage_grows_trans (open_write_grows mk.2 path) (store_string_grows _ _ _))

theorem placeholder_scene_grows (env : Env) (p : Panel) (path : Str) :
    StorageGrows p.storage (_create_placeholder_scene env p path).storage := by
  have h := mkdir_choice_grows p.storage (!p.storage.dir_exists (get_base_dir path))
    (get_base_dir path)
  unfold _create_placeholder_scene Panel._add_claude_message
  dsimp only
  generalize (if (!p.storage.dir_exists (get_base_dir path)) = true
      then p.storage.make_dir_recursive (get_base_dir path) else (0, p.storage)) = mk at h ⊢
  by_cases h1 : mk.1 ≠ 0
  · rw [if_pos h1]; exact storage_grows_refl _
  · rw [if_neg h1]
    by_cases h2 : (mk.2.open_write path).1 ≠ 0
    · rw [if_pos h2]; exact storage_grows_trans h (open_write_grows mk.2 path)
    · rw [if_neg h2]
      exact storage_grows_trans h (storage_grows_trans (open_write_grows mk.2 path) (store_string_grows _ _ _))

theorem materialize_grows (env : Env) (p : Panel) (path : Str) :
    StorageGrows p.storage (materialize env p path).storage := by
  unfold materialize
  dsimp only
  split
  · exact auto_apply_grows _ _ _
  · split
    · exact auto_apply_grows_of_eq p _ _ _ rfl
    · split
      · exact placeholder_scene_grows _ _ _
      · split
        · exact placeholder_resource_grows _ _
        · exact storage_grows_refl _

theorem apply_entry_grows (env : Env) (p : Panel) (path : Str) :
    StorageGrows p.storage (apply_entry env p path).storage := by
  unfold apply_entry
  dsimp only
  split
  · exact materialize_grows env p path
  · exact storage_grows_refl _

theorem check_dependency_grows (env : Env) (p : Panel) (i : Nat) (d : Str) :
    StorageGrows p.storage (check_dependency env (p, i) d).1.storage := by
  unfold check_dependency
  dsimp only
  split
  · split
    · exact storage_grows_refl _
    · split
      · exact storage_grows_refl _
      · split
        · exact placeholder_resource_grows _ _
        · exact storage_grows_refl _
  · exact storage_grows_refl _

end VectorAIPanel

/-! ## Lemmas on `rfind` and `get_extension` -/

theorem rfindFrom_single_cons (c a : Char) (t : Str) (i : Nat) (best : Option Nat) :
    rfindFrom [c] i best (a :: t) = rfindFrom [c] (i + 1) (if c == a then some i else best) t := by
  simp [rfindFrom, List.isPrefixOf]

theorem rfindFrom_single_absent (c : Char) :
    ∀ (x : Str) (i : Nat) (best : Option Nat), (∀ a ∈ x, (c == a) = false) →
      rfindFrom [c] i best x = best := by
  intro x
  induction x with
  | nil => intro i best _; rfl
  | cons a t ih =>
    intro i best h
    rw [rfindFrom_single_cons, h a (List.mem_cons_self _ _)]
    exact ih _ _ (fun b hb => h b (List.mem_cons_of_mem _ hb))

theorem rfindFrom_single_append_absent (c : Char) (x : Str) (hx : ∀ a ∈ x, (c == a) = false) :
    ∀ (r : Str) (i : Nat) (best : Option Nat),
      rfindFrom [c] i best (r ++ x) = rfindFrom [c] i best r := by
  intro r
  induction r with
  | nil => intro i best; rw [List.nil_append, rfindFrom_single_absent c x i best hx]; rfl
  | cons a t ih =>
    intro i best
    rw [List.cons_append, rfindFrom_single_cons, rfindFrom_single_cons, ih]

theorem rfindFrom_single_append_hit (c : Char) :
    ∀ (r : Str) (i : Nat) (best : Option Nat),
      rfindFrom [c] i best (r ++ [c]) = some (i + r.length) := by
  intro r
  induction r with
  | nil => intro i best; simp [rfindFrom, List.isPrefixOf]
  | cons a t ih =>
    intro i best
    rw [List.cons_append, rfindFrom_single_cons, ih]
    simp only [List.length_cons]
    congr 1; omega

theorem rfindFrom_single_bound (c : Char) :
    ∀ (r : Str) (i : Nat) (best : Option Nat) (j : Nat),
      rfindFrom [c] i best r = some j → best = some j ∨ j < i + r.length := by
  intro r
  induction r with
  | nil => intro i best j h; exact Or.inl h
  | cons a t ih =>
    intro i best j h
    rw [rfindFrom_single_cons] at h
    rcases ih _ _ j h with h1 | h1
    · by_cases hc : (c == a) = true
      · rw [if_pos hc] at h1
        cases h1
        right; simp only [List.length_cons]; omega
      · rw [if_neg hc] at h1
        exact Or.inl h1
    · right; simp only [List.length_cons]; omega

/-- The last separator lies before a point at or after which there is none. -/
theorem rfind_single_lt (c : Char) (r x : Str) (hx : ∀ a ∈ x, (c == a) = false) :
    rfind (r ++ x) [c] < (r.length : Int) := by
  unfold rfind
  simp only [List.isEmpty_cons, Bool.false_eq_true, if_false]
  rw [rfindFrom_single_append_absent c x hx]
  cases h : rfindFrom [c] 0 none r with
  | none => simp only; omega
  | some j =>
    rcases rfindFrom_single_bound c r 0 none j h with h1 | h1
    · cases h1
    · simp only; omega

/-- A path that ends with a dot followed by `x`, where `x` holds no dot and no
separator, has the extension `x`. -/
theorem get_extension_of_suffix (r x : Str)
    (hx : ∀ a ∈ x, ('.' == a) = false ∧ ('/' == a) = false ∧ ('\\' == a) = false) :
    get_extension (r ++ '.' :: x) = x := by
  have hdot : rfind (r ++ '.' :: x) ['.'] = (r.length : Int) := by
    unfold rfind
    simp only [List.isEmpty_cons, Bool.false_eq_true, if_false]
    have : r ++ '.' :: x = (r ++ ['.']) ++ x := by simp
    rw [this, rfindFrom_single_append_absent '.' x (fun a ha => (hx a ha).1),
      rfindFrom_single_append_hit]
    simp
  have hx2 : ∀ c : Char, (c == '.') = false → (∀ a ∈ x, (c == a) = false) →
      ∀ a ∈ '.' :: x, (c == a) = false := by
    intro c hc h a ha
    rcases List.mem_cons.mp ha with h1 | h1
    · rw [h1]; exact hc
    · exact h a h1
  have hs1 := rfind_single_lt '/' r ('.' :: x) (hx2 '/' (by decide) (fun a ha => (hx a ha).2.1))
  have hs2 := rfind_single_lt '\\' r ('.' :: x) (hx2 '\\' (by decide) (fun a ha => (hx a ha).2.2))
  unfold get_extension lastSep
  dsimp only
  rw [hdot]
  have hcond : ¬ ((r.length : Int) < 0 ∨ (r.length : Int)
      < max (rfind (r ++ '.' :: x) ['/']) (rfind (r ++ '.' :: x) ['\\'])) := by
    intro h
    rcases h with h | h
    · omega
    · rcases max_cases (rfind (r ++ '.' :: x) ['/']) (rfind (r ++ '.' :: x) ['\\']) with ⟨e, _⟩ | ⟨e, _⟩
      · rw [e] at h; omega
      · rw [e] at h; omega
  rw [if_neg hcond]
  unfold substrFrom
  have : ((r.length : Int) + 1).toNat = r.length + 1 := by omega
  rw [this]
  simp

theorem get_extension_of_ends_with (s x : Str)
    (hx : ∀ a ∈ x, ('.' == a) = false ∧ ('/' == a) = false ∧ ('\\' == a) = false)
    (h : ends_with s ('.' :: x) = true) : get_extension s = x := by
  unfold ends_with at h
  obtain ⟨r, hr⟩ := List.isSuffixOf_iff_suffix.mp h
  rw [← hr]
  exact get_extension_of_suffix r x hx

theorem ends_with_of_res_prefix (f x : Str)
    (h : ends_with ("res://".toList ++ f) ('.' :: x) = true) : ends_with f ('.' :: x) = true := by
  unfold ends_with at h ⊢
  obtain ⟨pre, hpre⟩ := List.isSuffixOf_iff_suffix.mp h
  apply List.isSuffixOf_iff_suffix.mpr
  rcases List.append_eq_append_iff.mp hpre with ⟨a, h1, h2⟩ | ⟨c, h1, h2⟩
  · cases a with
    | nil =>
      simp only [List.nil_append] at h2
      exact ⟨[], by simp [h2]⟩
    | cons a0 a1 =>
      exfalso
      simp only [List.cons_append, List.cons.injEq] at h2
      have hmem : a0 ∈ "res://".toList := by
        rw [h1]; simp
      rw [← h2.1] at hmem
      exact absurd hmem (by decide)
  · exact ⟨c, h2.symm⟩

namespace VectorAIPanel

/-! ## Lemmas on the entries the walk visits -/

theorem insert_at_drop (x : Str) : ∀ (i : Nat) (v : List Str), (insert_at v i x).drop (i + 1) = v.drop i := by
  intro i
  induction i with
  | zero => intro v; simp [insert_at]
  | succ n ih =>
    intro v
    cases v with
    | nil => simp [insert_at]
    | cons a r =>
      have := ih r
      unfold insert_at at this ⊢
      simpa using this

theorem check_dependency_drop (env : Env) (st : Panel × Nat) (d : Str) :
    (check_dependency env st d).1.processing_order.drop (check_dependency env st d).2
      = st.1.processing_order.drop st.2 := by
  rcases check_dependency_cases env st.1 st.2 d with ⟨_, h2, h3⟩ | ⟨_, _, h2, h3⟩
  · rw [h2, h3]
  · rw [h2, h3, insert_at_drop]

theorem foldl_check_drop (env : Env) :
    ∀ (deps : List Str) (st : Panel × Nat),
      (deps.foldl (check_dependency env) st).1.processing_order.drop
          (deps.foldl (check_dependency env) st).2
        = st.1.processing_order.drop st.2 := by
  intro deps
  induction deps with
  | nil => intro st; rfl
  | cons d r ih =>
    intro st
    simp only [List.foldl_cons]
    rw [ih, check_dependency_drop]

theorem drop_succ_eq (l : List Str) : ∀ a : Nat, l.drop (a + 1) = (l.drop a).drop 1 := by
  induction l with
  | nil => intro a; simp
  | cons x r ih =>
    intro a
    cases a with
    | zero => simp
    | succ n => simp

theorem walk_step_drop (env : Env) (p : Panel) (i : Nat) :
    (walk_step env p i).1.processing_order.drop (walk_step env p i).2
      = p.processing_order.drop (i + 1) := by
  unfold walk_step
  dsimp only
  rw [apply_entry_order, drop_succ_eq, drop_succ_eq p.processing_order]
  have := foldl_check_drop env
    (Table.at p.pending_dependencies (p.processing_order.getD i [])).dependencies (p, i)
  simp only at this
  rw [this]

theorem foldl_check_invariant (env : Env) (Inv : Panel → Prop)
    (hcheck : ∀ p i d, Inv p → Inv (check_dependency env (p, i) d).1) :
    ∀ (deps : List Str) (st : Panel × Nat), Inv st.1 →
      Inv (deps.foldl (check_dependency env) st).1 := by
  intro deps
  induction deps with
  | nil => intro st h; exact h
  | cons d r ih =>
    intro st h
    simp only [List.foldl_cons]
    exact ih _ (hcheck st.1 st.2 d h)

/-- Every path that stands at or after the walk index is visited: if a
property `Done` of a path holds right after its iteration and is kept by every
later step, it holds for all these paths when the walk ends. -/
theorem walk_visits (env : Env) (Inv : Panel → Prop) (Done : Panel → Str → Prop)
    (hcheck : ∀ p i d, Inv p → Inv (check_dependency env (p, i) d).1)
    (happly : ∀ p path, Inv p → Inv (apply_entry env p path))
    (hkeep_check : ∀ p i d k, Inv p → Done p k → Done (check_dependency env (p, i) d).1 k)
    (hkeep_apply : ∀ p path k, Inv p → Done p k → Done (apply_entry env p path) k)
    (hstep : ∀ p i, Inv p → i < p.processing_order.length →
      Done (walk_step env p i).1 (p.processing_order.getD i [])) :
    ∀ (fuel : Nat) (p : Panel) (i : Nat) (q : Panel), Inv p → walk env fuel p i = some q →
      ∀ k ∈ p.processing_order.drop i, Done q k := by
  intro fuel
  induction fuel with
  | zero => intro p i q _ h; simp [walk] at h
  | succ n ih =>
    intro p i q hp h k hk
    unfold walk at h
    by_cases hi : i < p.processing_order.length
    · simp only [hi, if_true] at h
      have hinv : Inv (walk_step env p i).1 := by
        unfold walk_step
        exact happly _ _ (foldl_check_invariant env Inv hcheck _ (p, i) hp)
      have hsplit : p.processing_order.drop i
          = p.processing_order.getD i [] :: p.processing_order.drop (i + 1) := by
        rw [List.getD_eq_getElem _ _ hi]
        exact List.drop_eq_getElem_cons hi
      rw [hsplit] at hk
      rcases List.mem_cons.mp hk with hk1 | hk2
      · subst hk1
        have hd := hstep p i hp hi
        have := walk_invariant env
          (fun p1 => Inv p1 ∧ Done p1 (p.processing_order.getD i []))
          (fun p1 i1 d h1 => ⟨hcheck p1 i1 d h1.1, hkeep_check p1 i1 d _ h1.1 h1.2⟩)
          (fun p1 path h1 => ⟨happly p1 path h1.1, hkeep_apply p1 path _ h1.1 h1.2⟩)
          n _ _ q ⟨hinv, hd⟩ h
        exact this.2
      · rw [← walk_step_drop env p i] at hk2
        exact ih _ _ q hinv h k hk2
    · simp only [hi, if_false] at h
      rw [List.drop_eq_nil_of_le (by omega)] at hk
      cases hk

theorem placeholder_resource_writes (p : Panel) (d : Str)
    (hdir : p.storage.mkdirErr (get_base_dir d) = 0) (hopen : p.storage.openErr d = 0) :
    (_create_placeholder_resource p d).storage.file_exists d = true := by
  have hmk : ∀ c : Bool,
      (if c = true then p.storage.make_dir_recursive (get_base_dir d) else (0, p.storage)).1 = 0
      ∧ (if c = true then p.storage.make_dir_recursive (get_base_dir d) else (0, p.storage)).2.openErr
          = p.storage.openErr := by
    intro c
    cases c
    · exact ⟨rfl, rfl⟩
    · unfold Storage.make_dir_recursive
      rw [if_pos hdir, if_pos rfl]
      exact ⟨rfl, rfl⟩
  have h := hmk (!p.storage.dir_exists (get_base_dir d))
  unfold _create_placeholder_resource Panel._add_claude_message
  dsimp only
  generalize (if (!p.storage.dir_exists (get_base_dir d)) = true
      then p.storage.make_dir_recursive (get_base_dir d) else (0, p.storage)) = mk at h ⊢
  have ho : mk.2.open_write d = (0, mk.2) := by
    have e : mk.2.openErr d = 0 := by rw [h.2]; exact hopen
    unfold Storage.open_write
    rw [e]
  rw [if_neg (by rw [h.1]; exact fun hh => hh rfl), ho, if_neg (fun hh => hh rfl)]
  exact Map.has_set_self _ _ _

theorem check_dependency_tracks (env : Env) (p : Panel) (i : Nat) (d : Str)
    (h : resolvable p.storage d) : tracked (check_dependency env (p, i) d).1 d := by
  unfold check_dependency
  dsimp only
  by_cases hg : (!p.storage.file_exists d && !Map.has p.pending_dependencies d) = true
  · rw [if_pos hg]
    rcases h with h | h | ⟨h, hdir, hopen⟩
    · rw [h]
      simp only [beq_self_eq_true, if_true]
      exact Or.inl (Map.has_set_self _ _ _)
    · rw [h]
      have : ("tscn".toList == "gd".toList) = false := by decide
      simp only [this, Bool.false_eq_true, if_false, beq_self_eq_true, if_true]
      exact Or.inl (Map.has_set_self _ _ _)
    · rw [h]
      have h1 : ("tres".toList == "gd".toList) = false := by decide
      have h2 : ("tres".toList == "tscn".toList) = false := by decide
      simp only [h1, h2, Bool.false_eq_true, if_false, beq_self_eq_true, if_true]
      exact Or.inr (placeholder_resource_writes p d hdir hopen)
  · rw [if_neg hg]
    simp only [Bool.and_eq_true, Bool.not_eq_true', not_and, Bool.not_eq_false] at hg
    cases hf : p.storage.file_exists d
    · exact Or.inl (hg hf)
    · exact Or.inr hf

theorem check_dependency_tracked_mono (env : Env) (p : Panel) (i : Nat) (d k : Str)
    (h : tracked p k) : tracked (check_dependency env (p, i) d).1 k := by
  rcases h with h | h
  · exact Or.inl (Extends.has (check_dependency_extends env p i d) k h)
  · exact Or.inr ((check_dependency_grows env p i d).1 k h)

theorem apply_entry_tracked_mono (env : Env) (p : Panel) (path k : Str)
    (h : tracked p k) : tracked (apply_entry env p path) k := by
  rcases h with h | h
  · exact Or.inl (Extends.has (apply_entry_extends env p path) k h)
  · exact Or.inr ((apply_entry_grows env p path).1 k h)

theorem resolvable_of_grows {s0 s : Storage} (hs : StorageGrows s0 s) (d : Str)
    (h : resolvable s0 d) : resolvable s d := by
  rcases h with h | h | ⟨h, h1, h2⟩
  · exact Or.inl h
  · exact Or.inr (Or.inl h)
  · exact Or.inr (Or.inr ⟨h, by rw [hs.2.1]; exact h1, by rw [hs.2.2]; exact h2⟩)

theorem foldl_check_tracks (env : Env) (s0 : Storage) :
    ∀ (deps : List Str) (st : Panel × Nat), StorageGrows s0 st.1.storage →
      ∀ d ∈ deps, resolvable s0 d → tracked (deps.foldl (check_dependency env) st).1 d := by
  intro deps
  induction deps with
  | nil => intro st _ d hd; cases hd
  | cons d0 r ih =>
    intro st hs d hd hres
    simp only [List.foldl_cons]
    have hs2 : StorageGrows s0 (check_dependency env st d0).1.storage :=
      storage_grows_trans hs (check_dependency_grows env st.1 st.2 d0)
    rcases List.mem_cons.mp hd with h | h
    · subst h
      have ht := check_dependency_tracks env st.1 st.2 d (resolvable_of_grows hs d hres)
      exact foldl_check_invariant env (fun p1 => tracked p1 d)
        (fun p1 i1 d1 h1 => check_dependency_tracked_mono env p1 i1 d1 d h1) r _ ht
    · exact ih _ hs2 d h hres

/-- When `_process_dependencies` returns, every resolvable reference declared by
an entry of the order the walk started with is a key of the table or a file. -/
theorem process_resolves (env : Env) (p : Panel) :
    ∃ q, _process_dependencies env p = some q
      ∧ ∀ k ∈ (prepare env p).processing_order,
          ∀ d ∈ (Table.at (prepare env p).pending_dependencies k).dependencies,
            resolvable p.storage d → tracked q d := by
  obtain ⟨q, hq⟩ := process_dependencies_total env p
  refine ⟨q, hq, ?_⟩
  unfold _process_dependencies at hq
  have hs0 : (prepare env p).storage = p.storage := rfl
  have key := walk_visits env
    (fun p1 => Extends (prepare env p).pending_dependencies p1.pending_dependencies
      ∧ StorageGrows p.storage p1.storage)
    (fun p1 k => ∀ d ∈ (Table.at (prepare env p).pending_dependencies k).dependencies,
      resolvable p.storage d → tracked p1 d)
    (fun p1 i d h => ⟨Extends.trans h.1 (check_dependency_extends env p1 i d),
      storage_grows_trans h.2 (check_dependency_grows env p1 i d)⟩)
    (fun p1 path h => ⟨Extends.trans h.1 (apply_entry_extends env p1 path),
      storage_grows_trans h.2 (apply_entry_grows env p1 path)⟩)
    (fun p1 i d k _ hd d1 hd1 hr => check_dependency_tracked_mono env p1 i d d1 (hd d1 hd1 hr))
    (fun p1 path k _ hd d1 hd1 hr => apply_entry_tracked_mono env p1 path d1 (hd d1 hd1 hr))
    (by
      intro p1 i ⟨hext, hgrow⟩ _ d hd hr
      unfold walk_step
      dsimp only
      apply apply_entry_tracked_mono
      cases hg : Map.get? (prepare env p).pending_dependencies (p1.processing_order.getD i []) with
      | none =>
        have : Table.at (prepare env p).pending_dependencies (p1.processing_order.getD i [])
            = DependencyInfo.empty := by
          unfold Table.at; rw [hg]; rfl
        rw [this] at hd
        cases hd
      | some e =>
        obtain ⟨e2, g2, _, _, hdeps, _⟩ := hext _ e hg
        rw [Table.at_of_get? _ _ e hg] at hd
        rw [Table.at_of_get? _ _ e2 g2, hdeps]
        exact foldl_check_tracks env p.storage e.dependencies (p1, i) hgrow d hd hr)
    _ (prepare env p) 0 q ⟨Extends.refl _, by rw [hs0]; exact storage_grows_refl _⟩ hq
  intro k hk
  exact key k (by simpa using hk)

/-! ## Lemmas on the created flag -/

theorem Map.mem_of_get? {V : Type} (k : Str) (v : V) :
    ∀ m : Map V, Map.get? m k = some v → (k, v) ∈ m := by
  intro m
  induction m with
  | nil => intro h; simp [Map.get?] at h
  | cons e r ih =>
    intro h
    by_cases hk : (e.1 == k) = true
    · simp only [Map.get?, hk, if_true, Option.some.injEq] at h
      have h1 : e.1 = k := by simpa using hk
      have : e = (k, v) := by rw [← h1, ← h]
      rw [this]; exact List.mem_cons_self _ _
    · simp only [Map.get?, hk, if_false] at h
      exact List.mem_cons_of_mem _ (ih h)

theorem Map.mem_set {V : Type} (k : Str) (v : V) (E : Str × V) :
    ∀ m : Map V, E ∈ Map.set m k v → E ∈ m ∨ E = (k, v) := by
  intro m
  induction m with
  | nil =>
    intro h
    exact Or.inr (List.mem_singleton.mp h)
  | cons e r ih =>
    intro h
    unfold Map.set at h
    by_cases hk : (e.1 == k) = true
    · rw [if_pos hk] at h
      rcases List.mem_cons.mp h with h1 | h1
      · exact Or.inr h1
      · exact Or.inl (List.mem_cons_of_mem _ h1)
    · rw [if_neg hk] at h
      rcases List.mem_cons.mp h with h1 | h1
      · exact Or.inl (List.mem_cons.mpr (Or.inl h1))
      · rcases ih h1 with h2 | h2
        · exact Or.inl (List.mem_cons_of_mem _ h2)
        · exact Or.inr h2

theorem mem_build_order (t : Table) (k : Str) (e : DependencyInfo) (hm : (k, e) ∈ t)
    (hk : walked_kind e) : k ∈ build_order t := by
  unfold build_order
  rcases hk with h | h | ⟨h, h1, h2⟩
  · apply List.mem_append_left
    apply List.mem_append_right
    unfold script_keys
    exact List.mem_map.mpr ⟨(k, e), List.mem_filter.mpr ⟨hm, by simp [h]⟩, rfl⟩
  · apply List.mem_append_right
    apply List.mem_map.mpr
    refine ⟨(k, if Map.has (count_references t) k then (Map.get? (count_references t) k).getD 0 else 0),
      (sort_custom_mem PairSort _ _).mpr ?_, rfl⟩
    unfold scene_pairs
    exact List.mem_map.mpr ⟨(k, e), List.mem_filter.mpr ⟨hm, by simp [h]⟩, rfl⟩
  · apply List.mem_append_left
    apply List.mem_append_left
    unfold resource_keys
    refine List.mem_map.mpr ⟨(k, e), List.mem_filter.mpr ⟨hm, ?_⟩, rfl⟩
    show (e.type == "resource".toList && !ends_with e.path ".gd".toList
      && !ends_with e.path ".tscn".toList) = true
    rw [h, h1, h2]
    decide

theorem walked_kind_congr (e e2 : DependencyInfo) (ht : e2.type = e.type)
    (hp : e2.path = e.path) (h : walked_kind e) : walked_kind e2 := by
  unfold walked_kind at h ⊢
  rw [ht, hp]
  exact h

theorem upgrade_scenes_kind (env : Env) :
    ∀ (t : Table) (seeds : Nat), (∀ E ∈ t, walked_kind E.2) →
      ∀ E ∈ (upgrade_scenes env t seeds).1, walked_kind E.2 := by
  intro t
  induction t with
  | nil => intro seeds _ E hE; simp [upgrade_scenes] at hE
  | cons E0 r ih =>
    intro seeds h E hE
    unfold upgrade_scenes at hE
    by_cases hc : (E0.2.type == "scene".toList && !E0.2.code.isEmpty
        && find E0.2.code "format=2".toList != -1) = true
    · rw [if_pos hc] at hE
      dsimp only at hE
      rcases List.mem_cons.mp hE with h1 | h1
      · rw [h1]
        exact walked_kind_congr E0.2 _ rfl rfl (h E0 (List.mem_cons_self _ _))
      · exact ih _ (fun E1 h2 => h E1 (List.mem_cons_of_mem _ h2)) E h1
    · rw [if_neg hc] at hE
      dsimp only at hE
      rcases List.mem_cons.mp hE with h1 | h1
      · rw [h1]
        exact h E0 (List.mem_cons_self _ _)
      · exact ih _ (fun E1 h2 => h E1 (List.mem_cons_of_mem _ h2)) E h1

theorem upgrade_scenes_created (env : Env) :
    ∀ (t : Table) (seeds : Nat) (k : Str),
      (Map.get? (upgrade_scenes env t seeds).1 k).map (fun e => e.created)
        = (Map.get? t k).map (fun e => e.created) := by
  intro t
  induction t with
  | nil => intro seeds k; rfl
  | cons E r ih =>
    intro seeds k
    unfold upgrade_scenes
    by_cases hc : (E.2.type == "scene".toList && !E.2.code.isEmpty
        && find E.2.code "format=2".toList != -1) = true
    · rw [if_pos hc]
      dsimp only
      by_cases hk : (E.1 == k) = true
      · simp only [Map.get?, hk, if_true, Option.map_some']
      · simp only [Map.get?, hk, if_false]
        exact ih (seeds + 1) k
    · rw [if_neg hc]
      dsimp only
      by_cases hk : (E.1 == k) = true
      · simp only [Map.get?, hk, if_true, Option.map_some']
      · simp only [Map.get?, hk, if_false]
        exact ih seeds k

theorem created_at_iff (p : Panel) (k : Str) :
    created_at p k = true ↔ ∃ e, Map.get? p.pending_dependencies k = some e ∧ e.created = true := by
  unfold created_at Table.at
  cases h : Map.get? p.pending_dependencies k with
  | none =>
    constructor
    · intro h1; exact absurd h1 (by decide)
    · rintro ⟨e, he, _⟩; cases he
  | some e =>
    constructor
    · intro h1; exact ⟨e, rfl, h1⟩
    · rintro ⟨e1, he, h1⟩; cases he; exact h1

theorem created_of_extends (p q : Panel) (k : Str)
    (h : Extends p.pending_dependencies q.pending_dependencies) (hc : created_at p k = true) :
    created_at q k = true := by
  obtain ⟨e, he, hce⟩ := (created_at_iff p k).mp hc
  obtain ⟨e2, h2, _, _, _, _, hcr⟩ := h k e he
  exact (created_at_iff q k).mpr ⟨e2, h2, hcr hce⟩

theorem prepare_created (env : Env) (p : Panel) (k : Str) (hc : created_at p k = true) :
    created_at (prepare env p) k = true := by
  obtain ⟨e, he, hce⟩ := (created_at_iff p k).mp hc
  have := upgrade_scenes_created env p.pending_dependencies p.seeds k
  rw [he] at this
  apply (created_at_iff _ k).mpr
  unfold prepare
  dsimp only
  cases hg : Map.get? (upgrade_scenes env p.pending_dependencies p.seeds).1 k with
  | none => rw [hg] at this; cases this
  | some e2 =>
    rw [hg] at this
    simp only [Option.map_some', Option.some.injEq] at this
    exact ⟨e2, rfl, by rw [this]; exact hce⟩

theorem materialize_extends (env : Env) (p : Panel) (path : Str) :
    Extends p.pending_dependencies (materialize env p path).pending_dependencies := by
  rcases (materialize_table env p path).2 with h | ⟨he, code, h⟩
  · rw [h]; exact Extends.refl _
  · rw [h]; exact set_code_extends _ path code he

theorem apply_entry_created (env : Env) (p : Panel) (path : Str) :
    created_at (apply_entry env p path) path = true := by
  unfold created_at apply_entry
  dsimp only
  by_cases hc : (!(Table.at p.pending_dependencies path).created) = true
  · rw [if_pos hc]
    dsimp only
    rw [Table.at_set_self]
  · rw [if_neg hc]
    simpa using hc

/-- When `_process_dependencies` returns, every path of the order the walk
started with is marked created. -/
theorem process_marks_created (env : Env) (p : Panel) :
    ∃ q, _process_dependencies env p = some q
      ∧ ∀ k ∈ (prepare env p).processing_order, created_at q k = true := by
  obtain ⟨q, hq⟩ := process_dependencies_total env p
  refine ⟨q, hq, ?_⟩
  unfold _process_dependencies at hq
  have key := walk_visits env (fun _ => True) (fun p1 k => created_at p1 k = true)
    (fun _ _ _ _ => trivial) (fun _ _ _ => trivial)
    (fun p1 i d k _ hd => created_of_extends p1 _ k (check_dependency_extends env p1 i d) hd)
    (fun p1 path k _ hd => created_of_extends p1 _ k (apply_entry_extends env p1 path) hd)
    (by
      intro p1 i _ _
      unfold walk_step
      exact apply_entry_created env _ _)
    _ (prepare env p) 0 q trivial hq
  intro k hk
  exact key k (by simpa using hk)

/-! ## Entries collected by `_detect_code_changes` -/

theorem type_of_ext_kind (s : Str) :
    walked_kind ⟨s, [], type_of_ext (get_extension s), false, []⟩ := by
  unfold walked_kind type_of_ext
  dsimp only
  by_cases h1 : (get_extension s == "gd".toList) = true
  · rw [if_pos h1]; exact Or.inl rfl
  · rw [if_neg h1]
    by_cases h2 : (get_extension s == "tscn".toList) = true
    · rw [if_pos h2]; exact Or.inr (Or.inl rfl)
    · rw [if_neg h2]
      refine Or.inr (Or.inr ⟨rfl, ?_, ?_⟩)
      · cases he : ends_with s ".gd".toList
        · rfl
        · exfalso; apply h1
          rw [get_extension_of_ends_with s "gd".toList (by decide) he]
          decide
      · cases he : ends_with s ".tscn".toList
        · rfl
        · exfalso; apply h2
          rw [get_extension_of_ends_with s "tscn".toList (by decide) he]
          decide

theorem ends_with_of_ensure_res (f x : Str) (h : ends_with (ensure_res f) ('.' :: x) = true) :
    ends_with f ('.' :: x) = true := by
  unfold ensure_res at h
  by_cases hb : (!begins_with f "res://".toList) = true
  · rw [if_pos hb] at h
    exact ends_with_of_res_prefix f x h
  · rw [if_neg hb] at h
    exact h

theorem type_of_ext_res_kind (f : Str) :
    walked_kind ⟨ensure_res f, [], type_of_ext (get_extension f), false, []⟩ := by
  rcases type_of_ext_kind f with h | h | ⟨h, h1, h2⟩
  · exact Or.inl h
  · exact Or.inr (Or.inl h)
  · refine Or.inr (Or.inr ⟨h, ?_, ?_⟩)
    · cases he : ends_with (ensure_res f) ".gd".toList
      · rfl
      · have h3 : ends_with f ".gd".toList = true := ends_with_of_ensure_res f "gd".toList he
        exact absurd (h3.symm.trans h1) (by decide)
    · cases he : ends_with (ensure_res f) ".tscn".toList
      · rfl
      · have h3 : ends_with f ".tscn".toList = true := ends_with_of_ensure_res f "tscn".toList he
        exact absurd (h3.symm.trans h2) (by decide)

theorem resource_candidate_walked (m : RegExMatch) (c : Candidate)
    (h : resource_candidate m = some c) : c.walked := by
  unfold resource_candidate at h
  dsimp only at h
  by_cases hc : (!(m.get_string 1).isEmpty) = true
  · rw [if_pos hc] at h
    cases h
    exact type_of_ext_kind _
  · rw [if_neg hc] at h; cases h

theorem subscene_candidate_walked (m : RegExMatch) (c : Candidate)
    (h : subscene_candidate m = some c) : c.walked := by
  unfold subscene_candidate at h
  dsimp only at h
  by_cases hc : (!(m.get_string 1).isEmpty) = true
  · rw [if_pos hc] at h
    cases h
    exact Or.inr (Or.inl rfl)
  · rw [if_neg hc] at h; cases h

theorem typed_walked (f : Str) (c : Bool) (wsf : Str → Bool) :
    Candidate.walked
      ⟨ensure_res (if (get_extension f).isEmpty = true then
          (if c = true then (f ++ ".gd".toList, "script".toList)
            else (f ++ ".tscn".toList, "scene".toList))
          else (f, type_of_ext (get_extension f))).1,
        (if (get_extension f).isEmpty = true then
          (if c = true then (f ++ ".gd".toList, "script".toList)
            else (f ++ ".tscn".toList, "scene".toList))
          else (f, type_of_ext (get_extension f))).2,
        wsf (if (get_extension f).isEmpty = true then
          (if c = true then (f ++ ".gd".toList, "script".toList)
            else (f ++ ".tscn".toList, "scene".toList))
          else (f, type_of_ext (get_extension f))).2⟩ := by
  by_cases he : (get_extension f).isEmpty = true
  · rw [if_pos he]
    cases c
    · exact Or.inr (Or.inl rfl)
    · exact Or.inl rfl
  · rw [if_neg he]
    exact type_of_ext_res_kind f

theorem list_item_candidate_walked (file_list : Str) (m : RegExMatch) (c : Candidate)
    (h : list_item_candidate file_list m = some c) : c.walked := by
  unfold list_item_candidate at h
  dsimp only at h
  by_cases hc : (!(m.get_string 1).isEmpty) = true
  · rw [if_pos hc] at h
    cases h
    exact typed_walked (m.get_string 1) _
      (fun ty => ty == "scene".toList && find (to_lower file_list) "no script".toList == -1)
  · rw [if_neg hc] at h; cases h

theorem description_candidate_walked (p_response : Str) (m : RegExMatch) (c : Candidate)
    (h : description_candidate p_response m = some c) : c.walked := by
  unfold description_candidate at h
  dsimp only at h
  by_cases hc : (!(m.get_string 1).isEmpty) = true
  · rw [if_pos hc] at h
    cases h
    exact typed_walked (m.get_string 1) _ (fun _ => false)
  · rw [if_neg hc] at h; cases h

theorem scan_candidates_walked (p_response : Str) :
    ∀ c ∈ scan_candidates p_response, c.walked := by
  intro c hc
  unfold scan_candidates at hc
  simp only [List.mem_append, List.mem_filterMap, List.mem_flatten, List.mem_map] at hc
  rcases hc with ((⟨m, _, h⟩ | ⟨m, _, h⟩) | ⟨l, ⟨m, _, hl⟩, h⟩) | ⟨m, _, h⟩
  · exact resource_candidate_walked m c h
  · exact subscene_candidate_walked m c h
  · rw [← hl] at h
    unfold file_list_candidates at h
    obtain ⟨m2, _, h2⟩ := List.mem_filterMap.mp h
    exact list_item_candidate_walked _ m2 c h2
  · exact description_candidate_walked _ m c h

theorem track_kind (p : Panel) (c : Candidate) (hc : c.walked)
    (h : ∀ E ∈ p.pending_dependencies, walked_kind E.2) :
    (∀ E ∈ (track p c).pending_dependencies, walked_kind E.2)
      ∧ (track p c).processing_order = p.processing_order := by
  have h1 : ∀ E ∈ Map.set p.pending_dependencies c.path
      { path := c.path, code := [], type := c.type, created := false, dependencies := [] },
      walked_kind E.2 := by
    intro E hE
    rcases Map.mem_set _ _ _ _ hE with h2 | h2
    · exact h E h2
    · rw [h2]; exact hc
  have h3 : ∀ s : Str, ∀ E ∈ Map.set (Map.set p.pending_dependencies c.path
      { path := c.path, code := [], type := c.type, created := false, dependencies := [] }) s
      { path := s, code := companion_script_code, type := "script".toList,
        created := false, dependencies := [] },
      walked_kind E.2 := by
    intro s E hE
    rcases Map.mem_set _ _ _ _ hE with h2 | h2
    · exact h1 E h2
    · rw [h2]; exact Or.inl rfl
  unfold track
  dsimp only
  repeat' split
  · exact ⟨h3 _, rfl⟩
  · exact ⟨h1, rfl⟩
  · exact ⟨h1, rfl⟩
  · exact ⟨h, rfl⟩

theorem foldl_track_kind :
    ∀ (cs : List Candidate) (p : Panel), (∀ c ∈ cs, c.walked) →
      (∀ E ∈ p.pending_dependencies, walked_kind E.2) →
      (∀ E ∈ (cs.foldl track p).pending_dependencies, walked_kind E.2)
        ∧ (cs.foldl track p).processing_order = p.processing_order := by
  intro cs
  induction cs with
  | nil => intro p _ h; exact ⟨h, rfl⟩
  | cons c r ih =>
    intro p hcs h
    simp only [List.foldl_cons]
    have h1 := track_kind p c (hcs c (List.mem_cons_self _ _)) h
    have h2 := ih (track p c) (fun c1 hc1 => hcs c1 (List.mem_cons_of_mem _ hc1)) h1.1
    exact ⟨h2.1, h2.2.trans h1.2⟩

theorem block_type_kind (b : CodeBlock) (code : Str) (deps : List Str) :
    walked_kind ⟨b.file_path, code, block_type b.file_path, false, deps⟩ := by
  unfold walked_kind block_type
  dsimp only
  by_cases h1 : ends_with b.file_path ".gd".toList = true
  · rw [if_pos h1]; exact Or.inl rfl
  · rw [if_neg h1]
    by_cases h2 : ends_with b.file_path ".tscn".toList = true
    · rw [if_pos h2]; exact Or.inr (Or.inl rfl)
    · rw [if_neg h2]
      exact Or.inr (Or.inr ⟨rfl, by simpa using h1, by simpa using h2⟩)

theorem add_code_block_kind (t : Table) (b : CodeBlock) (h : ∀ E ∈ t, walked_kind E.2) :
    ∀ E ∈ add_code_block t b, walked_kind E.2 := by
  intro E hE
  unfold add_code_block at hE
  dsimp only at hE
  rcases Map.mem_set _ _ _ _ hE with h2 | h2
  · exact h E h2
  · rw [h2]; exact block_type_kind b _ _

theorem foldl_add_code_block_kind :
    ∀ (bs : List CodeBlock) (t : Table), (∀ E ∈ t, walked_kind E.2) →
      ∀ E ∈ bs.foldl add_code_block t, walked_kind E.2 := by
  intro bs
  induction bs with
  | nil => intro t h; exact h
  | cons b r ih =>
    intro t h
    simp only [List.foldl_cons]
    exact ih _ (add_code_block_kind t b h)

/-- The table handed to `_process_dependencies` holds only entries the
order-building loops push, and the order is empty. -/
theorem collect_dependencies_kind (env : Env) (p : Panel) (p_response : Str) (t : Panel)
    (h : collect_dependencies env p p_response = some t) :
    (∀ E ∈ t.pending_dependencies, walked_kind E.2) ∧ t.processing_order = [] := by
  unfold collect_dependencies at h
  cases hb : detect_blocks env p_response with
  | none => rw [hb] at h; cases h
  | some bs =>
    rw [hb] at h
    dsimp only at h
    cases h
    have h1 := foldl_track_kind (scan_candidates p_response)
      { p with pending_dependencies := [], processing_order := [] }
      (scan_candidates_walked p_response) (fun E hE => by cases hE)
    unfold _scan_for_dependencies
    exact ⟨foldl_add_code_block_kind bs _ h1.1, h1.2⟩

/-- Every key of a table of walked kinds is marked created when
`_process_dependencies` returns. -/
theorem process_marks_all (env : Env) (t : Panel)
    (hk : ∀ E ∈ t.pending_dependencies, walked_kind E.2) :
    ∃ q, _process_dependencies env t = some q
      ∧ ∀ k, Map.has (prepare env t).pending_dependencies k = true → created_at q k = true := by
  obtain ⟨q, hq, hall⟩ := process_marks_created env t
  refine ⟨q, hq, ?_⟩
  intro k hhas
  obtain ⟨e, he⟩ := (Map.has_iff_get? _ k).mp hhas
  have hmem := Map.mem_of_get? k e _ he
  have hkind := upgrade_scenes_kind env t.pending_dependencies t.seeds hk (k, e) hmem
  have hin := mem_build_order _ k e hmem hkind
  exact hall k (List.mem_append_right _ hin)

/-! ## Lemmas on the splicing of placeholders -/

theorem placeholder_resource_files (p : Panel) (x k : Str) (hk : k ≠ x) :
    (_create_placeholder_resource p x).storage.file_exists k = p.storage.file_exists k := by
  have hmk : ∀ c : Bool,
      (if c = true then p.storage.make_dir_recursive (get_base_dir x) else (0, p.storage)).2.files
        = p.storage.files := by
    intro c
    cases c
    · rfl
    · unfold Storage.make_dir_recursive
      by_cases hm : p.storage.mkdirErr (get_base_dir x) = 0
      · rw [if_pos rfl, if_pos hm]
      · rw [if_pos rfl, if_neg hm]
  have h := hmk (!p.storage.dir_exists (get_base_dir x))
  unfold _create_placeholder_resource Panel._add_claude_message
  dsimp only
  generalize (if (!p.storage.dir_exists (get_base_dir x)) = true
      then p.storage.make_dir_recursive (get_base_dir x) else (0, p.storage)) = mk at h ⊢
  have ho : (mk.2.open_write x).2.file_exists k = p.storage.file_exists k := by
    unfold Storage.open_write Storage.file_exists
    dsimp only
    rw [h]
  by_cases h1 : mk.1 ≠ 0
  · rw [if_pos h1]
  · rw [if_neg h1]
    by_cases h2 : (mk.2.open_write x).1 ≠ 0
    · rw [if_pos h2]; exact ho
    · rw [if_neg h2]
      unfold Storage.store_string Storage.file_exists
      dsimp only
      rw [Map.has_set_ne _ _ _ _ hk]
      exact ho

/-- One step of the inner loop on a reference that gets a placeholder: the path
is inserted at the walk index, the index moves on by one, and the table gets a
new entry that is not created; storage is untouched. -/
theorem check_dependency_spliced (env : Env) (p : Panel) (i : Nat) (d : Str)
    (h : spliced p d = true) :
    (check_dependency env (p, i) d).1.processing_order = insert_at p.processing_order i d
    ∧ (check_dependency env (p, i) d).2 = i + 1
    ∧ (check_dependency env (p, i) d).1.storage = p.storage
    ∧ (∃ v : DependencyInfo, v.created = false ∧ v.path = d
        ∧ (check_dependency env (p, i) d).1.pending_dependencies
          = Map.set p.pending_dependencies d v) := by
  unfold spliced at h
  simp only [Bool.and_eq_true, Bool.or_eq_true] at h
  obtain ⟨hg, hext⟩ := h
  have hg2 : (!p.storage.file_exists d && !Map.has p.pending_dependencies d) = true := by
    simp only [Bool.and_eq_true]; exact hg
  unfold check_dependency
  dsimp only
  rw [if_pos hg2]
  by_cases h1 : (get_extension d == "gd".toList) = true
  · rw [if_pos h1]
    exact ⟨rfl, rfl, rfl, _, rfl, rfl, rfl⟩
  · rw [if_neg h1]
    have h2 : (get_extension d == "tscn".toList) = true := by
      rcases hext with h | h
      · exact absurd h h1
      · exact h
    rw [if_pos h2]
    exact ⟨rfl, rfl, rfl, _, rfl, rfl, rfl⟩

/-- One step of the inner loop on a reference that gets no `.gd` or `.tscn`
placeholder: order, index and table are untouched, and no other path changes
its status on storage. -/
theorem check_dependency_not_spliced (env : Env) (p : Panel) (i : Nat) (d : Str)
    (h : spliced p d = false) :
    (check_dependency env (p, i) d).1.processing_order = p.processing_order
    ∧ (check_dependency env (p, i) d).2 = i
    ∧ (check_dependency env (p, i) d).1.pending_dependencies = p.pending_dependencies
    ∧ ∀ k, spliced (check_dependency env (p, i) d).1 k = spliced p k := by
  unfold check_dependency
  dsimp only
  by_cases hg : (!p.storage.file_exists d && !Map.has p.pending_dependencies d) = true
  · rw [if_pos hg]
    have hext : (get_extension d == "gd".toList || get_extension d == "tscn".toList) = false := by
      unfold spliced at h
      rw [hg] at h
      simpa using h
    simp only [Bool.or_eq_false_iff] at hext
    rw [if_neg (by rw [hext.1]; decide), if_neg (by rw [hext.2]; decide)]
    by_cases h3 : (get_extension d == "tres".toList) = true
    · rw [if_pos h3]
      refine ⟨(placeholder_resource_table p d).2, rfl, (placeholder_resource_table p d).1, ?_⟩
      intro k
      unfold spliced
      rw [(placeholder_resource_table p d).1]
      by_cases hk : k = d
      · subst hk
        rw [hext.1, hext.2]
        simp
      · rw [placeholder_resource_files p d k hk]
    · rw [if_neg h3]
      exact ⟨rfl, rfl, rfl, fun _ => rfl⟩
  · rw [if_neg hg]
    exact ⟨rfl, rfl, rfl, fun _ => rfl⟩

theorem take_insert_at (v : List Str) (i : Nat) (x : Str) (hi : i ≤ v.length) :
    (insert_at v i x).take (i + 1) = v.take i ++ [x] := by
  unfold insert_at
  have hl : (v.take i).length = i := by simp [hi]
  rw [List.take_append_eq_append_take, hl]
  simp

theorem insert_at_len (v : List Str) (i : Nat) (x : Str) :
    (insert_at v i x).length = v.length + 1 := by
  unfold insert_at
  simp only [List.length_append, List.length_cons, List.length_take, List.length_drop]
  omega

theorem foldl_check_get?_frame (env : Env) :
    ∀ (deps : List Str) (st : Panel × Nat) (k : Str),
      Map.has st.1.pending_dependencies k = true →
      Map.get? (deps.foldl (check_dependency env) st).1.pending_dependencies k
        = Map.get? st.1.pending_dependencies k := by
  intro deps
  induction deps with
  | nil => intro st k _; rfl
  | cons d r ih =>
    intro st k hk
    simp only [List.foldl_cons]
    rcases check_dependency_cases env st.1 st.2 d with ⟨h1, _, _⟩ | ⟨hn, ⟨v, hv⟩, _, _⟩
    · rw [ih _ k (by rw [h1]; exact hk), h1]
    · have hne : k ≠ d := Map.ne_of_has_of_not_has _ _ _ hk hn
      rw [ih _ k (by rw [hv]; exact Map.has_set_of_has _ _ _ _ hk), hv, Map.get?_set_ne _ _ _ _ hne]

/-- The inner loop over the declared references of the entry at index `i`: the
placeholders `ps` it synthesizes are spliced in at index `i`, in the order the
references are declared. -/
theorem foldl_check_splices (env : Env) :
    ∀ (deps : List Str) (p : Panel) (i : Nat), i ≤ p.processing_order.length →
      ∃ ps : List Str, ps.Sublist deps ∧ ps.Nodup
        ∧ (deps.foldl (check_dependency env) (p, i)).1.processing_order
            = p.processing_order.take i ++ ps ++ p.processing_order.drop i
        ∧ (deps.foldl (check_dependency env) (p, i)).2 = i + ps.length
        ∧ (∀ d, d ∈ ps ↔ (d ∈ deps ∧ spliced p d = true))
        ∧ (∀ d ∈ ps, Map.has (deps.foldl (check_dependency env) (p, i)).1.pending_dependencies d = true
            ∧ created_at (deps.foldl (check_dependency env) (p, i)).1 d = false) := by
  intro deps
  induction deps with
  | nil =>
    intro p i _
    refine ⟨[], List.Sublist.refl _, List.nodup_nil, ?_, rfl, ?_, ?_⟩
    · simp
    · intro d; simp
    · intro d hd; cases hd
  | cons d0 r ih =>
    intro p i hi
    simp only [List.foldl_cons]
    cases hs : spliced p d0 with
    | true =>
      obtain ⟨ho, hidx, hst, v, hvc, _, htab⟩ := check_dependency_spliced env p i d0 hs
      have hnh : Map.has p.pending_dependencies d0 = false := by
        unfold spliced at hs
        simp only [Bool.and_eq_true, Bool.not_eq_true'] at hs
        exact hs.1.2
      have hst1 : check_dependency env (p, i) d0
          = ((check_dependency env (p, i) d0).1, i + 1) := Prod.ext rfl hidx
      rw [hst1]
      have hi1 : i + 1 ≤ (check_dependency env (p, i) d0).1.processing_order.length := by
        rw [ho, insert_at_len]; omega
      obtain ⟨ps, hsub, hnd, hord, hix, hmem, hcr⟩ := ih (check_dependency env (p, i) d0).1 (i + 1) hi1
      have hsp : ∀ d, spliced (check_dependency env (p, i) d0).1 d
          = (spliced p d && !(d == d0)) := by
        intro d
        unfold spliced
        rw [hst, htab]
        by_cases hd : d = d0
        · subst hd
          rw [Map.has_set_self]
          simp
        · rw [Map.has_set_ne _ _ _ _ hd]
          have : (d == d0) = false := by simpa using hd
          rw [this]
          simp
      have hd0 : d0 ∉ ps := by
        intro hin
        have := ((hmem d0).mp hin).2
        rw [hsp] at this
        simp at this
      refine ⟨d0 :: ps, List.Sublist.cons₂ _ hsub, List.nodup_cons.mpr ⟨hd0, hnd⟩, ?_, ?_, ?_, ?_⟩
      · rw [hord, ho, take_insert_at _ _ _ hi, insert_at_drop]
        simp
      · rw [hix]; simp only [List.length_cons]; omega
      · intro d
        rw [List.mem_cons, hmem, hsp, List.mem_cons]
        constructor
        · rintro (h | ⟨h1, h2⟩)
          · subst h; exact ⟨Or.inl rfl, hs⟩
          · simp only [Bool.and_eq_true] at h2
            exact ⟨Or.inr h1, h2.1⟩
        · rintro ⟨h1 | h1, h2⟩
          · exact Or.inl h1
          · by_cases hd : d = d0
            · exact Or.inl hd
            · refine Or.inr ⟨h1, ?_⟩
              rw [h2]
              simpa using hd
      · intro d hd
        rcases List.mem_cons.mp hd with h | h
        · subst h
          have hhas : Map.has (check_dependency env (p, i) d).1.pending_dependencies d = true := by
            rw [htab]; exact Map.has_set_self _ _ _
          have hget := foldl_check_get?_frame env r ((check_dependency env (p, i) d).1, i + 1) d hhas
          constructor
          · exact (Map.has_iff_get? _ _).mpr ⟨v, by rw [hget]; dsimp only; rw [htab, Map.get?_set_self]⟩
          · unfold created_at Table.at
            rw [hget]
            dsimp only
            rw [htab, Map.get?_set_self]
            exact hvc
        · exact hcr d h
    | false =>
      obtain ⟨ho, hidx, htab, hsp⟩ := check_dependency_not_spliced env p i d0 hs
      have hst1 : check_dependency env (p, i) d0
          = ((check_dependency env (p, i) d0).1, i) := Prod.ext rfl hidx
      rw [hst1]
      have hi1 : i ≤ (check_dependency env (p, i) d0).1.processing_order.length := by
        rw [ho]; exact hi
      obtain ⟨ps, hsub, hnd, hord, hix, hmem, hcr⟩ := ih (check_dependency env (p, i) d0).1 i hi1
      refine ⟨ps, List.Sublist.cons _ hsub, hnd, ?_, hix, ?_, hcr⟩
      · rw [hord, ho]
      · intro d
        rw [hmem, hsp, List.mem_cons]
        constructor
        · rintro ⟨h1, h2⟩; exact ⟨Or.inr h1, h2⟩
        · rintro ⟨h1 | h1, h2⟩
          · subst h1; rw [hs] at h2; cases h2
          · exact ⟨h1, h2⟩

end VectorAIPanel

theorem rfindFrom_single_hit (c : Char) :
    ∀ (r : Str) (i : Nat) (best : Option Nat) (j : Nat),
      rfindFrom [c] i best r = some j →
      best = some j ∨ ∃ a b, r = a ++ c :: b ∧ i + a.length = j := by
  intro r
  induction r with
  | nil => intro i best j h; exact Or.inl h
  | cons x t ih =>
    intro i best j h
    rw [rfindFrom_single_cons] at h
    rcases ih _ _ j h with h1 | ⟨a, b, hab, hlen⟩
    · by_cases hc : (c == x) = true
      · rw [if_pos hc] at h1
        have hx : c = x := by simpa using hc
        cases h1
        exact Or.inr ⟨[], t, by rw [hx]; rfl, by simp⟩
      · rw [if_neg hc] at h1
        exact Or.inl h1
    · exact Or.inr ⟨x :: a, b, by rw [hab]; rfl, by simp only [List.length_cons]; omega⟩

/-- A non-empty extension stands at the end of the path, after a dot. -/
theorem ends_with_of_get_extension (s x : Str) (hx : x ≠ []) (h : get_extension s = x) :
    ends_with s ('.' :: x) = true := by
  unfold get_extension at h
  dsimp only at h
  by_cases hc : rfind s ['.'] < 0 ∨ rfind s ['.'] < lastSep s
  · rw [if_pos hc] at h
    exact absurd h.symm hx
  · rw [if_neg hc] at h
    unfold rfind at h hc
    simp only [List.isEmpty_cons, Bool.false_eq_true, if_false] at h hc
    cases hr : rfindFrom ['.'] 0 none s with
    | none =>
      rw [hr] at hc
      exact absurd (Or.inl (by decide)) hc
    | some j =>
      rw [hr] at h
      rcases rfindFrom_single_hit '.' s 0 none j hr with h1 | ⟨a, b, hab, hlen⟩
      · cases h1
      · unfold substrFrom at h
        have hj : ((j : Int) + 1).toNat = a.length + 1 := by omega
        have hb : b = x := by
          rw [← h]
          simp only [hj, hab]
          simp
        rw [hab, hb]
        unfold ends_with
        exact List.isSuffixOf_iff_suffix.mpr ⟨a, rfl⟩

theorem ends_with_prefix (pre s x : Str) (h : ends_with s x = true) :
    ends_with (pre ++ s) x = true := by
  unfold ends_with at h ⊢
  obtain ⟨a, ha⟩ := List.isSuffixOf_iff_suffix.mp h
  exact List.isSuffixOf_iff_suffix.mpr ⟨pre ++ a, by rw [← ha]; simp⟩

theorem getLast?_of_ends_with (s x : Str) (hx : x ≠ []) (h : ends_with s x = true) :
    s.getLast? = x.getLast? := by
  unfold ends_with at h
  obtain ⟨a, ha⟩ := List.isSuffixOf_iff_suffix.mp h
  rw [← ha, List.getLast?_append_of_ne_nil _ hx]

theorem not_gd_and_tscn (s : Str) (h1 : ends_with s ".gd".toList = true)
    (h2 : ends_with s ".tscn".toList = true) : False := by
  have a := getLast?_of_ends_with s ".gd".toList (by decide) h1
  have b := getLast?_of_ends_with s ".tscn".toList (by decide) h2
  rw [a] at b
  exact absurd b (by decide)

namespace VectorAIPanel

theorem type_agrees_congr (e e2 : DependencyInfo) (ht : e2.type = e.type)
    (hp : e2.path = e.path) (h : type_agrees e) : type_agrees e2 := by
  unfold type_agrees at h ⊢
  rw [ht, hp]
  exact h

theorem type_agrees_script (s code : Str) (c : Bool) (deps : List Str)
    (h : ends_with s ".gd".toList = true) :
    type_agrees ⟨s, code, "script".toList, c, deps⟩ := by
  refine ⟨⟨fun _ => h, fun _ => rfl⟩,
    ⟨fun hh => absurd (show "script".toList = "scene".toList from hh) (by decide), fun hh => ?_⟩⟩
  exact (not_gd_and_tscn s h hh).elim

theorem type_agrees_scene (s code : Str) (c : Bool) (deps : List Str)
    (h : ends_with s ".tscn".toList = true) :
    type_agrees ⟨s, code, "scene".toList, c, deps⟩ := by
  refine ⟨⟨fun hh => absurd (show "scene".toList = "script".toList from hh) (by decide),
    fun hh => ?_⟩, ⟨fun _ => h, fun _ => rfl⟩⟩
  exact (not_gd_and_tscn s hh h).elim

theorem ensure_res_ends_with (f x : Str) (h : ends_with f x = true) :
    ends_with (ensure_res f) x = true := by
  unfold ensure_res
  split
  · exact ends_with_prefix _ _ _ h
  · exact h

/-- Typing by `type_of_ext` of the extension of `f` agrees with a path that
consists of `f` with or without the `res://` prefix. -/
theorem type_of_ext_agrees (f s : Str)
    (hs : ∀ x : Str, ends_with s ('.' :: x) = true ↔ ends_with f ('.' :: x) = true) :
    type_agrees ⟨s, [], type_of_ext (get_extension f), false, []⟩ := by
  have key : ∀ x : Str, x ≠ [] →
      (∀ a ∈ x, ('.' == a) = false ∧ ('/' == a) = false ∧ ('\\' == a) = false) →
      (get_extension f = x ↔ ends_with s ('.' :: x) = true) := by
    intro x hx hx2
    rw [hs x]
    exact ⟨fun h => ends_with_of_get_extension f x hx h,
      fun h => get_extension_of_ends_with f x hx2 h⟩
  have kgd := key "gd".toList (by decide) (by decide)
  have ktscn := key "tscn".toList (by decide) (by decide)
  unfold type_agrees type_of_ext
  dsimp only
  by_cases h1 : (get_extension f == "gd".toList) = true
  · rw [if_pos h1]
    have e1 : get_extension f = "gd".toList := by simpa using h1
    have hgd : ends_with s ".gd".toList = true := kgd.mp e1
    exact ⟨⟨fun _ => hgd, fun _ => rfl⟩, ⟨fun hh => absurd hh (by decide),
      fun hh => (not_gd_and_tscn s hgd hh).elim⟩⟩
  · rw [if_neg h1]
    have n1 : ¬ get_extension f = "gd".toList := by simpa using h1
    by_cases h2 : (get_extension f == "tscn".toList) = true
    · rw [if_pos h2]
      have e2 : get_extension f = "tscn".toList := by simpa using h2
      have htscn : ends_with s ".tscn".toList = true := ktscn.mp e2
      exact ⟨⟨fun hh => absurd hh (by decide), fun hh => (not_gd_and_tscn s hh htscn).elim⟩,
        ⟨fun _ => htscn, fun _ => rfl⟩⟩
    · rw [if_neg h2]
      have n2 : ¬ get_extension f = "tscn".toList := by simpa using h2
      exact ⟨⟨fun hh => absurd hh (by decide), fun hh => absurd (kgd.mpr hh) n1⟩,
        ⟨fun hh => absurd hh (by decide), fun hh => absurd (ktscn.mpr hh) n2⟩⟩

theorem ensure_res_suffix_iff (f x : Str) :
    ends_with (ensure_res f) ('.' :: x) = true ↔ ends_with f ('.' :: x) = true :=
  ⟨ends_with_of_ensure_res f x, ensure_res_ends_with f _⟩

theorem resource_candidate_agrees (m : RegExMatch) (c : Candidate)
    (h : resource_candidate m = some c) : c.agrees := by
  unfold resource_candidate at h
  dsimp only at h
  by_cases hc : (!(m.get_string 1).isEmpty) = true
  · rw [if_pos hc] at h
    cases h
    exact type_of_ext_agrees _ _ (fun _ => Iff.rfl)
  · rw [if_neg hc] at h; cases h

theorem subscene_candidate_agrees (m : RegExMatch) (c : Candidate)
    (h : subscene_candidate m = some c) : c.agrees := by
  unfold subscene_candidate at h
  dsimp only at h
  by_cases hc : (!(m.get_string 1).isEmpty) = true
  · rw [if_pos hc] at h
    cases h
    apply type_agrees_scene
    apply ensure_res_ends_with
    by_cases he : (!ends_with (m.get_string 1) ".tscn".toList) = true
    · rw [if_pos he]; exact ends_with_append _ _
    · rw [if_neg he]; simpa using he
  · rw [if_neg hc] at h; cases h

theorem typed_agrees (f : Str) (c : Bool) (wsf : Str → Bool) :
    Candidate.agrees
      ⟨ensure_res (if (get_extension f).isEmpty = true then
          (if c = true then (f ++ ".gd".toList, "script".toList)
            else (f ++ ".tscn".toList, "scene".toList))
          else (f, type_of_ext (get_extension f))).1,
        (if (get_extension f).isEmpty = true then
          (if c = true then (f ++ ".gd".toList, "script".toList)
            else (f ++ ".tscn".toList, "scene".toList))
          else (f, type_of_ext (get_extension f))).2,
        wsf (if (get_extension f).isEmpty = true then
          (if c = true then (f ++ ".gd".toList, "script".toList)
            else (f ++ ".tscn".toList, "scene".toList))
          else (f, type_of_ext (get_extension f))).2⟩ := by
  by_cases he : (get_extension f).isEmpty = true
  · rw [if_pos he]
    cases c
    · exact type_agrees_scene _ _ _ _ (ensure_res_ends_with _ _ (ends_with_append _ _))
    · exact type_agrees_script _ _ _ _ (ensure_res_ends_with _ _ (ends_with_append _ _))
  · rw [if_neg he]
    exact type_of_ext_agrees f _ (ensure_res_suffix_iff f)

theorem list_item_candidate_agrees (file_list : Str) (m : RegExMatch) (c : Candidate)
    (h : list_item_candidate file_list m = some c) : c.agrees := by
  unfold list_item_candidate at h
  dsimp only at h
  by_cases hc : (!(m.get_string 1).isEmpty) = true
  · rw [if_pos hc] at h
    cases h
    exact typed_agrees (m.get_string 1) _
      (fun ty => ty == "scene".toList && find (to_lower file_list) "no script".toList == -1)
  · rw [if_neg hc] at h; cases h

theorem description_candidate_agrees (p_response : Str) (m : RegExMatch) (c : Candidate)
    (h : description_candidate p_response m = some c) : c.agrees := by
  unfold description_candidate at h
  dsimp only at h
  by_cases hc : (!(m.get_string 1).isEmpty) = true
  · rw [if_pos hc] at h
    cases h
    exact typed_agrees (m.get_string 1) _ (fun _ => false)
  · rw [if_neg hc] at h; cases h

theorem scan_candidates_agree (p_response : Str) :
    ∀ c ∈ scan_candidates p_response, c.agrees := by
  intro c hc
  unfold scan_candidates at hc
  simp only [List.mem_append, List.mem_filterMap, List.mem_flatten, List.mem_map] at hc
  rcases hc with ((⟨m, _, h⟩ | ⟨m, _, h⟩) | ⟨l, ⟨m, _, hl⟩, h⟩) | ⟨m, _, h⟩
  · exact resource_candidate_agrees m c h
  · exact subscene_candidate_agrees m c h
  · rw [← hl] at h
    unfold file_list_candidates at h
    obtain ⟨m2, _, h2⟩ := List.mem_filterMap.mp h
    exact list_item_candidate_agrees _ m2 c h2
  · exact description_candidate_agrees _ m c h

/-! ## Keys of the collected table -/

theorem Map.keys_set {V : Type} (k : Str) (v : V) :
    ∀ m : Map V, Map.keys (Map.set m k v)
      = if Map.has m k then Map.keys m else Map.keys m ++ [k] := by
  intro m
  induction m with
  | nil => simp [Map.set, Map.keys, Map.has]
  | cons e r ih =>
    unfold Map.set
    by_cases h : (e.1 == k) = true
    · have he : e.1 = k := by simpa using h
      rw [if_pos h]
      simp [Map.keys, Map.has, h, he]
    · rw [if_neg h]
      have hh : Map.has (e :: r) k = Map.has r k := by
        simp only [Map.has, List.any_cons, h, Bool.false_or]
      rw [hh]
      simp only [Map.keys, List.map_cons] at ih ⊢
      rw [ih]
      split <;> simp

theorem Map.mem_keys_iff {V : Type} (m : Map V) (k : Str) :
    k ∈ Map.keys m ↔ Map.has m k = true := by
  unfold Map.keys Map.has
  simp only [List.mem_map, List.any_eq_true, beq_iff_eq]

theorem Map.keys_set_nodup {V : Type} (m : Map V) (k : Str) (v : V) (h : (Map.keys m).Nodup) :
    (Map.keys (Map.set m k v)).Nodup := by
  rw [Map.keys_set]
  cases hh : Map.has m k
  · simp only [Bool.false_eq_true, if_false]
    apply List.Nodup.append h (List.nodup_singleton k)
    intro a ha hb
    rw [List.mem_singleton] at hb
    subst hb
    have := (Map.mem_keys_iff m a).mp ha
    rw [hh] at this; cases this
  · simp only [if_true]; exact h

theorem track_keys (p : Panel) (c : Candidate) (hc : c.agrees)
    (h : (∀ E ∈ p.pending_dependencies, type_agrees E.2)
      ∧ (Map.keys p.pending_dependencies).Nodup) :
    (∀ E ∈ (track p c).pending_dependencies, type_agrees E.2)
      ∧ (Map.keys (track p c).pending_dependencies).Nodup := by
  have h1 : (∀ E ∈ Map.set p.pending_dependencies c.path
      { path := c.path, code := [], type := c.type, created := false, dependencies := [] },
      type_agrees E.2)
      ∧ (Map.keys (Map.set p.pending_dependencies c.path
      { path := c.path, code := [], type := c.type, created := false, dependencies := [] })).Nodup := by
    refine ⟨?_, Map.keys_set_nodup _ _ _ h.2⟩
    intro E hE
    rcases Map.mem_set _ _ _ _ hE with h2 | h2
    · exact h.1 E h2
    · rw [h2]; exact hc
  have h3 : ∀ s : Str, (∀ E ∈ Map.set (Map.set p.pending_dependencies c.path
      { path := c.path, code := [], type := c.type, created := false, dependencies := [] })
      (s ++ ".gd".toList)
      { path := s ++ ".gd".toList, code := companion_script_code, type := "script".toList,
        created := false, dependencies := [] },
      type_agrees E.2)
      ∧ (Map.keys (Map.set (Map.set p.pending_dependencies c.path
      { path := c.path, code := [], type := c.type, created := false, dependencies := [] })
      (s ++ ".gd".toList)
      { path := s ++ ".gd".toList, code := companion_script_code, type := "script".toList,
        created := false, dependencies := [] })).Nodup := by
    intro s
    refine ⟨?_, Map.keys_set_nodup _ _ _ h1.2⟩
    intro E hE
    rcases Map.mem_set _ _ _ _ hE with h2 | h2
    · exact h1.1 E h2
    · rw [h2]; exact type_agrees_script _ _ _ _ (ends_with_append _ _)
  unfold track
  dsimp only
  repeat' split
  · exact h3 _
  · exact h1
  · exact h1
  · exact h

theorem foldl_track_keys :
    ∀ (cs : List Candidate) (p : Panel), (∀ c ∈ cs, c.agrees) →
      ((∀ E ∈ p.pending_dependencies, type_agrees E.2)
        ∧ (Map.keys p.pending_dependencies).Nodup) →
      (∀ E ∈ (cs.foldl track p).pending_dependencies, type_agrees E.2)
        ∧ (Map.keys (cs.foldl track p).pending_dependencies).Nodup := by
  intro cs
  induction cs with
  | nil => intro p _ h; exact h
  | cons c r ih =>
    intro p hcs h
    simp only [List.foldl_cons]
    exact ih (track p c) (fun c1 hc1 => hcs c1 (List.mem_cons_of_mem _ hc1))
      (track_keys p c (hcs c (List.mem_cons_self _ _)) h)

theorem block_type_agrees (b : CodeBlock) (code : Str) (deps : List Str) :
    type_agrees ⟨b.file_path, code, block_type b.file_path, false, deps⟩ := by
  unfold block_type
  by_cases h1 : ends_with b.file_path ".gd".toList = true
  · rw [if_pos h1]; exact type_agrees_script _ _ _ _ h1
  · rw [if_neg h1]
    by_cases h2 : ends_with b.file_path ".tscn".toList = true
    · rw [if_pos h2]; exact type_agrees_scene _ _ _ _ h2
    · rw [if_neg h2]
      exact ⟨⟨fun hh => absurd (show "resource".toList = "script".toList from hh) (by decide),
          fun hh => absurd hh h1⟩,
        ⟨fun hh => absurd (show "resource".toList = "scene".toList from hh) (by decide),
          fun hh => absurd hh h2⟩⟩

theorem foldl_add_code_block_keys :
    ∀ (bs : List CodeBlock) (t : Table),
      ((∀ E ∈ t, type_agrees E.2) ∧ (Map.keys t).Nodup) →
      (∀ E ∈ bs.foldl add_code_block t, type_agrees E.2)
        ∧ (Map.keys (bs.foldl add_code_block t)).Nodup := by
  intro bs
  induction bs with
  | nil => intro t h; exact h
  | cons b r ih =>
    intro t h
    simp only [List.foldl_cons]
    apply ih
    unfold add_code_block
    dsimp only
    refine ⟨?_, Map.keys_set_nodup _ _ _ h.2⟩
    intro E hE
    rcases Map.mem_set _ _ _ _ hE with h2 | h2
    · exact h.1 E h2
    · rw [h2]; exact block_type_agrees b _ _

/-- In the table handed to `_process_dependencies` the type of every entry
agrees with the end of its path, and no key occurs twice. -/
theorem collect_dependencies_keys (env : Env) (p : Panel) (p_response : Str) (t : Panel)
    (h : collect_dependencies env p p_response = some t) :
    (∀ E ∈ t.pending_dependencies, type_agrees E.2)
      ∧ (Map.keys t.pending_dependencies).Nodup := by
  unfold collect_dependencies at h
  cases hb : detect_blocks env p_response with
  | none => rw [hb] at h; cases h
  | some bs =>
    rw [hb] at h
    dsimp only at h
    cases h
    have h1 := foldl_track_keys (scan_candidates p_response)
      { p with pending_dependencies := [], processing_order := [] }
      (scan_candidates_agree p_response) ⟨fun E hE => (by cases hE), List.nodup_nil⟩
    unfold _scan_for_dependencies
    exact foldl_add_code_block_keys bs _ h1

theorem upgrade_scenes_agrees (env : Env) :
    ∀ (t : Table) (seeds : Nat), (∀ E ∈ t, type_agrees E.2) →
      ∀ E ∈ (upgrade_scenes env t seeds).1, type_agrees E.2 := by
  intro t
  induction t with
  | nil => intro seeds _ E hE; simp [upgrade_scenes] at hE
  | cons E0 r ih =>
    intro seeds h E hE
    unfold upgrade_scenes at hE
    by_cases hc : (E0.2.type == "scene".toList && !E0.2.code.isEmpty
        && find E0.2.code "format=2".toList != -1) = true
    · rw [if_pos hc] at hE
      dsimp only at hE
      rcases List.mem_cons.mp hE with h1 | h1
      · rw [h1]
        exact type_agrees_congr E0.2 _ rfl rfl (h E0 (List.mem_cons_self _ _))
      · exact ih _ (fun E1 h2 => h E1 (List.mem_cons_of_mem _ h2)) E h1
    · rw [if_neg hc] at hE
      dsimp only at hE
      rcases List.mem_cons.mp hE with h1 | h1
      · rw [h1]
        exact h E0 (List.mem_cons_self _ _)
      · exact ih _ (fun E1 h2 => h E1 (List.mem_cons_of_mem _ h2)) E h1

/-! ## The order is a permutation of the keys -/

theorem insert_sorted_perm {α : Type} (lt : α → α → Bool) (x : α) :
    ∀ l : List α, (insert_sorted lt x l).Perm (x :: l) := by
  intro l
  induction l with
  | nil => exact List.Perm.refl _
  | cons y r ih =>
    unfold insert_sorted
    split
    · exact List.Perm.refl _
    · exact (List.Perm.cons y ih).trans (List.Perm.swap x y r)

theorem sort_custom_perm {α : Type} (lt : α → α → Bool) :
    ∀ l : List α, (sort_custom lt l).Perm l := by
  intro l
  induction l with
  | nil => exact List.Perm.refl _
  | cons z r ih =>
    unfold sort_custom at ih ⊢
    simp only [List.foldr_cons]
    exact (insert_sorted_perm lt z _).trans (List.Perm.cons z ih)

/-- Three filters that split a list, each element passing exactly one, give a
permutation of the list when concatenated. -/
theorem filter3_perm {α : Type} (A B C : α → Bool) :
    ∀ l : List α,
      (∀ x ∈ l, (A x = true ∧ B x = false ∧ C x = false) ∨ (A x = false ∧ B x = true ∧ C x = false)
        ∨ (A x = false ∧ B x = false ∧ C x = true)) →
      (l.filter A ++ l.filter B ++ l.filter C).Perm l := by
  intro l
  induction l with
  | nil => intro _; exact List.Perm.refl _
  | cons x r ih =>
    intro h
    have ihr := ih (fun y hy => h y (List.mem_cons_of_mem _ hy))
    rcases h x (List.mem_cons_self _ _) with ⟨a, b, c⟩ | ⟨a, b, c⟩ | ⟨a, b, c⟩
    · simp only [List.filter_cons, a, b, c, if_true, Bool.false_eq_true, if_false]
      exact List.Perm.cons x ihr
    · simp only [List.filter_cons, a, b, c, if_true, Bool.false_eq_true, if_false]
      refine List.Perm.trans ?_ (List.Perm.cons x ihr)
      rw [List.append_assoc, List.append_assoc]
      simp only [List.cons_append]
      exact List.perm_middle
    · simp only [List.filter_cons, a, b, c, if_true, Bool.false_eq_true, if_false]
      refine List.Perm.trans ?_ (List.Perm.cons x ihr)
      exact List.perm_middle

theorem build_order_perm (t : Table) (h : ∀ E ∈ t, walked_kind E.2) :
    (build_order t).Perm (Map.keys t) := by
  have hs : ((sort_custom PairSort (scene_pairs t)).map (fun e => e.1)).Perm
      ((t.filter (fun E => E.2.type == "scene".toList)).map (fun E => E.1)) := by
    refine ((sort_custom_perm PairSort (scene_pairs t)).map _).trans ?_
    unfold scene_pairs
    simp only [List.map_map]
    exact List.Perm.refl _
  unfold build_order resource_keys script_keys
  refine (List.Perm.append_left _ hs).trans ?_
  rw [← List.map_append, ← List.map_append]
  unfold Map.keys
  apply List.Perm.map
  apply filter3_perm
  intro E hE
  rcases h E hE with h1 | h1 | ⟨h1, h2, h3⟩
  · right; left
    rw [h1]
    exact ⟨by simp, by decide, by decide⟩
  · right; right
    rw [h1]
    exact ⟨by simp, by decide, by decide⟩
  · left
    rw [h1, h2, h3]
    exact ⟨by decide, by decide, by decide⟩

end VectorAIPanel

/-! ## Lemmas on the matcher -/

theorem iterate_cont (m : Str → Caps → (Str → Caps → Option (Str × Caps)) → Option (Str × Caps))
    (g : Bool)
    (hm : ∀ s c k res, m s c k = some res → ∃ s1 c1, k s1 c1 = some res ∧ s1.length ≤ s.length) :
    ∀ (n : Nat) (s : Str) (c : Caps) (k : Str → Caps → Option (Str × Caps)) (res : Str × Caps),
      iterate m g n s c k = some res → ∃ s1 c1, k s1 c1 = some res ∧ s1.length ≤ s.length := by
  intro n
  induction n with
  | zero =>
    intro s c k res h
    unfold iterate at h
    exact ⟨s, c, h, le_refl _⟩
  | succ n ih =>
    intro s c k res h
    have inner : ∀ r2, m s c (fun s1 c1 => if s1.length < s.length then iterate m g n s1 c1 k
        else none) = some r2 → ∃ s1 c1, k s1 c1 = some r2 ∧ s1.length ≤ s.length := by
      intro r2 h2
      obtain ⟨s1, c1, h3, hl⟩ := hm _ _ _ _ h2
      by_cases hlt : s1.length < s.length
      · rw [if_pos hlt] at h3
        obtain ⟨s2, c2, h4, hl2⟩ := ih _ _ _ _ h3
        exact ⟨s2, c2, h4, by omega⟩
      · rw [if_neg hlt] at h3; cases h3
    unfold iterate at h
    cases g with
    | true =>
      simp only [if_true] at h
      cases hr : m s c (fun s1 c1 => if s1.length < s.length then iterate m true n s1 c1 k
          else none) with
      | some r2 =>
        rw [hr] at h
        simp only [Option.some.injEq] at h
        subst h
        exact inner _ hr
      | none =>
        rw [hr] at h
        exact ⟨s, c, h, le_refl _⟩
    | false =>
      simp only [Bool.false_eq_true, if_false] at h
      cases hk : k s c with
      | some r2 =>
        rw [hk] at h
        simp only [Option.some.injEq] at h
        subst h
        exact ⟨s, c, hk, le_refl _⟩
      | none =>
        rw [hk] at h
        exact inner _ h

/-- A successful run ends in a call of the continuation on a rest that is not
longer than the input. -/
theorem Re.run_cont (r : Re) :
    ∀ (s : Str) (c : Caps) (k : Str → Caps → Option (Str × Caps)) (res : Str × Caps),
      r.run s c k = some res → ∃ s1 c1, k s1 c1 = some res ∧ s1.length ≤ s.length := by
  induction r with
  | eps =>
    intro s c k res h
    simp only [Re.run] at h
    exact ⟨s, c, h, le_refl _⟩
  | lit p =>
    intro s c k res h
    simp only [Re.run] at h
    by_cases hp : p.isPrefixOf s = true
    · rw [if_pos hp] at h
      exact ⟨_, c, h, by simp⟩
    · rw [if_neg hp] at h; cases h
  | cls neg rs =>
    intro s c k res h
    cases s with
    | nil => simp only [Re.run] at h; cases h
    | cons x t =>
      simp only [Re.run] at h
      by_cases hc : inClass neg rs x = true
      · rw [if_pos hc] at h
        exact ⟨t, c, h, by simp⟩
      · rw [if_neg hc] at h; cases h
  | seq a b iha ihb =>
    intro s c k res h
    simp only [Re.run] at h
    obtain ⟨s1, c1, h1, hl1⟩ := iha _ _ _ _ h
    obtain ⟨s2, c2, h2, hl2⟩ := ihb _ _ _ _ h1
    exact ⟨s2, c2, h2, by omega⟩
  | alt a b iha ihb =>
    intro s c k res h
    simp only [Re.run] at h
    cases ha : a.run s c k with
    | some r2 =>
      rw [ha] at h
      simp only [Option.some.injEq] at h
      subst h
      exact iha _ _ _ _ ha
    | none =>
      rw [ha] at h
      exact ihb _ _ _ _ h
  | star g a iha =>
    intro s c k res h
    simp only [Re.run] at h
    exact iterate_cont a.run g iha _ _ _ _ _ h
  | cap i a iha =>
    intro s c k res h
    simp only [Re.run] at h
    obtain ⟨s1, c1, h1, hl1⟩ := iha _ _ _ _ h
    exact ⟨s1, _, h1, hl1⟩
  | eos =>
    intro s c k res h
    simp only [Re.run] at h
    split at h
    · exact ⟨s, c, h, le_refl _⟩
    · cases h

/-- A pattern that starts with the literal `l` matches only where `l` stands,
and the match covers `l`. -/
theorem run_lit_seq (l : Str) (r : Re) (s rest : Str) (c : Caps)
    (h : (Re.seq (.lit l) r).run s [] (fun s c => some (s, c)) = some (rest, c)) :
    l.isPrefixOf s = true ∧ rest.length + l.length ≤ s.length := by
  simp only [Re.run] at h
  by_cases hp : l.isPrefixOf s = true
  · rw [if_pos hp] at h
    obtain ⟨s1, c1, h1, hl⟩ := Re.run_cont r _ _ _ _ h
    simp only [Option.some.injEq, Prod.mk.injEq] at h1
    rw [← h1.1]
    obtain ⟨t, ht⟩ := List.isPrefixOf_iff_prefix.mp hp
    refine ⟨hp, ?_⟩
    rw [← ht] at hl ⊢
    simp only [List.drop_left, List.length_append] at hl ⊢
    omega
  · rw [if_neg hp] at h; cases h

theorem searchFrom_lit_seq (l : Str) (r : Re) :
    ∀ (s : Str) (i : Nat) (m : RegExMatch), searchFrom (Re.seq (.lit l) r) i s = some m →
      begins_with m.whole l = true := by
  intro s
  induction s with
  | nil =>
    intro i m h
    unfold searchFrom at h
    cases hr : (Re.seq (.lit l) r).run [] [] (fun s c => some (s, c)) with
    | none => rw [hr] at h; cases h
    | some res =>
      rw [hr] at h
      simp only [Option.some.injEq] at h
      obtain ⟨hp, _⟩ := run_lit_seq l r [] res.1 res.2 hr
      rw [← h]
      exact hp
  | cons x t ih =>
    intro i m h
    unfold searchFrom at h
    cases hr : (Re.seq (.lit l) r).run (x :: t) [] (fun s c => some (s, c)) with
    | none =>
      rw [hr] at h
      exact ih _ _ h
    | some res =>
      rw [hr] at h
      simp only [Option.some.injEq] at h
      obtain ⟨hp, hl⟩ := run_lit_seq l r (x :: t) res.1 res.2 hr
      rw [← h]
      dsimp only
      unfold begins_with
      obtain ⟨u, hu⟩ := List.isPrefixOf_iff_prefix.mp hp
      apply List.isPrefixOf_iff_prefix.mpr
      rw [← hu] at hl ⊢
      have hlen : l.length ≤ (l ++ u).length - res.1.length := by omega
      rw [List.take_append_eq_append_take, List.take_of_length_le hlen]
      exact ⟨_, rfl⟩

theorem searchFrom_none_of_find (l : Str) (r : Re) :
    ∀ (s : Str) (i j : Nat), findFrom l j s = none → l ≠ [] →
      searchFrom (Re.seq (.lit l) r) i s = none := by
  intro s
  induction s with
  | nil =>
    intro i j _ hl
    unfold searchFrom
    have : (Re.seq (.lit l) r).run [] [] (fun s c => some (s, c)) = none := by
      simp only [Re.run]
      cases l with
      | nil => exact absurd rfl hl
      | cons a b => rfl
    rw [this]
  | cons x t ih =>
    intro i j h hl
    unfold findFrom at h
    by_cases hp : l.isPrefixOf (x :: t) = true
    · rw [if_pos hp] at h; cases h
    · rw [if_neg hp] at h
      unfold searchFrom
      have : (Re.seq (.lit l) r).run (x :: t) [] (fun s c => some (s, c)) = none := by
        simp only [Re.run]
        rw [if_neg hp]
      rw [this]
      exact ih _ _ h hl

theorem searchAllGo_lit_seq (l : Str) (r : Re) (subject : Str) :
    ∀ (fuel offset : Nat), ∀ m ∈ searchAllGo (Re.seq (.lit l) r) subject fuel offset,
      begins_with m.whole l = true := by
  intro fuel
  induction fuel with
  | zero => intro offset m hm; simp [searchAllGo] at hm
  | succ n ih =>
    intro offset m hm
    unfold searchAllGo at hm
    by_cases hlen : subject.length < offset
    · rw [if_pos hlen] at hm; cases hm
    · rw [if_neg hlen] at hm
      cases hs : searchFrom (Re.seq (.lit l) r) offset (subject.drop offset) with
      | none => rw [hs] at hm; cases hm
      | some m0 =>
        rw [hs] at hm
        rcases List.mem_cons.mp hm with h1 | h1
        · rw [h1]; exact searchFrom_lit_seq l r _ _ _ hs
        · exact ih _ m h1

theorem findFrom_none_drop (l : Str) :
    ∀ (s : Str) (j n : Nat), findFrom l j s = none → findFrom l (j + n) (s.drop n) = none := by
  intro s
  induction s with
  | nil => intro j n _; simp [findFrom]
  | cons x t ih =>
    intro j n h
    cases n with
    | zero => exact h
    | succ n =>
      unfold findFrom at h
      by_cases hp : l.isPrefixOf (x :: t) = true
      · rw [if_pos hp] at h; cases h
      · rw [if_neg hp] at h
        have := ih (j + 1) n h
        simp only [List.drop_succ_cons]
        have e : j + (n + 1) = j + 1 + n := by omega
        rw [e]; exact this

/-- A pattern that starts with a literal finds nothing in a text that does not
contain the literal. -/
theorem search_all_nil_of_not_contains (l : Str) (r : Re) (s : Str)
    (h : contains s l = false) (hl : l ≠ []) : search_all (Re.seq (.lit l) r) s = [] := by
  have hf : findFrom l 0 s = none := by
    unfold contains find at h
    cases l with
    | nil => exact absurd rfl hl
    | cons a b =>
      simp only [List.isEmpty_cons, Bool.false_eq_true, if_false] at h
      cases hff : findFrom (a :: b) 0 s with
      | none => rfl
      | some i =>
        rw [hff] at h
        simp at h
  unfold search_all searchAllGo
  rw [if_neg (by omega)]
  rw [searchFrom_none_of_find l r _ 0 0 (by simpa using findFrom_none_drop l s 0 0 hf) hl]

theorem splitGo_of_findFrom_none (sep : Str) :
    ∀ (s cur : Str) (j : Nat), findFrom sep j s = none →
      splitGo sep 0 cur s = [cur.reverse ++ s] := by
  intro s
  induction s with
  | nil => intro cur j _; simp [splitGo]
  | cons x t ih =>
    intro cur j h
    unfold findFrom at h
    by_cases hp : sep.isPrefixOf (x :: t) = true
    · rw [if_pos hp] at h; cases h
    · rw [if_neg hp] at h
      unfold splitGo
      rw [if_neg hp, ih _ _ h]
      simp

theorem split_of_not_contains (s sep : Str) (h : contains s sep = false) (hl : sep ≠ []) :
    split s sep = [s] := by
  have hf : findFrom sep 0 s = none := by
    unfold contains find at h
    cases sep with
    | nil => exact absurd rfl hl
    | cons a b =>
      simp only [List.isEmpty_cons, Bool.false_eq_true, if_false] at h
      cases hff : findFrom (a :: b) 0 s with
      | none => rfl
      | some i =>
        rw [hff] at h
        simp at h
  unfold split
  rw [splitGo_of_findFrom_none sep s [] 0 hf]
  rfl

namespace VectorAIPanel

/-! ## Lemmas on the dependency analyzers -/

theorem add_dependency_normalized (l : List Str) (m : RegExMatch)
    (h : l.Nodup ∧ ∀ d ∈ l, begins_with d "res://".toList = true) :
    (add_dependency l m).Nodup ∧ ∀ d ∈ add_dependency l m, begins_with d "res://".toList = true := by
  unfold add_dependency
  dsimp only
  by_cases h1 : (!(m.get_string 1).isEmpty) = true
  · rw [if_pos h1]
    have hres : begins_with (if (!begins_with (m.get_string 1) "res://".toList) = true
        then "res://".toList ++ m.get_string 1 else m.get_string 1) "res://".toList = true := by
      by_cases hb : (!begins_with (m.get_string 1) "res://".toList) = true
      · rw [if_pos hb]; exact begins_with_append _ _
      · rw [if_neg hb]; simpa using hb
    generalize (if (!begins_with (m.get_string 1) "res://".toList) = true
        then "res://".toList ++ m.get_string 1 else m.get_string 1) = path at hres ⊢
    by_cases h2 : (!l.contains path) = true
    · rw [if_pos h2]
      have hnm : path ∉ l := by simpa using h2
      refine ⟨List.Nodup.append h.1 (List.nodup_singleton _) ?_, ?_⟩
      · intro a ha hb
        rw [List.mem_singleton] at hb
        subst hb
        exact hnm ha
      · intro d hd
        rcases List.mem_append.mp hd with h3 | h3
        · exact h.2 d h3
        · rw [List.mem_singleton] at h3
          rw [h3]; exact hres
    · rw [if_neg h2]; exact h
  · rw [if_neg h1]; exact h

theorem add_direct_dependency_normalized (l : List Str) (m : RegExMatch)
    (hm : begins_with m.whole "res://".toList = true)
    (h : l.Nodup ∧ ∀ d ∈ l, begins_with d "res://".toList = true) :
    (add_direct_dependency l m).Nodup
      ∧ ∀ d ∈ add_direct_dependency l m, begins_with d "res://".toList = true := by
  unfold add_direct_dependency
  dsimp only
  have hw : m.get_string 0 = m.whole := by
    unfold RegExMatch.get_string
    rw [if_pos rfl]
  rw [hw]
  by_cases h2 : (!m.whole.isEmpty && !l.contains m.whole) = true
  · rw [if_pos h2]
    have hnm : m.whole ∉ l := by
      simp only [Bool.and_eq_true] at h2
      simpa using h2.2
    refine ⟨List.Nodup.append h.1 (List.nodup_singleton _) ?_, ?_⟩
    · intro a ha hb
      rw [List.mem_singleton] at hb
      subst hb
      exact hnm ha
    · intro d hd
      rcases List.mem_append.mp hd with h3 | h3
      · exact h.2 d h3
      · rw [List.mem_singleton] at h3
        rw [h3]; exact hm
  · rw [if_neg h2]; exact h

theorem foldl_add_dependency_normalized :
    ∀ (ms : List RegExMatch) (l : List Str),
      (l.Nodup ∧ ∀ d ∈ l, begins_with d "res://".toList = true) →
      (ms.foldl add_dependency l).Nodup
        ∧ ∀ d ∈ ms.foldl add_dependency l, begins_with d "res://".toList = true := by
  intro ms
  induction ms with
  | nil => intro l h; exact h
  | cons m r ih =>
    intro l h
    simp only [List.foldl_cons]
    exact ih _ (add_dependency_normalized l m h)

theorem foldl_add_direct_dependency_normalized :
    ∀ (ms : List RegExMatch) (l : List Str),
      (∀ m ∈ ms, begins_with m.whole "res://".toList = true) →
      (l.Nodup ∧ ∀ d ∈ l, begins_with d "res://".toList = true) →
      (ms.foldl add_direct_dependency l).Nodup
        ∧ ∀ d ∈ ms.foldl add_direct_dependency l, begins_with d "res://".toList = true := by
  intro ms
  induction ms with
  | nil => intro l _ h; exact h
  | cons m r ih =>
    intro l hms h
    simp only [List.foldl_cons]
    exact ih _ (fun m1 h1 => hms m1 (List.mem_cons_of_mem _ h1))
      (add_direct_dependency_normalized l m (hms m (List.mem_cons_self _ _)) h)

/-- Every match of the direct-reference pattern begins with `res://`. -/
theorem script_resource_matches (code : Str) :
    ∀ m ∈ search_all script_resource_regex code, begins_with m.whole "res://".toList = true := by
  intro m hm
  unfold search_all at hm
  exact searchAllGo_lit_seq "res://".toList _ code _ _ m hm

/-- Neither legacy extractor finds a block in a text without a fence. -/
theorem block_regex_nil (s : Str) (h : contains s "```".toList = false) :
    search_all block_regex s = [] :=
  search_all_nil_of_not_contains "```".toList _ s h (by decide)

end VectorAIPanel
namespace ClaudeAPI

/-! ## Lemmas on the API node -/

theorem history_messages_eq_drop (h : List Message) (s : Nat) (hs : s ≤ h.length) :
    history_messages h (s : Int) = h.drop s := by
  unfold history_messages
  apply List.ext_getElem?
  intro k
  simp only [Int.toNat_ofNat, List.getElem?_map, List.getElem?_drop]
  by_cases hk : k < h.length - s
  · rw [List.getElem?_range' _ _ hk]
    simp only [Option.map_some']
    have hlt : s + 1 * k < h.length := by omega
    rw [List.getD_eq_getElem _ _ hlt]
    have e : s + 1 * k = s + k := by omega
    simp only [e]
    exact (List.getElem?_eq_getElem (by omega)).symm
  · have h1 : (List.range' s (h.length - s))[k]? = none :=
      List.getElem?_eq_none (by simp only [List.length_range']; omega)
    rw [h1]
    simp only [Option.map_none']
    exact (List.getElem?_eq_none (by omega)).symm

theorem request_messages_eq (api : ClaudeAPI) (p_message : Str) :
    request_messages api p_message
      = api.conversation_history.drop (api.conversation_history.length - 10)
        ++ [⟨"user".toList, p_message⟩] := by
  unfold request_messages
  dsimp only
  have e : max (0 : Int) ((api.conversation_history.length : Int) - 10)
      = ((api.conversation_history.length - 10 : Nat) : Int) := by omega
  rw [e, history_messages_eq_drop _ _ (by omega)]

theorem report_error_history (api : ClaudeAPI) (msg : Str) :
    (api.report_error msg).conversation_history = api.conversation_history := by
  unfold report_error
  split <;> rfl

theorem send_message_history (env : ApiEnv) (api : ClaudeAPI) (p_message : Str) :
    (send_message env api p_message).conversation_history = api.conversation_history := by
  unfold send_message
  dsimp only
  repeat' split
  all_goals first
    | exact report_error_history _ _
    | rfl

theorem send_message_sent (env : ApiEnv) (api : ClaudeAPI) (p_message : Str)
    (hkey : api.api_key.isEmpty = false)
    (hfmt : begins_with api.api_key "sk-ant-".toList = true)
    (hidle : api.request_in_progress = false) :
    (send_message env api p_message).requests = api.requests ++ [build_request env api p_message]
    ∧ (send_message env api p_message).pending_user_message = p_message := by
  unfold send_message
  rw [hkey, hfmt, hidle]
  simp only [Bool.false_eq_true, if_false, Bool.not_true]
  by_cases he : env.request (build_request env api p_message) ≠ 0
  · rw [if_pos he]
    unfold report_error
    dsimp only
    split <;> exact ⟨rfl, rfl⟩
  · rw [if_neg he]
    exact ⟨rfl, rfl⟩

/-- On every path of `_on_request_completed` but the successful one, the node
is left as it was, idle, with at most one more error reported. -/
theorem completed_of_no_text (env : ApiEnv) (a : ClaudeAPI) (p_result p_response_code : Int)
    (p_body : List Nat) (h : assistant_text env p_result p_response_code p_body = none) :
    ∃ msg, _on_request_completed env a p_result p_response_code p_body
      = report_error { a with request_in_progress := false } msg := by
  unfold assistant_text at h
  unfold _on_request_completed
  dsimp only
  by_cases h1 : p_result ≠ 0
  · rw [if_pos h1]; exact ⟨_, rfl⟩
  · rw [if_neg h1]
    by_cases h2 : p_response_code ≠ 200
    · rw [if_pos h2]; exact ⟨_, rfl⟩
    · rw [if_neg h2]
      by_cases h3 : p_body.length = 0
      · rw [if_pos h3]; exact ⟨_, rfl⟩
      · rw [if_neg h3]
        have hb : p_body ≠ [] := fun hh => h3 (by rw [hh]; rfl)
        have hc : p_result = 0 ∧ p_response_code = 200 ∧ p_body ≠ [] :=
          ⟨not_not.mp h1, not_not.mp h2, hb⟩
        rw [if_pos hc] at h
        cases hj : env.json_parse (env.utf8 p_body) with
        | error err => exact ⟨_, rfl⟩
        | ok v =>
          rw [hj] at h
          cases v with
          | dict d =>
            dsimp only at h ⊢
            by_cases hd : (!dict_has d "content".toList) = true
            · rw [if_pos hd]; exact ⟨_, rfl⟩
            · rw [if_neg hd]
              have hd2 : dict_has d "content".toList = true := by simpa using hd
              cases hcont : dict_get d "content".toList with
              | array content =>
                rw [hcont] at h
                dsimp only at h ⊢
                by_cases ht : (content.foldl (append_text env) []).isEmpty = true
                · rw [if_pos ht]; exact ⟨_, rfl⟩
                · have ht2 : (content.foldl (append_text env) []).isEmpty = false := by
                    simpa using ht
                  rw [if_pos ⟨hd2, ht2⟩] at h
                  cases h
              | nil => exact ⟨_, rfl⟩
              | bool _ => exact ⟨_, rfl⟩
              | num _ => exact ⟨_, rfl⟩
              | str _ => exact ⟨_, rfl⟩
              | dict _ => exact ⟨_, rfl⟩
          | nil => exact ⟨_, rfl⟩
          | bool _ => exact ⟨_, rfl⟩
          | num _ => exact ⟨_, rfl⟩
          | str _ => exact ⟨_, rfl⟩
          | array _ => exact ⟨_, rfl⟩

/-- On the successful path the history gets the pending user message and the
assistant text, and no error is reported. -/
theorem completed_of_text (env : ApiEnv) (a : ClaudeAPI) (p_result p_response_code : Int)
    (p_body : List Nat) (text : Str)
    (h : assistant_text env p_result p_response_code p_body = some text) :
    (_on_request_completed env a p_result p_response_code p_body).conversation_history
      = a.conversation_history
        ++ [⟨"user".toList, a.pending_user_message⟩, ⟨"assistant".toList, text⟩]
    ∧ (_on_request_completed env a p_result p_response_code p_body).errors = a.errors := by
  unfold assistant_text at h
  by_cases hc : p_result = 0 ∧ p_response_code = 200 ∧ p_body ≠ []
  · rw [if_pos hc] at h
    obtain ⟨h1, h2, h3⟩ := hc
    have h3l : ¬ p_body.length = 0 := fun hh => h3 (List.length_eq_zero.mp hh)
    unfold _on_request_completed
    dsimp only
    rw [if_neg (not_not.mpr h1), if_neg (not_not.mpr h2), if_neg h3l]
    cases hj : env.json_parse (env.utf8 p_body) with
    | error err => rw [hj] at h; cases h
    | ok v =>
      rw [hj] at h
      cases v with
      | dict d =>
        dsimp only at h ⊢
        cases hcont : dict_get d "content".toList with
        | array content =>
          rw [hcont] at h
          dsimp only at h ⊢
          by_cases hg : dict_has d "content".toList
              ∧ (content.foldl (append_text env) []).isEmpty = false
          · rw [if_pos hg] at h
            simp only [Option.some.injEq] at h
            rw [if_neg (by rw [hg.1]; decide), if_neg (by rw [hg.2]; decide), h]
            unfold add_to_history
            dsimp only
            split
            · exact ⟨by simp, rfl⟩
            · exact ⟨by simp, rfl⟩
          · rw [if_neg hg] at h; cases h
        | nil => rw [hcont] at h; cases h
        | bool _ => rw [hcont] at h; cases h
        | num _ => rw [hcont] at h; cases h
        | str _ => rw [hcont] at h; cases h
        | dict _ => rw [hcont] at h; cases h
      | nil => cases h
      | bool _ => cases h
      | num _ => cases h
      | str _ => cases h
      | array _ => cases h
  · rw [if_neg hc] at h; cases h

end ClaudeAPI
namespace VectorAIPanel

/-! ## References the walk leaves alone -/

theorem mkdir_choice_files (s : Storage) (c : Bool) (dir : Str) :
    (if c = true then s.make_dir_recursive dir else (0, s)).2.files = s.files := by
  cases c
  · rfl
  · unfold Storage.make_dir_recursive
    by_cases hm : s.mkdirErr dir = 0
    · rw [if_pos rfl, if_pos hm]
    · rw [if_pos rfl, if_neg hm]

theorem auto_apply_files (p : Panel) (code target k : Str) (hk : k ≠ target) :
    (_auto_apply_changes p code target).storage.file_exists k = p.storage.file_exists k := by
  have h := mkdir_choice_files p.storage
    (!(get_base_dir target).isEmpty && !p.storage.dir_exists (get_base_dir target))
    (get_base_dir target)
  unfold _auto_apply_changes Panel._add_claude_message
  dsimp only
  generalize (if (!(get_base_dir target).isEmpty && !p.storage.dir_exists (get_base_dir target)) = true
      then p.storage.make_dir_recursive (get_base_dir target) else (0, p.storage)) = mk at h ⊢
  have ho : (mk.2.open_write target).2.file_exists k = p.storage.file_exists k := by
    unfold Storage.open_write Storage.file_exists
    dsimp only
    rw [h]
  by_cases h1 : mk.1 ≠ 0
  · rw [if_pos h1]
  · rw [if_neg h1]
    by_cases h2 : (mk.2.open_write target).1 ≠ 0
    · rw [if_pos h2]; exact ho
    · rw [if_neg h2]
      unfold Storage.store_string Storage.file_exists
      dsimp only
      rw [Map.has_set_ne _ _ _ _ hk]
      exact ho

theorem placeholder_scene_files (env : Env) (p : Panel) (x k : Str) (hk : k ≠ x) :
    (_create_placeholder_scene env p x).storage.file_exists k = p.storage.file_exists k := by
  have h := mkdir_choice_files p.storage (!p.storage.dir_exists (get_base_dir x)) (get_base_dir x)
  unfold _create_placeholder_scene Panel._add_claude_message
  dsimp only
  generalize (if (!p.storage.dir_exists (get_base_dir x)) = true
      then p.storage.make_dir_recursive (get_base_dir x) else (0, p.storage)) = mk at h ⊢
  have ho : (mk.2.open_write x).2.file_exists k = p.storage.file_exists k := by
    unfold Storage.open_write Storage.file_exists
    dsimp only
    rw [h]
  by_cases h1 : mk.1 ≠ 0
  · rw [if_pos h1]
  · rw [if_neg h1]
    by_cases h2 : (mk.2.open_write x).1 ≠ 0
    · rw [if_pos h2]; exact ho
    · rw [if_neg h2]
      unfold Storage.store_string Storage.file_exists
      dsimp only
      rw [Map.has_set_ne _ _ _ _ hk]
      exact ho

/-- The inner loop body does nothing at all for a reference whose extension is
none of `gd`, `tscn`, `tres`. -/
theorem check_dependency_other (env : Env) (p : Panel) (i : Nat) (d : Str)
    (h1 : get_extension d ≠ "gd".toList) (h2 : get_extension d ≠ "tscn".toList)
    (h3 : get_extension d ≠ "tres".toList) :
    check_dependency env (p, i) d = (p, i) := by
  unfold check_dependency
  dsimp only
  have e1 : (get_extension d == "gd".toList) = false := by simpa using h1
  have e2 : (get_extension d == "tscn".toList) = false := by simpa using h2
  have e3 : (get_extension d == "tres".toList) = false := by simpa using h3
  rw [e1, e2, e3]
  simp

theorem check_dependency_files (env : Env) (p : Panel) (i : Nat) (dep k : Str) (hk : k ≠ dep) :
    (check_dependency env (p, i) dep).1.storage.file_exists k = p.storage.file_exists k := by
  unfold check_dependency
  dsimp only
  repeat' split
  all_goals first
    | rfl
    | exact placeholder_resource_files p dep k hk

theorem mem_insert_at (v : List Str) (i : Nat) (x k : Str) :
    k ∈ insert_at v i x ↔ (k = x ∨ k ∈ v) := by
  unfold insert_at
  rw [List.mem_append, List.mem_cons]
  constructor
  · rintro (h | h | h)
    · exact Or.inr (List.mem_of_mem_take h)
    · exact Or.inl h
    · exact Or.inr (List.mem_of_mem_drop h)
  · rintro (h | h)
    · exact Or.inr (Or.inl h)
    · have := List.take_append_drop i v
      rw [← this] at h
      rcases List.mem_append.mp h with h1 | h1
      · exact Or.inl h1
      · exact Or.inr (Or.inr h1)

theorem check_dependency_mem (env : Env) (p : Panel) (i : Nat) (d k : Str)
    (h : k ∈ p.processing_order) : k ∈ (check_dependency env (p, i) d).1.processing_order := by
  rcases check_dependency_cases env p i d with ⟨_, h2, _⟩ | ⟨_, _, h2, _⟩
  · rw [h2]; exact h
  · rw [h2]; exact (mem_insert_at _ _ _ _).mpr (Or.inr h)

theorem foldl_check_mem (env : Env) (k : Str) :
    ∀ (deps : List Str) (st : Panel × Nat), k ∈ st.1.processing_order →
      k ∈ (deps.foldl (check_dependency env) st).1.processing_order := by
  intro deps
  induction deps with
  | nil => intro st h; exact h
  | cons d r ih =>
    intro st h
    simp only [List.foldl_cons]
    exact ih _ (check_dependency_mem env st.1 st.2 d k h)

/-- An invariant of the panel that the inner loop body keeps, and that the
apply block keeps for a path of the order, holds when the walk ends. -/
theorem walk_invariant_mem (env : Env) (Inv : Panel → Prop)
    (hcheck : ∀ p i d, Inv p → Inv (check_dependency env (p, i) d).1)
    (happly : ∀ p path, path ∈ p.processing_order → Inv p → Inv (apply_entry env p path)) :
    ∀ (fuel : Nat) (p : Panel) (i : Nat) (q : Panel),
      Inv p → walk env fuel p i = some q → Inv q := by
  intro fuel
  induction fuel with
  | zero => intro p i q _ h; simp [walk] at h
  | succ n ih =>
    intro p i q hp h
    unfold walk at h
    by_cases hi : i < p.processing_order.length
    · simp only [hi, if_true] at h
      refine ih _ _ q ?_ h
      unfold walk_step
      dsimp only
      apply happly
      · apply foldl_check_mem
        rw [List.getD_eq_getElem _ _ hi]
        exact List.getElem_mem hi
      · exact foldl_check_invariant env Inv hcheck _ (p, i) hp
    · simp only [hi, if_false] at h
      cases h; exact hp

theorem materialize_files (env : Env) (p : Panel) (path k : Str)
    (hk : k ≠ (Table.at p.pending_dependencies path).path) :
    (materialize env p path).storage.file_exists k = p.storage.file_exists k := by
  unfold materialize
  dsimp only
  repeat' split
  · exact auto_apply_files p _ _ k hk
  · exact auto_apply_files _ _ _ k hk
  · exact placeholder_scene_files env p _ k hk
  · exact placeholder_resource_files p _ k hk
  · rfl

theorem apply_entry_files (env : Env) (p : Panel) (path k : Str)
    (hk : k ≠ (Table.at p.pending_dependencies path).path) :
    (apply_entry env p path).storage.file_exists k = p.storage.file_exists k := by
  unfold apply_entry
  dsimp only
  split
  · exact materialize_files env p path k hk
  · rfl

/-- Every entry of the table after the apply block stems from an entry under
the same key with the same path, or is the entry of the applied path. -/
theorem apply_entry_get? (env : Env) (p : Panel) (path k : Str) (e2 : DependencyInfo)
    (h : Map.get? (apply_entry env p path).pending_dependencies k = some e2) :
    (∃ e, Map.get? p.pending_dependencies k = some e ∧ e2.path = e.path)
    ∨ (k = path ∧ e2.path = (Table.at p.pending_dependencies path).path) := by
  unfold apply_entry at h
  dsimp only at h
  by_cases hc : (!(Table.at p.pending_dependencies path).created) = true
  · rw [if_pos hc] at h
    dsimp only at h
    by_cases hk : k = path
    · right
      subst hk
      rw [Map.get?_set_self] at h
      simp only [Option.some.injEq] at h
      refine ⟨rfl, ?_⟩
      rw [← h]
      dsimp only
      rcases (materialize_table env p k).2 with h1 | ⟨_, code, h1⟩
      · rw [h1]
      · rw [h1, Table.at_set_self]
    · left
      rw [Map.get?_set_ne _ _ _ _ hk] at h
      rcases (materialize_table env p path).2 with h1 | ⟨_, code, h1⟩
      · rw [h1] at h; exact ⟨e2, h, rfl⟩
      · rw [h1, Map.get?_set_ne _ _ _ _ hk] at h; exact ⟨e2, h, rfl⟩
  · rw [if_neg hc] at h
    exact Or.inl ⟨e2, h, rfl⟩

theorem upgrade_scenes_path (env : Env) :
    ∀ (t : Table) (seeds : Nat) (k : Str),
      (Map.get? (upgrade_scenes env t seeds).1 k).map (fun e => e.path)
        = (Map.get? t k).map (fun e => e.path) := by
  intro t
  induction t with
  | nil => intro seeds k; rfl
  | cons E r ih =>
    intro seeds k
    unfold upgrade_scenes
    by_cases hc : (E.2.type == "scene".toList && !E.2.code.isEmpty
        && find E.2.code "format=2".toList != -1) = true
    · rw [if_pos hc]
      dsimp only
      by_cases hk : (E.1 == k) = true
      · simp only [Map.get?, hk, if_true, Option.map_some']
      · simp only [Map.get?, hk, if_false]
        exact ih (seeds + 1) k
    · rw [if_neg hc]
      dsimp only
      by_cases hk : (E.1 == k) = true
      · simp only [Map.get?, hk, if_true, Option.map_some']
      · simp only [Map.get?, hk, if_false]
        exact ih seeds k

theorem Map.has_of_mem {V : Type} (m : Map V) (E : Str × V) (h : E ∈ m) :
    Map.has m E.1 = true := by
  unfold Map.has
  exact List.any_eq_true.mpr ⟨E, h, by simp⟩

theorem build_order_has (t : Table) : ∀ k ∈ build_order t, Map.has t k = true := by
  intro k hk
  unfold build_order at hk
  rcases List.mem_append.mp hk with h | h
  · rcases List.mem_append.mp h with h | h
    · unfold resource_keys at h
      obtain ⟨E, hE, rfl⟩ := List.mem_map.mp h
      exact Map.has_of_mem t E (List.mem_filter.mp hE).1
    · unfold script_keys at h
      obtain ⟨E, hE, rfl⟩ := List.mem_map.mp h
      exact Map.has_of_mem t E (List.mem_filter.mp hE).1
  · obtain ⟨pr, hpr, rfl⟩ := List.mem_map.mp h
    rw [sort_custom_mem] at hpr
    unfold scene_pairs at hpr
    obtain ⟨E, hE, rfl⟩ := List.mem_map.mp hpr
    exact Map.has_of_mem t E (List.mem_filter.mp hE).1

theorem check_dependency_untouched (env : Env) (d : Str)
    (h1 : get_extension d ≠ "gd".toList) (h2 : get_extension d ≠ "tscn".toList)
    (h3 : get_extension d ≠ "tres".toList)
    (p : Panel) (i : Nat) (dep : Str) (h : untouched d p) :
    untouched d (check_dependency env (p, i) dep).1 := by
  by_cases hne : d = dep
  · subst hne
    rw [check_dependency_other env p i d h1 h2 h3]
    exact h
  · obtain ⟨ha, hb, hc, hd⟩ := h
    have hfile : (check_dependency env (p, i) dep).1.storage.file_exists d = false := by
      rw [check_dependency_files env p i dep d hne]; exact hb
    cases hs : spliced p dep with
    | true =>
      obtain ⟨ho, _, _, v, _, hvp, htab⟩ := check_dependency_spliced env p i dep hs
      refine ⟨?_, hfile, ?_, ?_⟩
      · rw [htab, Map.has_set_ne _ _ _ _ hne]; exact ha
      · intro k e hg
        rw [htab] at hg
        by_cases hk : k = dep
        · subst hk
          rw [Map.get?_set_self] at hg
          simp only [Option.some.injEq] at hg
          rw [← hg, hvp]
          exact fun he => hne he.symm
        · rw [Map.get?_set_ne _ _ _ _ hk] at hg
          exact hc k e hg
      · intro k hk
        rw [ho] at hk
        rw [htab]
        rcases (mem_insert_at _ _ _ _).mp hk with h | h
        · rw [h]; exact Map.has_set_self _ _ _
        · exact Map.has_set_of_has _ _ _ _ (hd k h)
    | false =>
      obtain ⟨ho, _, htab, _⟩ := check_dependency_not_spliced env p i dep hs
      refine ⟨by rw [htab]; exact ha, hfile, by rw [htab]; exact hc, ?_⟩
      intro k hk
      rw [ho] at hk
      rw [htab]
      exact hd k hk

theorem apply_entry_untouched (env : Env) (d : Str) (p : Panel) (path : Str)
    (hp : path ∈ p.processing_order) (h : untouched d p) :
    untouched d (apply_entry env p path) := by
  obtain ⟨ha, hb, hc, hd⟩ := h
  obtain ⟨e0, he0⟩ := (Map.has_iff_get? _ path).mp (hd path hp)
  have hpath : (Table.at p.pending_dependencies path).path ≠ d := by
    rw [Table.at_of_get? _ _ e0 he0]; exact hc path e0 he0
  have hext := apply_entry_extends env p path
  refine ⟨?_, ?_, ?_, ?_⟩
  · cases hh : Map.has (apply_entry env p path).pending_dependencies d
    · rfl
    · obtain ⟨e2, he2⟩ := (Map.has_iff_get? _ d).mp hh
      rcases apply_entry_get? env p path d e2 he2 with ⟨e, he, _⟩ | ⟨hk, _⟩
      · have := (Map.has_iff_get? _ d).mpr ⟨e, he⟩
        rw [ha] at this; cases this
      · subst hk
        rw [hd d hp] at ha; cases ha
  · rw [apply_entry_files env p path d (fun he => hpath he.symm)]; exact hb
  · intro k e2 hg
    rcases apply_entry_get? env p path k e2 hg with ⟨e, he, hpe⟩ | ⟨_, hpe⟩
    · rw [hpe]; exact hc k e he
    · rw [hpe]; exact hpath
  · intro k hk
    rw [apply_entry_order] at hk
    exact Extends.has hext k (hd k hk)

/-- A reference whose extension is none of `gd`, `tscn`, `tres`, that is neither
a key nor a file and at which no entry is written, is still neither a key nor a
file when `_process_dependencies`, called with an empty order, returns. -/
theorem process_leaves_unresolved (env : Env) (p : Panel) (d : Str)
    (h1 : get_extension d ≠ "gd".toList) (h2 : get_extension d ≠ "tscn".toList)
    (h3 : get_extension d ≠ "tres".toList)
    (hord : p.processing_order = [])
    (hkey : Map.has p.pending_dependencies d = false)
    (hfile : p.storage.file_exists d = false)
    (hpaths : ∀ E ∈ p.pending_dependencies, E.2.path ≠ d) :
    ∃ q, _process_dependencies env p = some q
      ∧ Map.has q.pending_dependencies d = false ∧ q.storage.file_exists d = false := by
  obtain ⟨q, hq⟩ := process_dependencies_total env p
  refine ⟨q, hq, ?_⟩
  unfold _process_dependencies at hq
  have hup := upgrade_scenes_extends env p.pending_dependencies p.seeds
  have h0 : untouched d (prepare env p) := by
    refine ⟨?_, hfile, ?_, ?_⟩
    · show Map.has (upgrade_scenes env p.pending_dependencies p.seeds).1 d = false
      rw [Map.has_eq_of_keys_eq _ _ hup.1 d]; exact hkey
    · intro k e hg
      have hg2 : Map.get? (upgrade_scenes env p.pending_dependencies p.seeds).1 k = some e := hg
      have hp := upgrade_scenes_path env p.pending_dependencies p.seeds k
      rw [hg2] at hp
      cases hg3 : Map.get? p.pending_dependencies k with
      | none => rw [hg3] at hp; cases hp
      | some e1 =>
        rw [hg3] at hp
        simp only [Option.map_some', Option.some.injEq] at hp
        rw [hp]
        exact hpaths (k, e1) (Map.mem_of_get? k e1 _ hg3)
    · intro k hk
      have hk2 : k ∈ p.processing_order
          ++ build_order (upgrade_scenes env p.pending_dependencies p.seeds).1 := hk
      rw [hord, List.nil_append] at hk2
      exact build_order_has _ k hk2
  have hfin := walk_invariant_mem env (untouched d)
    (fun p1 i dep h => check_dependency_untouched env d h1 h2 h3 p1 i dep h)
    (fun p1 path hp h => apply_entry_untouched env d p1 path hp h)
    _ (prepare env p) 0 q h0 hq
  exact ⟨hfin.1, hfin.2.1⟩

end VectorAIPanel

/-! ## Claims -/

namespace VectorAIPanel

/-- C1 (code evaluated on the `RigidBody` scene): upgrading the scene once gives
a node of type `RigidBody3D`; upgrading that output again gives
`RigidBody3D3D`, since the replacement of `RigidBody` by `RigidBody3D` finds
its key inside its own result. The two outputs differ. -/
theorem C1_upgrade_not_idempotent :
    _update_scene_format (fun k => 7 * k + 3) rigid_body_scene
      = "[gd_scene format=3 uid=\"uid://dkryFMT07elszGNU18fmtA\"]\n\n[node name=\"Crate\" type=\"RigidBody3D\"]\n".toList
    ∧ _update_scene_format (fun k => 7 * k + 3)
          (_update_scene_format (fun k => 7 * k + 3) rigid_body_scene)
      = "[gd_scene format=3 uid=\"uid://dkryFMT07elszGNU18fmtA\"]\n\n[node name=\"Crate\" type=\"RigidBody3D3D\"]\n".toList
    ∧ _update_scene_format (fun k => 7 * k + 3)
          (_update_scene_format (fun k => 7 * k + 3) rigid_body_scene)
      ≠ _update_scene_format (fun k => 7 * k + 3) rigid_body_scene := by
  decide

/-- C2 (code evaluated at Scenario B): the output declares `format=3` and
carries a generated `uid="uid://…"`, but its node type is `CharacterBody3D2D`:
`KinematicBody` is rewritten before `KinematicBody2D`, so the output does not
contain `type="CharacterBody2D"`. -/
theorem C2_scenario_B_node_type :
    _update_scene_format (fun k => 7 * k + 3) scenario_B_scene
      = "[gd_scene format=3 uid=\"uid://dkryFMT07elszGNU18fmtA\"]\n\n[node name=\"Enemy\" type=\"CharacterBody3D2D\"]\n".toList
    ∧ contains (_update_scene_format (fun k => 7 * k + 3) scenario_B_scene) "format=3".toList = true
    ∧ contains (_update_scene_format (fun k => 7 * k + 3) scenario_B_scene) "uid=\"uid://".toList = true
    ∧ contains (_update_scene_format (fun k => 7 * k + 3) scenario_B_scene)
        "type=\"CharacterBody2D\"".toList = false := by
  decide

/-- C3 (code evaluated at Scenario C): the walk splices the placeholder
`res://Player.gd` in front of `res://Main.tscn` and adds it to the table, but
the index has already moved past that position, so the placeholder is never
applied: when `_process_dependencies` returns, nothing is stored at
`res://Player.gd` and its created flag is still false. -/
theorem C3_spliced_placeholder_not_applied :
    outcome (_process_dependencies sample_env scenario_C_panel) "res://Player.gd".toList
      = some (["res://Player.gd".toList, "res://Main.tscn".toList], true, none, false) := by
  decide

/-- C4 (as stated, refuted): with two scenes in the table, the script
placeholder `res://Player.gd` is spliced in front of `res://Main.tscn` and so
stands after the scene `res://Arena.tscn`; the order left behind is not ordered
by kind. -/
theorem C4_spliced_script_after_scene :
    (_process_dependencies sample_env two_scene_panel).map
        (fun q => (q.processing_order, decide (ordered_by_kind q.pending_dependencies q.processing_order)))
      = some (["res://Arena.tscn".toList, "res://Player.gd".toList, "res://Main.tscn".toList], false) := by
  decide

/-- C4 (amended): `_process_dependencies` returns, and in the order it leaves
behind the paths that were keys of the table when it was called (all but the
placeholders spliced in during the walk) are ordered by kind: resources before
scripts before scenes, by the classification of the final table. And in every
iteration of the walk the placeholders `ps` synthesized for the entry at index
`i`, which are its declared references that are missing and have extension
`gd` or `tscn`, are inserted at index `i`: they stand immediately before that
entry, whatever their kind and whatever stands before them. -/
theorem C4_original_keys_ordered_by_kind (env : Env) (p : Panel)
    (hord : p.processing_order = []) (hkeys : (Map.keys p.pending_dependencies).Nodup) :
    (∃ q, _process_dependencies env p = some q
      ∧ ordered_by_kind q.pending_dependencies
          (q.processing_order.filter (fun k => Map.has p.pending_dependencies k)))
    ∧ ∀ (p1 : Panel) (i : Nat), i < p1.processing_order.length →
        ∃ ps : List Str,
          (∀ d, d ∈ ps
            ↔ (d ∈ (Table.at p1.pending_dependencies (p1.processing_order.getD i [])).dependencies
                ∧ spliced p1 d = true))
          ∧ (walk_step env p1 i).1.processing_order
              = p1.processing_order.take i ++ ps
                ++ p1.processing_order.getD i [] :: p1.processing_order.drop (i + 1) := by
  refine ⟨?_, ?_⟩
  swap
  · intro p1 i hi
    obtain ⟨ps, _, _, hord2, _, hmem, _⟩ := foldl_check_splices env
      (Table.at p1.pending_dependencies (p1.processing_order.getD i [])).dependencies p1 i
      (Nat.le_of_lt hi)
    refine ⟨ps, hmem, ?_⟩
    have hsplit : p1.processing_order.drop i
        = p1.processing_order.getD i [] :: p1.processing_order.drop (i + 1) := by
      rw [List.getD_eq_getElem _ _ hi]
      exact List.drop_eq_getElem_cons hi
    rw [← hsplit]
    unfold walk_step
    dsimp only
    rw [apply_entry_order]
    exact hord2
  · obtain ⟨q, hq⟩ := process_dependencies_total env p
    refine ⟨q, hq, ?_⟩
    unfold _process_dependencies at hq
    have hup := upgrade_scenes_extends env p.pending_dependencies p.seeds
    have hn0 : (Map.keys (prepare env p).pending_dependencies).Nodup := by
      show (Map.keys (upgrade_scenes env p.pending_dependencies p.seeds).1).Nodup
      rw [hup.1]; exact hkeys
    have hb := build_order_ordered (prepare env p).pending_dependencies hn0
    have horder : (prepare env p).processing_order = build_order (prepare env p).pending_dependencies := by
      show p.processing_order ++ _ = _
      rw [hord]; rfl
    have hfun : (fun k => Map.has p.pending_dependencies k)
        = (fun k => Map.has (prepare env p).pending_dependencies k) := by
      funext k
      exact (Map.has_eq_of_keys_eq _ _ hup.1 k).symm
    obtain ⟨hext, hfil⟩ := walk_keeps_original_order env (prepare env p).pending_dependencies
      (build_order (prepare env p).pending_dependencies) _ (prepare env p) 0 q
      ⟨Extends.refl _, by rw [horder]; exact filter_of_forall _ _ hb.1⟩ hq
    rw [hfun, hfil]
    have htype : ∀ a ∈ build_order (prepare env p).pending_dependencies,
        (Table.at q.pending_dependencies a).type = (Table.at (prepare env p).pending_dependencies a).type := by
      intro a ha
      obtain ⟨e, he⟩ := (Map.has_iff_get? _ a).mp (hb.1 a ha)
      obtain ⟨e2, g2, ty, _⟩ := hext a e he
      rw [Table.at_of_get? _ a e2 g2, Table.at_of_get? _ a e he, ty]
    unfold ordered_by_kind at hb ⊢
    refine List.Pairwise.imp_of_mem ?_ hb.2
    intro a b ha hb2 hab
    rw [htype a ha, htype b hb2]
    exact hab

/-- Witness of C4 (amended): a table with a resource, a script and two scenes,
one of which refers to a missing script. The script placeholder ends up
between the two scenes, and the four original keys are ordered by kind. -/
theorem C4_original_keys_ordered_by_kind_witness :
    mixed_kind_panel.processing_order = []
    ∧ (Map.keys mixed_kind_panel.pending_dependencies).Nodup
    ∧ (_process_dependencies sample_env mixed_kind_panel).map (fun q =>
          (q.processing_order,
            q.processing_order.filter (fun k => Map.has mixed_kind_panel.pending_dependencies k),
            (q.processing_order.filter
              (fun k => Map.has mixed_kind_panel.pending_dependencies k)).map
                (fun k => (Table.at q.pending_dependencies k).type)))
        = some (["res://theme.tres".toList, "res://tool.gd".toList, "res://Arena.tscn".toList,
              "res://Player.gd".toList, "res://Main.tscn".toList],
            ["res://theme.tres".toList, "res://tool.gd".toList, "res://Arena.tscn".toList,
              "res://Main.tscn".toList],
            ["resource".toList, "script".toList, "scene".toList, "scene".toList])
    ∧ ∃ q, _process_dependencies sample_env mixed_kind_panel = some q
      ∧ ordered_by_kind q.pending_dependencies
          (q.processing_order.filter (fun k => Map.has mixed_kind_panel.pending_dependencies k)) :=
  ⟨rfl, by decide, by decide, (C4_original_keys_ordered_by_kind sample_env mixed_kind_panel rfl (by decide)).1⟩

/-- C5 (code evaluated on a table where `res://a.tscn` is referenced once and
`res://b.tscn` never): the pairs handed to the sort are (path, count) and
`PairSort` compares the paths first, so the scenes come out in path order:
`res://a.tscn` with count 1 is placed before `res://b.tscn` with count 0. -/
theorem C5_scenes_sorted_by_path :
    scene_pairs referenced_scene_table = [("res://b.tscn".toList, 0), ("res://a.tscn".toList, 1)]
    ∧ build_order referenced_scene_table = ["res://a.tscn".toList, "res://b.tscn".toList] := by
  decide

/-- C6: scanning the same response a second time, storage unchanged, leaves
the panel, and so the table, exactly as the first scan left it. -/
theorem C6_scan_idempotent (p : Panel) (p_response : Str) :
    _scan_for_dependencies (_scan_for_dependencies p p_response) p_response
      = _scan_for_dependencies p p_response := by
  unfold _scan_for_dependencies
  exact foldl_track_of_tracked _ _ (foldl_track_tracks (scan_candidates p_response) p)

/-- C7: for a path `k` that is a key of the table with entry `e`: the scanner
leaves the entry as it is; the inner loop of the walk does nothing for `k` as a
dependency (it inserts placeholders only for paths that are not keys); and the
walk as a whole ends with `k` still a key whose code, when it was not empty, is
unchanged. -/
theorem C7_placeholders_never_replace (env : Env) (p : Panel) (p_response k : Str)
    (e : DependencyInfo) (h : Map.get? p.pending_dependencies k = some e) :
    Map.get? (_scan_for_dependencies p p_response).pending_dependencies k = some e
    ∧ (∀ i, check_dependency env (p, i) k = (p, i))
    ∧ ∃ q, walk env (p.processing_order.length + 1) p 0 = some q
        ∧ ∃ e2, Map.get? q.pending_dependencies k = some e2
          ∧ (e.code ≠ [] → e2.code = e.code) := by
  have hk : Map.has p.pending_dependencies k = true := (Map.has_iff_get? _ k).mpr ⟨e, h⟩
  refine ⟨?_, fun i => check_dependency_of_has env p i k hk, ?_⟩
  · unfold _scan_for_dependencies
    rw [foldl_track_get?_frame _ p k hk]; exact h
  · obtain ⟨q, hq⟩ := walk_total env (p.processing_order.length + 1) p 0 (by omega)
    refine ⟨q, hq, ?_⟩
    have hext : Extends p.pending_dependencies q.pending_dependencies :=
      walk_invariant env (fun p1 => Extends p.pending_dependencies p1.pending_dependencies)
        (fun p1 i d h1 => Extends.trans h1 (check_dependency_extends env p1 i d))
        (fun p1 path h1 => Extends.trans h1 (apply_entry_extends env p1 path))
        _ p 0 q (Extends.refl _) hq
    obtain ⟨e2, g2, _, _, _, hcode, _⟩ := hext k e h
    exact ⟨e2, g2, hcode⟩

/-- Witness of C7: the scene entry of Scenario C when the walk starts. -/
theorem C7_placeholders_never_replace_witness :
    Map.get? (prepare sample_env scenario_C_panel).pending_dependencies "res://Main.tscn".toList
      = some main_scene_entry
    ∧ (Map.get? (_scan_for_dependencies (prepare sample_env scenario_C_panel)
          "We need a script called Main.tscn".toList).pending_dependencies "res://Main.tscn".toList
        = some main_scene_entry
      ∧ (∀ i, check_dependency sample_env (prepare sample_env scenario_C_panel, i)
            "res://Main.tscn".toList = (prepare sample_env scenario_C_panel, i))
      ∧ ∃ q, walk sample_env ((prepare sample_env scenario_C_panel).processing_order.length + 1)
            (prepare sample_env scenario_C_panel) 0 = some q
          ∧ ∃ e2, Map.get? q.pending_dependencies "res://Main.tscn".toList = some e2
            ∧ (main_scene_entry.code ≠ [] → e2.code = main_scene_entry.code)) :=
  ⟨by decide, C7_placeholders_never_replace sample_env (prepare sample_env scenario_C_panel)
    "We need a script called Main.tscn".toList "res://Main.tscn".toList main_scene_entry (by decide)⟩

/-- C8 (as stated, refuted): for the hint `res://res://a.gd` the fast extractor
keeps the path as it is, so what follows the prefix begins with `res://` again. -/
theorem C8_doubled_prefix_kept :
    (_extract_code_blocks_fast sample_env doubled_prefix_response []).2.map
        (fun b => (b.file_path, begins_with (b.file_path.drop 6) "res://".toList))
      = [("res://res://a.gd".toList, true)] := by
  decide

/-- C8 (amended): for every hint, the path of the fast extractor and the path
of the two legacy extractors begin with `res://`. What follows the prefix
begins with `res://` again exactly when the hint begins with `res://res://`
(fast extractor), respectively with `res://res://` or `/res://` (legacy
extractors). A hint that begins with `res://` is kept as it is by both
normalizations, so a hint that carries the marker twice keeps it twice. -/
theorem C8_normalized_path_prefix (h : Str) :
    begins_with (fast_normalize h) "res://".toList = true
    ∧ begins_with (legacy_normalize h) "res://".toList = true
    ∧ (begins_with ((fast_normalize h).drop 6) "res://".toList = true
        ↔ begins_with h "res://res://".toList = true)
    ∧ (begins_with ((legacy_normalize h).drop 6) "res://".toList = true
        ↔ (begins_with h "res://res://".toList = true ∨ begins_with h "/res://".toList = true))
    ∧ (begins_with h "res://".toList = true → fast_normalize h = h ∧ legacy_normalize h = h) := by
  have hdrop : ∀ r : Str, ("res://".toList ++ r).drop 6 = r := fun r => rfl
  have e2 : "res://res://".toList = "res://".toList ++ "res://".toList := rfl
  have e3 : "/res://".toList = "/".toList ++ "res://".toList := rfl
  by_cases hb : begins_with h "res://".toList = true
  · have he := eq_append_of_begins_with h _ hb
    have hslash : begins_with h "/".toList = false := by rw [he]; rfl
    have hns : begins_with h "/res://".toList = false := by rw [he]; rfl
    have hf : fast_normalize h = h := by
      unfold fast_normalize; rw [hb]; rfl
    have hl : legacy_normalize h = h := by
      unfold legacy_normalize; rw [hb, hslash]; rfl
    have hrem : begins_with (h.drop 6) "res://".toList = begins_with h "res://res://".toList := by
      have h2 : begins_with h ("res://".toList ++ "res://".toList)
          = begins_with ("res://".toList ++ List.drop "res://".toList.length h)
              ("res://".toList ++ "res://".toList) :=
        congrArg (fun s => begins_with s ("res://".toList ++ "res://".toList)) he
      rw [begins_with_append_iff] at h2
      exact h2.symm
    rw [hf, hl, hrem, hns]
    exact ⟨hb, hb, Iff.rfl, by simp, fun _ => ⟨rfl, rfl⟩⟩
  · have hb2 := begins_with_false_of_not _ _ hb
    have hd : begins_with h "res://res://".toList = false := by
      cases hh : begins_with h "res://res://".toList
      · rfl
      · exfalso; apply hb
        unfold begins_with at hh ⊢
        obtain ⟨t, ht⟩ := List.isPrefixOf_iff_prefix.mp hh
        exact List.isPrefixOf_iff_prefix.mpr ⟨"res://".toList ++ t, by rw [← ht]; rfl⟩
    have hf : fast_normalize h = "res://".toList ++ h := by
      unfold fast_normalize; rw [hb2]; rfl
    rw [hf, hdrop, hb2, hd]
    refine ⟨begins_with_append _ _, ?_, by simp, ?_, fun hh => absurd hh (by decide)⟩
    · exact legacy_normalize_res h
    · by_cases hs : begins_with h "/".toList = true
      · have hl : legacy_normalize h = "res://".toList ++ substrFrom h 1 := by
          unfold legacy_normalize; rw [hb2, hs]; rfl
        have he := eq_append_of_begins_with h _ hs
        have h3 : begins_with h "/res://".toList = begins_with (substrFrom h 1) "res://".toList := by
          have h4 : begins_with h ("/".toList ++ "res://".toList)
              = begins_with ("/".toList ++ List.drop "/".toList.length h)
                  ("/".toList ++ "res://".toList) :=
            congrArg (fun s => begins_with s ("/".toList ++ "res://".toList)) he
          rw [begins_with_append_iff] at h4
          exact h4
        rw [hl, hdrop, h3]
        simp
      · have hs2 := begins_with_false_of_not _ _ hs
        have hl : legacy_normalize h = "res://".toList ++ h := by
          unfold legacy_normalize; rw [hb2, hs2]; rfl
        have hns : begins_with h "/res://".toList = false := by
          cases hh : begins_with h "/res://".toList
          · rfl
          · exfalso; apply hs
            unfold begins_with at hh ⊢
            obtain ⟨t, ht⟩ := List.isPrefixOf_iff_prefix.mp hh
            exact List.isPrefixOf_iff_prefix.mpr ⟨"res://".toList ++ t, by rw [← ht]; rfl⟩
        rw [hl, hdrop, hb2, hns]
        simp

/-- Witness of C8 (amended): the relative hint `scenes/level.tscn` gets the
prefix once; the hint `res://res://a.gd` is kept with the marker twice. -/
theorem C8_normalized_path_prefix_witness :
    fast_normalize "scenes/level.tscn".toList = "res://scenes/level.tscn".toList
    ∧ legacy_normalize "scenes/level.tscn".toList = "res://scenes/level.tscn".toList
    ∧ begins_with "res://res://a.gd".toList "res://".toList = true
    ∧ (fast_normalize "res://res://a.gd".toList = "res://res://a.gd".toList
      ∧ legacy_normalize "res://res://a.gd".toList = "res://res://a.gd".toList)
    ∧ (begins_with ((fast_normalize "scenes/level.tscn".toList).drop 6) "res://".toList = true
        ↔ begins_with "scenes/level.tscn".toList "res://res://".toList = true) :=
  ⟨by decide, by decide, by decide,
    ( C8_normalized_path_prefix "res://res://a.gd".toList).2.2.2.2 (by decide),
    ( C8_normalized_path_prefix "scenes/level.tscn".toList).2.2.1⟩

/-- C9 (code evaluated on absolute hints): the legacy normalization rebases
`/p` to `res://p`, but the fast extractor only prepends the prefix and yields
`res:///p`; for the response with `File: /scenes/a.gd` its block gets the path
`res:///scenes/a.gd`. -/
theorem C9_fast_extractor_keeps_leading_slash :
    (∀ p : Str, legacy_normalize ('/' :: p) = "res://".toList ++ p
      ∧ fast_normalize ('/' :: p) = "res:///".toList ++ p
      ∧ fast_normalize ('/' :: p) ≠ "res://".toList ++ p)
    ∧ (_extract_code_blocks_fast sample_env absolute_hint_response []).2.map (fun b => b.file_path)
        = ["res:///scenes/a.gd".toList] := by
  refine ⟨fun p => ⟨by simp [legacy_normalize, begins_with, substrFrom], rfl, ?_⟩, by decide⟩
  intro h
  have h6 := congrArg (fun s : Str => (s.drop 6).length) h
  have e1 : (fast_normalize ('/' :: p)).drop 6 = '/' :: p := rfl
  have e2 : ("res://".toList ++ p).drop 6 = p := rfl
  simp only [e1, e2, List.length_cons] at h6
  omega

/-- C10: when the write succeeds, that is when the directory had not to be
created or could be created and the file could be opened, the target holds the
code afterwards and `_auto_apply_changes` adds exactly one message:
`Successfully created <file>` when the target was absent from storage before
the call, `Successfully updated <file>` when it was present. -/
theorem C10_success_reports_created_or_updated (p : Panel) (p_code p_target_file : Str)
    (hdir : (!(get_base_dir p_target_file).isEmpty
        && !p.storage.dir_exists (get_base_dir p_target_file)) = true
      → p.storage.mkdirErr (get_base_dir p_target_file) = 0)
    (hopen : p.storage.openErr p_target_file = 0) :
    (_auto_apply_changes p p_code p_target_file).storage.read p_target_file = some p_code
    ∧ (p.storage.file_exists p_target_file = false →
        (_auto_apply_changes p p_code p_target_file).messages
          = p.messages ++ ["Successfully created ".toList ++ get_file p_target_file])
    ∧ (p.storage.file_exists p_target_file = true →
        (_auto_apply_changes p p_code p_target_file).messages
          = p.messages ++ ["Successfully updated ".toList ++ get_file p_target_file]) := by
  have hmk : ∀ c : Bool, (c = true → p.storage.mkdirErr (get_base_dir p_target_file) = 0) →
      (if c = true then p.storage.make_dir_recursive (get_base_dir p_target_file)
        else (0, p.storage)).1 = 0
      ∧ (if c = true then p.storage.make_dir_recursive (get_base_dir p_target_file)
        else (0, p.storage)).2.openErr = p.storage.openErr
      ∧ (if c = true then p.storage.make_dir_recursive (get_base_dir p_target_file)
        else (0, p.storage)).2.files = p.storage.files := by
    intro c hc
    cases c
    · exact ⟨rfl, rfl, rfl⟩
    · unfold Storage.make_dir_recursive
      rw [if_pos (hc rfl), if_pos rfl]
      exact ⟨rfl, rfl, rfl⟩
  have h := hmk _ hdir
  unfold _auto_apply_changes Panel._add_claude_message
  dsimp only
  generalize (if (!(get_base_dir p_target_file).isEmpty
      && !p.storage.dir_exists (get_base_dir p_target_file)) = true
      then p.storage.make_dir_recursive (get_base_dir p_target_file) else (0, p.storage)) = mk at h ⊢
  have ho : mk.2.open_write p_target_file = (0, mk.2) := by
    have e : mk.2.openErr p_target_file = 0 := by rw [h.2.1]; exact hopen
    unfold Storage.open_write
    rw [e]
  have hex : mk.2.file_exists p_target_file = p.storage.file_exists p_target_file := by
    unfold Storage.file_exists
    rw [h.2.2]
  rw [if_neg (by rw [h.1]; exact fun hh => hh rfl), ho, if_neg (fun hh => hh rfl)]
  dsimp only
  rw [hex]
  refine ⟨Map.get?_set_self _ _ _, ?_, ?_⟩
  · intro hf
    rw [hf]
    rfl
  · intro hf
    rw [hf]
    rfl

/-- Witness of C10: writing `res://a.gd` to the empty storage, where the target
does not exist before the call, reports `created`; writing it once more
reports `updated`. -/
theorem C10_success_reports_created_or_updated_witness :
    scenario_C_panel.storage.file_exists "res://a.gd".toList = false
    ∧ (_auto_apply_changes scenario_C_panel "extends Node\n".toList "res://a.gd".toList).messages
        = ["Successfully created a.gd".toList]
    ∧ (_auto_apply_changes
          (_auto_apply_changes scenario_C_panel "extends Node\n".toList "res://a.gd".toList)
          "extends Node2D\n".toList "res://a.gd".toList).messages
        = ["Successfully created a.gd".toList, "Successfully updated a.gd".toList]
    ∧ (_auto_apply_changes scenario_C_panel "extends Node\n".toList "res://a.gd".toList).storage.read
          "res://a.gd".toList = some "extends Node\n".toList
    ∧ (scenario_C_panel.storage.file_exists "res://a.gd".toList = false →
        (_auto_apply_changes scenario_C_panel "extends Node\n".toList "res://a.gd".toList).messages
          = scenario_C_panel.messages
            ++ ["Successfully created ".toList ++ get_file "res://a.gd".toList]) :=
  ⟨by decide, by decide, by decide,
    (C10_success_reports_created_or_updated scenario_C_panel "extends Node\n".toList
      "res://a.gd".toList (fun _ => rfl) rfl).1,
    (C10_success_reports_created_or_updated scenario_C_panel "extends Node\n".toList
      "res://a.gd".toList (fun _ => rfl) rfl).2.1⟩

/-- C11: `_validate_tscn_code` accepts exactly the codes that begin with
`[gd_scene`, contain `format=3` and contain `[node`; and `_apply_code_block`
called with type `scene` and a code that fails the check returns false and
leaves the panel, so its storage, as it was. -/
theorem C11_scene_validation (p : Panel) (p_code p_file_path : Str)
    (h : _validate_tscn_code p_code = false) :
    (∀ code : Str, _validate_tscn_code code = true
      ↔ (begins_with code "[gd_scene".toList = true ∧ contains code "format=3".toList = true
          ∧ contains code "[node".toList = true))
    ∧ _apply_code_block p p_code p_file_path "scene".toList = (false, p) := by
  refine ⟨validate_tscn_iff, ?_⟩
  unfold _apply_code_block
  simp [h]

/-- Witness of C11: the block of Scenario B, which declares `format=2`, is
rejected. -/
theorem C11_scene_validation_witness :
    _validate_tscn_code scenario_B_scene = false
    ∧ ((∀ code : Str, _validate_tscn_code code = true
        ↔ (begins_with code "[gd_scene".toList = true ∧ contains code "format=3".toList = true
            ∧ contains code "[node".toList = true))
      ∧ _apply_code_block scenario_C_panel scenario_B_scene "res://Enemy.tscn".toList "scene".toList
          = (false, scenario_C_panel)) :=
  ⟨by decide, C11_scene_validation scenario_C_panel scenario_B_scene "res://Enemy.tscn".toList
    (by decide)⟩

/-- C12: `_process_and_apply_code` attempts every extracted block in order,
each on the storage left by the blocks before it, whatever their outcome;
`r_modified_files` receives, in order, the file names of exactly the blocks
whose `_apply_code_block` succeeded; and the function returns true if and only
if at least one block was extracted and none failed. -/
theorem C12_failing_block_does_not_stop_others (env : Env) (p : Panel) (p_response : Str)
    (r_modified_files : List Str) :
    (attempts p (_extract_code_blocks_fast env p_response []).2).map (fun a => a.1)
      = (_extract_code_blocks_fast env p_response []).2
    ∧ (_process_and_apply_code env p p_response r_modified_files).2.1
      = r_modified_files
        ++ ((attempts p (_extract_code_blocks_fast env p_response []).2).filter (fun a => a.2)).map
            (fun a => get_file a.1.file_path)
    ∧ ((_process_and_apply_code env p p_response r_modified_files).1 = true
      ↔ ((_extract_code_blocks_fast env p_response []).2 ≠ []
        ∧ ∀ a ∈ attempts p (_extract_code_blocks_fast env p_response []).2, a.2 = true)) := by
  refine ⟨attempts_blocks _ p, ?_⟩
  have hflag := extract_fast_flag env p_response
  unfold _process_and_apply_code
  dsimp only
  cases hbs : (_extract_code_blocks_fast env p_response []).2 with
  | nil =>
    rw [hbs] at hflag
    simp [hflag, attempts]
  | cons b rest =>
    rw [hbs] at hflag
    have hf : (_extract_code_blocks_fast env p_response []).1 = true := by simpa using hflag
    obtain ⟨h1, h2⟩ := foldl_apply_block_step (b :: rest) true r_modified_files p
    simp only [hf, Bool.not_true, Bool.false_eq_true, if_false, hbs]
    rw [h1, h2]
    simp

/-- C13 (counterexample): the scene block of `icon_scene_response` reaches
`_process_dependencies` as the entry `res://main.tscn` declaring the reference
`res://icon.png`, which is neither on storage nor in the table; the entry is
walked, and when `_detect_code_changes` returns the table has no entry for
`res://icon.png` and no file has been written at that path. -/
theorem C13_image_reference_left_unresolved :
    (collect_dependencies sample_env blank_panel icon_scene_response).map
        (fun t => (t.pending_dependencies.map (fun E => (E.1, E.2.dependencies)),
          t.storage.file_exists "res://icon.png".toList))
      = some ([("res://main.tscn".toList, ["res://icon.png".toList])], false)
    ∧ (match collect_dependencies sample_env blank_panel icon_scene_response with
        | some t => outcome (_process_dependencies sample_env t) "res://icon.png".toList
        | none => none)
      = some (["res://main.tscn".toList], false, none, false) := by
  decide

/-- C13 (amended): `_process_dependencies` returns, and for every entry of the
order the walk starts with and every reference `d` the entry declares, if the
extension of `d` is `gd` or `tscn`, or it is `tres` and the storage lets the
directory of `d` be created and `d` be opened, then afterwards `d` is a key of
the table or a file on storage. For a reference with any other extension the
dependency check does nothing: the panel, so table, order, storage and
messages, and the walk index stay as they were. And such a path that is
neither a key nor a file, and that no entry of the table has as its path, is
still neither a key nor a file when `_process_dependencies`, called with an
empty order, returns. -/
theorem C13_resolvable_references_resolved (env : Env) (p : Panel) :
    (∃ q, _process_dependencies env p = some q
      ∧ ∀ k ∈ (prepare env p).processing_order,
          ∀ d ∈ (Table.at (prepare env p).pending_dependencies k).dependencies,
            (get_extension d = "gd".toList ∨ get_extension d = "tscn".toList
              ∨ (get_extension d = "tres".toList ∧ p.storage.mkdirErr (get_base_dir d) = 0
                  ∧ p.storage.openErr d = 0)) →
            (Map.has q.pending_dependencies d = true ∨ q.storage.file_exists d = true))
    ∧ (∀ (p1 : Panel) (i : Nat) (d : Str),
        get_extension d ≠ "gd".toList → get_extension d ≠ "tscn".toList →
        get_extension d ≠ "tres".toList →
        check_dependency env (p1, i) d = (p1, i))
    ∧ (∀ d : Str,
        get_extension d ≠ "gd".toList → get_extension d ≠ "tscn".toList →
        get_extension d ≠ "tres".toList →
        p.processing_order = [] →
        Map.has p.pending_dependencies d = false → p.storage.file_exists d = false →
        (∀ E ∈ p.pending_dependencies, E.2.path ≠ d) →
        ∃ q, _process_dependencies env p = some q
          ∧ Map.has q.pending_dependencies d = false ∧ q.storage.file_exists d = false) :=
  ⟨process_resolves env p,
    fun p1 i d h1 h2 h3 => check_dependency_other env p1 i d h1 h2 h3,
    fun d h1 h2 h3 hord hkey hfile hpaths =>
      process_leaves_unresolved env p d h1 h2 h3 hord hkey hfile hpaths⟩

/-- Witness of C13 (amended): in Scenario C the reference `res://Player.gd` of
the walked scene `res://Main.tscn` is a key of the table or a file afterwards;
the table collected for `icon_scene_response` is that of `icon_scene_panel`,
and there the reference `res://icon.png` is neither a key nor a file after the
run. -/
theorem C13_resolvable_references_resolved_witness :
    (∃ q, _process_dependencies sample_env scenario_C_panel = some q
      ∧ (Map.has q.pending_dependencies "res://Player.gd".toList = true
          ∨ q.storage.file_exists "res://Player.gd".toList = true))
    ∧ (collect_dependencies sample_env blank_panel icon_scene_response).map
          (fun t => t.pending_dependencies)
        = some icon_scene_panel.pending_dependencies
    ∧ check_dependency sample_env (icon_scene_panel, 0) "res://icon.png".toList
        = (icon_scene_panel, 0)
    ∧ (∃ q, _process_dependencies sample_env icon_scene_panel = some q
      ∧ Map.has q.pending_dependencies "res://icon.png".toList = false
      ∧ q.storage.file_exists "res://icon.png".toList = false) :=
  ⟨match (C13_resolvable_references_resolved sample_env scenario_C_panel).1 with
    | ⟨q, hq, h⟩ =>
      ⟨q, hq, h "res://Main.tscn".toList (by decide) "res://Player.gd".toList (by decide)
        (Or.inl (by decide))⟩,
    by decide,
    (C13_resolvable_references_resolved sample_env icon_scene_panel).2.1 icon_scene_panel 0
      "res://icon.png".toList (by decide) (by decide) (by decide),
    (C13_resolvable_references_resolved sample_env icon_scene_panel).2.2
      "res://icon.png".toList (by decide) (by decide) (by decide) rfl (by decide) (by decide)
      (by decide)⟩

/-- C14: whenever `_detect_code_changes` reaches `_process_dependencies`, the
call returns and every key of the table the order was built from is marked
created afterwards, on any storage, so also when directory creation or file
opening fails; and a created flag that is set stays set through every step of
the run: the scene upgrade, each dependency check, each materialization and
each apply block. -/
theorem C14_created_after_run (env : Env) (p : Panel) (p_response : Str)
    (h : (collect_dependencies env p p_response).isSome = true) :
    ∃ t q, collect_dependencies env p p_response = some t
      ∧ _process_dependencies env t = some q
      ∧ _detect_code_changes env p p_response = some q
      ∧ (∀ k, Map.has (prepare env t).pending_dependencies k = true → created_at q k = true)
      ∧ (∀ (p1 : Panel) (k : Str), created_at p1 k = true →
          created_at (prepare env p1) k = true
          ∧ (∀ i d, created_at (check_dependency env (p1, i) d).1 k = true)
          ∧ (∀ path, created_at (materialize env p1 path) k = true
              ∧ created_at (apply_entry env p1 path) k = true)) := by
  cases hc : collect_dependencies env p p_response with
  | none => rw [hc] at h; cases h
  | some t =>
    obtain ⟨q, hq, hall⟩ := process_marks_all env t (collect_dependencies_kind env p p_response t hc).1
    refine ⟨t, q, rfl, hq, ?_, hall, ?_⟩
    · unfold _detect_code_changes
      rw [hc]
      exact hq
    · intro p1 k hk
      refine ⟨prepare_created env p1 k hk, ?_, ?_⟩
      · intro i d
        exact created_of_extends p1 _ k (check_dependency_extends env p1 i d) hk
      · intro path
        exact ⟨created_of_extends p1 _ k (materialize_extends env p1 path) hk,
          created_of_extends p1 _ k (apply_entry_extends env p1 path) hk⟩

/-- Witness of C14: the response of Scenario A on a storage where every
directory creation and every file open fails. The script entry is marked
created although nothing was written. -/
theorem C14_created_after_run_witness :
    (collect_dependencies sample_env write_failing_panel scenario_A_response).isSome = true
    ∧ (∃ t q, collect_dependencies sample_env write_failing_panel scenario_A_response = some t
      ∧ _process_dependencies sample_env t = some q
      ∧ _detect_code_changes sample_env write_failing_panel scenario_A_response = some q
      ∧ (∀ k, Map.has (prepare sample_env t).pending_dependencies k = true → created_at q k = true)
      ∧ (∀ (p1 : Panel) (k : Str), created_at p1 k = true →
          created_at (prepare sample_env p1) k = true
          ∧ (∀ i d, created_at (check_dependency sample_env (p1, i) d).1 k = true)
          ∧ (∀ path, created_at (materialize sample_env p1 path) k = true
              ∧ created_at (apply_entry sample_env p1 path) k = true)))
    ∧ outcome (_detect_code_changes sample_env write_failing_panel scenario_A_response)
        "res://script_1700000000.gd".toList
      = some (["res://script_1700000000.gd".toList], true, none, true) :=
  ⟨by decide,
    C14_created_after_run sample_env write_failing_panel scenario_A_response (by decide),
    by decide⟩

/-- C15: for the response of Scenario A and every clock value, the fast
extractor returns true with exactly one block, of type `script`, whose path is
`res://Script_<timestamp>.gd` (so it begins with `res://` and ends with `.gd`)
and whose code contains the body unchanged. -/
theorem C15_scenario_A_one_script_block (env : Env) :
    _extract_code_blocks_fast env scenario_A_response []
      = (true, [⟨"extends Node\nfunc _ready():\n\tpass\n".toList,
          "res://Script_".toList ++ itos env.unix_time ++ ".gd".toList, "script".toList⟩])
    ∧ begins_with ("res://Script_".toList ++ itos env.unix_time ++ ".gd".toList) "res://".toList = true
    ∧ ends_with ("res://Script_".toList ++ itos env.unix_time ++ ".gd".toList) ".gd".toList = true
    ∧ contains "extends Node\nfunc _ready():\n\tpass\n".toList
        "extends Node\nfunc _ready():\n\tpass".toList = true :=
  ⟨rfl, rfl, ends_with_append _ _, by decide⟩

/-- C16 (code evaluated on an untagged block that holds only `func foo():`):
the fast extractor drops the block and returns false with no block, while the
legacy extractor turns the same block into `res://script_<timestamp>.gd`. -/
theorem C16_fast_drops_func_only_block :
    _extract_code_blocks_fast sample_env func_only_response [] = (false, [])
    ∧ (_extract_multiple_code_blocks sample_env func_only_response []).2.map (fun b => b.file_path)
        = ["res://script_1700000000.gd".toList] := by
  decide

/-- C17: a block of the fast extractor without a `File:` hint, with a language
tag other than `tscn`, `gdscript` and `gd`, whose code neither begins with
`[gd_scene` nor contains `extends `, contributes nothing; the result holds the
blocks of all other fenced parts, in order; and the block of a part depends on
that part and the text just before it only, so the others come out as they
would without the dropped one. -/
theorem C17_unknown_block_dropped (env : Env) (p_response : Str) (r_code_blocks : List CodeBlock)
    (i : Nat)
    (hi : i ∈ fast_indices (split p_response "```".toList).length)
    (hhint : fast_file_hint ((split p_response "```".toList).getD (i - 1) []) = [])
    (htag : (fast_language ((split p_response "```".toList).getD i []) == "tscn".toList
      || fast_language ((split p_response "```".toList).getD i []) == "gdscript".toList
      || fast_language ((split p_response "```".toList).getD i []) == "gd".toList) = false)
    (hmark : (begins_with (fast_code ((split p_response "```".toList).getD i [])) "[gd_scene".toList
      || find (fast_code ((split p_response "```".toList).getD i [])) "extends ".toList != -1) = false) :
    fast_block env (split p_response "```".toList) i = none
    ∧ (_extract_code_blocks_fast env p_response r_code_blocks).2
        = r_code_blocks
          ++ ((fast_indices (split p_response "```".toList).length).filter (fun j => j != i)).filterMap
              (fast_block env (split p_response "```".toList))
    ∧ ∀ (parts2 : List Str) (j j2 : Nat),
        (split p_response "```".toList).getD j [] = parts2.getD j2 [] →
        (split p_response "```".toList).getD (j - 1) [] = parts2.getD (j2 - 1) [] →
        fast_block env (split p_response "```".toList) j = fast_block env parts2 j2 := by
  have hnone : fast_block env (split p_response "```".toList) i = none := by
    simp only [Bool.or_eq_false_iff] at htag hmark
    obtain ⟨⟨t1, t2⟩, t3⟩ := htag
    obtain ⟨m1, m2⟩ := hmark
    unfold fast_language at t1 t2 t3
    unfold fast_code at m1 m2
    unfold fast_block
    dsimp only
    rw [hhint, t1, t2, t3, m1, m2]
    simp
  refine ⟨hnone, ?_, fun parts2 j j2 h1 h2 => fast_block_local env _ parts2 j j2 h1 h2⟩
  have hlen : ¬ (split p_response "```".toList).length < 3 := by
    unfold fast_indices at hi
    have := (List.mem_filter.mp hi).2
    simp only [Bool.and_eq_true, beq_iff_eq, decide_eq_true_eq] at this
    omega
  unfold _extract_code_blocks_fast
  dsimp only
  rw [if_neg hlen, filterMap_filter_ne _ i hnone]

/-- Witness of C17: the `text` block between the two script blocks. -/
theorem C17_unknown_block_dropped_witness :
    (_extract_code_blocks_fast sample_env three_block_response []).2.map (fun b => b.file_path)
      = ["res://a.gd".toList, "res://b.gd".toList]
    ∧ fast_block sample_env (split three_block_response "```".toList) 3 = none :=
  ⟨by decide,
    (C17_unknown_block_dropped sample_env three_block_response [] 3 (by decide) (by decide)
      (by decide) (by decide)).1⟩

/-- C18: every block matched by `_extract_multiple_code_blocks` yields one
element of the result, and its path is not empty and begins with `res://`; a
block without hint whose code does not begin with `[gd_scene` and contains
none of `extends `, `func `, `class_name ` gets `res://resource_<timestamp>`
followed by `.json` when the code begins with an opening brace or bracket,
else `.xml` when it contains both `<` and `>`, else `.txt`. -/
theorem C18_legacy_always_some_path (env : Env) (p_text : Str) (r_code_blocks : List CodeBlock) :
    (_extract_multiple_code_blocks env p_text r_code_blocks).2
      = r_code_blocks ++ (search_all block_regex p_text).map (multi_block env p_text)
    ∧ (∀ m : RegExMatch, (multi_block env p_text m).file_path ≠ []
        ∧ begins_with (multi_block env p_text m).file_path "res://".toList = true)
    ∧ (∀ m : RegExMatch, multi_hinted_path (substr p_text 0 m.start) = [] →
        begins_with (m.get_string 1) "[gd_scene".toList = false →
        (find (m.get_string 1) "extends ".toList != -1 || find (m.get_string 1) "func ".toList != -1
          || find (m.get_string 1) "class_name ".toList != -1) = false →
        (multi_block env p_text m).file_path
          = "res://resource_".toList ++ itos env.unix_time
            ++ (if begins_with (m.get_string 1) "\x7b".toList || begins_with (m.get_string 1) "[".toList
                then ".json".toList
                else if find (m.get_string 1) "<".toList != -1 && find (m.get_string 1) ">".toList != -1
                then ".xml".toList
                else ".txt".toList)) := by
  refine ⟨?_, fun m => ⟨ne_nil_of_begins_with_res _ (multi_block_res env p_text m),
    multi_block_res env p_text m⟩, ?_⟩
  · unfold _extract_multiple_code_blocks
    dsimp only
    split
    · rename_i h
      have : search_all block_regex p_text = [] := by
        cases hs : search_all block_regex p_text with
        | nil => rfl
        | cons a b => rw [hs] at h; simp at h
      rw [this]; simp
    · rfl
  · intro m h1 h2 h3
    unfold multi_block
    dsimp only
    rw [h1]
    simp only [List.isEmpty_nil, if_true]
    unfold multi_path_from_content guess_resource_ext
    rw [h2, h3]
    rfl

/-- Witness of C18: the untagged plain-text block gets `res://resource_<timestamp>.txt`. -/
theorem C18_legacy_always_some_path_witness :
    (_extract_multiple_code_blocks sample_env plain_block_response []).2
      = [⟨"plain words".toList, "res://resource_1700000000.txt".toList, []⟩]
    ∧ (search_all block_regex plain_block_response).map (fun m => (m.start, m.stop, m.whole, m.caps))
        = [(plain_block_match.start, plain_block_match.stop, plain_block_match.whole,
            plain_block_match.caps)]
    ∧ (multi_block sample_env plain_block_response plain_block_match).file_path
        = "res://resource_1700000000.txt".toList :=
  ⟨by decide, by decide,
    (C18_legacy_always_some_path sample_env plain_block_response []).2.2 plain_block_match
      (by decide) (by decide) (by decide)⟩

/-- C19 (code evaluated on a `load_steps` header): the first replacement puts
`format=3` in front of `load_steps=` and nothing removes the old marker, so the
header of the output declares `format=3` and still contains `format=2`. -/
theorem C19_load_steps_header_keeps_format_2 :
    _update_scene_format (fun k => 7 * k + 3) load_steps_scene
      = "[gd_scene format=3 uid=\"uid://dkryFMT07elszGNU18fmtA\" load_steps=2 format=2]\n\n[node name=\"Level\" type=\"Node2D\"]\n".toList
    ∧ contains (_update_scene_format (fun k => 7 * k + 3) load_steps_scene) "format=2".toList = true := by
  decide

/-- C20 (code evaluated on a random source that draws `x7SpatialQ2mLk90aZbT4e`):
every index `randi() % 62` is in bounds and the generated id has 22 characters,
but the id is part of the text when the class names are rewritten: `Spatial`
inside it becomes `Node3D`, and the output carries `uid://x7Node3DQ2mLk90aZbT4e`
with 21 characters. -/
theorem C20_generated_uid_rewritten :
    (∀ (rng : Nat → Nat) (k : Nat), rng k % uid_chars.length < uid_chars.length)
    ∧ generate_uid spatial_rng = "uid://x7SpatialQ2mLk90aZbT4e".toList
    ∧ _update_scene_format spatial_rng scenario_B_scene
      = "[gd_scene format=3 uid=\"uid://x7Node3DQ2mLk90aZbT4e\"]\n\n[node name=\"Enemy\" type=\"CharacterBody3D2D\"]\n".toList
    ∧ contains (_update_scene_format spatial_rng scenario_B_scene)
        "uid=\"uid://x7SpatialQ2mLk90aZbT4e\"".toList = false :=
  ⟨fun rng k => Nat.mod_lt _ (by decide), by decide, by decide, by decide⟩

/-- C21 (code evaluated on `ExtResource( 1 )` and `SubResource( 2 )`): both
patterns allow blanks around the digits, but the replacement looks for the id
without blanks, so nothing is rewritten and the output still holds a bare
numeric id that `ext_resource_regex` and `sub_resource_regex` match. -/
theorem C21_spaced_numeric_id_kept :
    _update_scene_format (fun k => 7 * k + 3) spaced_id_scene
      = "[gd_scene format=3 uid=\"uid://dkryFMT07elszGNU18fmtA\"]\n\n[node name=\"Icon\" type=\"Sprite2D\"]\ntexture = ExtResource( 1 )\nshape = SubResource( 2 )\n".toList
    ∧ (search_all ext_resource_regex
          (_update_scene_format (fun k => 7 * k + 3) spaced_id_scene)).map (fun m => m.whole)
        = ["ExtResource( 1 )".toList]
    ∧ (search_all sub_resource_regex
          (_update_scene_format (fun k => 7 * k + 3) spaced_id_scene)).map (fun m => m.whole)
        = ["SubResource( 2 )".toList]
    ∧ contains (_update_scene_format (fun k => 7 * k + 3) spaced_id_scene)
        "ExtResource(\"1\")".toList = false := by
  decide

/-- C22 (code evaluated on `script=ExtResource("player")`): `script_path_regex`
matches the reference, but the replacement looks for it with one blank on each
side of the equals sign, so the path is left without an extension: the output
still holds a match of `script_path_regex` whose path is `player`. -/
theorem C22_unspaced_script_reference_kept :
    _update_scene_format (fun k => 7 * k + 3) unspaced_script_scene
      = "[gd_scene format=3 uid=\"uid://dkryFMT07elszGNU18fmtA\"]\n\n[node name=\"Player\" type=\"Node2D\"]\nscript=ExtResource(\"player\")\n".toList
    ∧ (search_all script_path_regex
          (_update_scene_format (fun k => 7 * k + 3) unspaced_script_scene)).map
            (fun m => m.get_string 1)
        = ["player".toList]
    ∧ ends_with "player".toList ".gd".toList = false
    ∧ ends_with "player".toList ".vs".toList = false
    ∧ ends_with "player".toList ".cs".toList = false := by
  decide

/-- C23 (code evaluated on `hero_response`): the table handed to
`_process_dependencies` holds the scene `res://Hero.tscn` with empty code and
its script `res://Hero.gd`; the scene is materialized by
`_create_placeholder_scene` after the script has been written, and the content
written for it holds the header and the node line only, with no `script`
line. -/
theorem C23_placeholder_scene_has_no_script_line :
    (collect_dependencies sample_env blank_panel hero_response).map
        (fun t => t.pending_dependencies.map (fun E => (E.1, E.2.type, E.2.code.isEmpty)))
      = some [("res://Hero.tscn".toList, "scene".toList, true),
          ("res://Hero.gd".toList, "script".toList, false),
          ("res://script_1700000000.gd".toList, "script".toList, false)]
    ∧ (_detect_code_changes sample_env blank_panel hero_response).map
        (fun q => (q.processing_order, q.storage.file_exists "res://Hero.gd".toList,
          q.storage.read "res://Hero.tscn".toList))
      = some (["res://Hero.gd".toList, "res://script_1700000000.gd".toList, "res://Hero.tscn".toList],
          true,
          some "[gd_scene format=3 uid=\"uid://aaaaaaaaaaaaaaaaaaaaaa\"]\n\n[node name=\"Hero\" type=\"Node2D\"]\n".toList)
    ∧ contains "[gd_scene format=3 uid=\"uid://aaaaaaaaaaaaaaaaaaaaaa\"]\n\n[node name=\"Hero\" type=\"Node2D\"]\n".toList
        "script".toList = false := by
  decide

/-- C24 (code evaluated on the node name `level_map`): the walk infers `Node2D`
where `_create_placeholder_scene` infers `TileMap`; the two heuristics agree on
every name for which `_create_placeholder_scene` does not answer `TileMap`,
and on the others the walk answers `Node2D`. -/
theorem C24_tile_map_rule_missing_in_walk :
    get_file (get_basename "res://level_map.tscn".toList) = "level_map".toList
    ∧ inline_scene_node_type "level_map".toList = "Node2D".toList
    ∧ placeholder_scene_node_type "level_map".toList = "TileMap".toList
    ∧ ∀ node_name : Str,
        inline_scene_node_type node_name = placeholder_scene_node_type node_name
        ∨ (placeholder_scene_node_type node_name = "TileMap".toList
            ∧ inline_scene_node_type node_name = "Node2D".toList) := by
  refine ⟨by decide, by decide, by decide, ?_⟩
  intro node_name
  unfold inline_scene_node_type placeholder_scene_node_type
  dsimp only
  repeat' split
  all_goals first
    | exact Or.inl rfl
    | exact Or.inr ⟨rfl, rfl⟩

/-- C25: for every scene text, `_extract_dependencies_from_scene` started on an
empty list yields a list without repeated element in which every element
begins with `res://`; and so does `_extract_dependencies_from_script` for every
script text. -/
theorem C25_analyzers_normalized_and_duplicate_free (code : Str) :
    ((_extract_dependencies_from_scene code []).Nodup
      ∧ ∀ d ∈ _extract_dependencies_from_scene code [], begins_with d "res://".toList = true)
    ∧ ((_extract_dependencies_from_script code []).Nodup
      ∧ ∀ d ∈ _extract_dependencies_from_script code [], begins_with d "res://".toList = true) := by
  have h0 : ([] : List Str).Nodup ∧ ∀ d ∈ ([] : List Str), begins_with d "res://".toList = true :=
    ⟨List.nodup_nil, fun d hd => by cases hd⟩
  constructor
  · unfold _extract_dependencies_from_scene
    dsimp only
    exact foldl_add_dependency_normalized _ _ (foldl_add_dependency_normalized _ _
      (foldl_add_dependency_normalized _ _ (foldl_add_dependency_normalized _ _ h0)))
  · unfold _extract_dependencies_from_script
    dsimp only
    exact foldl_add_direct_dependency_normalized _ _ (script_resource_matches code)
      (foldl_add_dependency_normalized _ _ (foldl_add_dependency_normalized _ _ h0))

/-- C26: `_detect_code_changes` gives the same result, panel for panel,
whatever the table and the order held before the call: both are cleared before
anything is read, so only the response, the storage, the messages and the
random source matter. -/
theorem C26_no_state_leak (env : Env) (p : Panel) (t : Table) (o : List Str) (p_response : Str) :
    _detect_code_changes env { p with pending_dependencies := t, processing_order := o } p_response
      = _detect_code_changes env p p_response := by
  unfold _detect_code_changes collect_dependencies
  rfl

/-- C27: for a response without a triple-backtick fence the fast extractor
returns false with no block, and `_detect_code_changes` returns with the table
and the order empty and with storage and messages as they were. -/
theorem C27_no_fence_nothing_happens (env : Env) (p : Panel) (p_response : Str)
    (h : contains p_response "```".toList = false) :
    _extract_code_blocks_fast env p_response [] = (false, [])
    ∧ _detect_code_changes env p p_response
      = some { p with pending_dependencies := [], processing_order := [] } := by
  constructor
  · unfold _extract_code_blocks_fast
    dsimp only
    rw [split_of_not_contains p_response "```".toList h (by decide)]
    rfl
  · have hd : detect_blocks env p_response = none := by
      unfold detect_blocks _extract_multiple_code_blocks _extract_code_block
      dsimp only
      rw [block_regex_nil p_response h]
      rfl
    unfold _detect_code_changes collect_dependencies
    rw [hd]

/-- Witness of C27: a response in plain words that mentions a file the scanner
would track; nothing is tracked and nothing is written. -/
theorem C27_no_fence_nothing_happens_witness :
    contains "Please create a new script called player.gd for the hero.".toList "```".toList = false
    ∧ (_extract_code_blocks_fast sample_env
          "Please create a new script called player.gd for the hero.".toList [] = (false, [])
      ∧ _detect_code_changes sample_env scenario_C_panel
          "Please create a new script called player.gd for the hero.".toList
        = some { scenario_C_panel with pending_dependencies := [], processing_order := [] }) :=
  ⟨by decide, C27_no_fence_nothing_happens sample_env scenario_C_panel
    "Please create a new script called player.gd for the hero.".toList (by decide)⟩

end VectorAIPanel
namespace ClaudeAPI

/-- C28: with a key of the right form and no request in progress,
`send_message` hands exactly one request to `http_request`, whose `messages`
are the last ten entries of the history (all of them when there are fewer), in
order, followed by the current user message, `min n 10 + 1` in all;
`send_message` never changes the history, on any path. In
`_on_request_completed` the successful path appends the pending user message
and then the assistant text, so a round trip appends the message just sent and
the answer; on every other path the node is left as it was, idle, with at most
one error reported, so the history is unchanged. -/
theorem C28_history_window_and_round_trip (env : ApiEnv) (api : ClaudeAPI) (p_message : Str)
    (hkey : api.api_key.isEmpty = false)
    (hfmt : begins_with api.api_key "sk-ant-".toList = true)
    (hidle : api.request_in_progress = false) :
    (send_message env api p_message).requests = api.requests ++ [build_request env api p_message]
    ∧ (build_request env api p_message).body.messages
        = api.conversation_history.drop (api.conversation_history.length - 10)
          ++ [⟨"user".toList, p_message⟩]
    ∧ (build_request env api p_message).body.messages.length
        = min api.conversation_history.length 10 + 1
    ∧ (∀ (a : ClaudeAPI) (m : Str),
        (send_message env a m).conversation_history = a.conversation_history)
    ∧ (∀ (a : ClaudeAPI) (p_result p_response_code : Int) (p_body : List Nat) (text : Str),
        assistant_text env p_result p_response_code p_body = some text →
        (_on_request_completed env a p_result p_response_code p_body).conversation_history
          = a.conversation_history
            ++ [⟨"user".toList, a.pending_user_message⟩, ⟨"assistant".toList, text⟩])
    ∧ (∀ (p_result p_response_code : Int) (p_body : List Nat) (text : Str),
        assistant_text env p_result p_response_code p_body = some text →
        (_on_request_completed env (send_message env api p_message) p_result p_response_code
            p_body).conversation_history
          = api.conversation_history
            ++ [⟨"user".toList, p_message⟩, ⟨"assistant".toList, text⟩])
    ∧ (∀ (a : ClaudeAPI) (p_result p_response_code : Int) (p_body : List Nat),
        assistant_text env p_result p_response_code p_body = none →
        (∃ msg, _on_request_completed env a p_result p_response_code p_body
            = report_error { a with request_in_progress := false } msg)
        ∧ (_on_request_completed env a p_result p_response_code p_body).conversation_history
            = a.conversation_history) := by
  have hmsg : (build_request env api p_message).body.messages
      = api.conversation_history.drop (api.conversation_history.length - 10)
        ++ [⟨"user".toList, p_message⟩] := request_messages_eq api p_message
  refine ⟨(send_message_sent env api p_message hkey hfmt hidle).1, hmsg, ?_,
    send_message_history env, ?_, ?_, ?_⟩
  · rw [hmsg]
    simp only [List.length_append, List.length_drop, List.length_singleton]
    omega
  · intro a r c b text h
    exact (completed_of_text env a r c b text h).1
  · intro r c b text h
    rw [(completed_of_text env _ r c b text h).1, send_message_history,
      (send_message_sent env api p_message hkey hfmt hidle).2]
  · intro a r c b h
    obtain ⟨msg, hm⟩ := completed_of_no_text env a r c b h
    exact ⟨⟨msg, hm⟩, by rw [hm, report_error_history]⟩

/-- Witness of C28: a node with twelve messages in its history sends `hi`; the
request carries the messages 2 to 11 and `hi`, and the answer `Hello there`
brings the history to fourteen entries. -/
theorem C28_history_window_and_round_trip_witness :
    (sample_api.api_key.isEmpty = false ∧ begins_with sample_api.api_key "sk-ant-".toList = true
      ∧ sample_api.request_in_progress = false)
    ∧ (build_request sample_api_env sample_api "hi".toList).body.messages
        = sample_api.conversation_history.drop (sample_api.conversation_history.length - 10)
          ++ [⟨"user".toList, "hi".toList⟩]
    ∧ (build_request sample_api_env sample_api "hi".toList).body.messages.map (fun m => m.content)
        = ["2".toList, "3".toList, "4".toList, "5".toList, "6".toList, "7".toList, "8".toList,
            "9".toList, "10".toList, "11".toList, "hi".toList]
    ∧ assistant_text sample_api_env 0 200 [111, 107] = some "Hello there".toList
    ∧ (_on_request_completed sample_api_env (send_message sample_api_env sample_api "hi".toList)
          0 200 [111, 107]).conversation_history
        = sample_api.conversation_history
          ++ [⟨"user".toList, "hi".toList⟩, ⟨"assistant".toList, "Hello there".toList⟩] :=
  ⟨⟨by decide, by decide, by decide⟩,
    (C28_history_window_and_round_trip sample_api_env sample_api "hi".toList (by decide)
      (by decide) (by decide)).2.1,
    by decide, by decide,
    (C28_history_window_and_round_trip sample_api_env sample_api "hi".toList (by decide)
      (by decide) (by decide)).2.2.2.2.2.1 0 200 [111, 107] "Hello there".toList (by decide)⟩

end ClaudeAPI
namespace VectorAIPanel

/-- C29: a reference for which the walk synthesizes a `.gd` or `.tscn`
placeholder is inserted into the order at the walk index, right before the
entry being walked, the index moves on by one, and the table gets an entry for
it that is not created. For the entry at index `i` as a whole, the placeholders
`ps` are exactly the declared references that are missing and have extension
`gd` or `tscn`, each once, in the order of declaration; the order afterwards is
the old order with `ps` inserted at index `i`, so the paths present before keep
their places relative to each other and the entry stands directly after the
placeholders, where the walk continues past it. -/
theorem C29_placeholders_spliced_before_entry (env : Env) (p : Panel) (i : Nat)
    (hi : i < p.processing_order.length) :
    (∀ (p1 : Panel) (j : Nat) (d : Str), spliced p1 d = true →
      (check_dependency env (p1, j) d).1.processing_order
          = p1.processing_order.take j ++ d :: p1.processing_order.drop j
        ∧ (check_dependency env (p1, j) d).2 = j + 1
        ∧ Map.has (check_dependency env (p1, j) d).1.pending_dependencies d = true
        ∧ created_at (check_dependency env (p1, j) d).1 d = false)
    ∧ ∃ ps : List Str,
        ps.Sublist (Table.at p.pending_dependencies (p.processing_order.getD i [])).dependencies
        ∧ ps.Nodup
        ∧ (∀ d, d ∈ ps
            ↔ (d ∈ (Table.at p.pending_dependencies (p.processing_order.getD i [])).dependencies
                ∧ spliced p d = true))
        ∧ (walk_step env p i).1.processing_order
            = p.processing_order.take i ++ ps ++ p.processing_order.drop i
        ∧ (walk_step env p i).2 = i + ps.length + 1
        ∧ (walk_step env p i).1.processing_order.getD (i + ps.length) []
            = p.processing_order.getD i []
        ∧ (∀ d ∈ ps,
            Map.has ((Table.at p.pending_dependencies
                (p.processing_order.getD i [])).dependencies.foldl
                  (check_dependency env) (p, i)).1.pending_dependencies d = true
            ∧ created_at ((Table.at p.pending_dependencies
                (p.processing_order.getD i [])).dependencies.foldl
                  (check_dependency env) (p, i)).1 d = false) := by
  constructor
  · intro p1 j d hs
    obtain ⟨ho, hidx, _, v, hvc, _, htab⟩ := check_dependency_spliced env p1 j d hs
    refine ⟨ho, hidx, ?_, ?_⟩
    · rw [htab]; exact Map.has_set_self _ _ _
    · unfold created_at
      rw [htab, Table.at_set_self]
      exact hvc
  · obtain ⟨ps, hsub, hnd, hord, hix, hmem, hcr⟩ := foldl_check_splices env
      (Table.at p.pending_dependencies (p.processing_order.getD i [])).dependencies p i
      (Nat.le_of_lt hi)
    have hord2 : (walk_step env p i).1.processing_order
        = p.processing_order.take i ++ ps ++ p.processing_order.drop i := by
      unfold walk_step
      dsimp only
      rw [apply_entry_order]
      exact hord
    refine ⟨ps, hsub, hnd, hmem, hord2, ?_, ?_, hcr⟩
    · unfold walk_step
      dsimp only
      rw [hix]
    · rw [hord2]
      have hlen : (p.processing_order.take i ++ ps).length = i + ps.length := by
        simp only [List.length_append, List.length_take]
        omega
      rw [List.getD_eq_getElem?_getD, List.getD_eq_getElem?_getD,
        List.getElem?_append_right (by omega), hlen, Nat.sub_self, List.getElem?_drop]
      rfl

/-- Witness of C29: the scene at index 1 declares `res://Player.gd` and
`res://Hud.tscn`, both missing; they are spliced in between the script walked
before and the scene. -/
theorem C29_placeholders_spliced_before_entry_witness :
    (walk_step sample_env two_reference_panel 1).1.processing_order
      = ["res://Game.gd".toList, "res://Player.gd".toList, "res://Hud.tscn".toList,
          "res://Main.tscn".toList]
    ∧ ∃ ps : List Str,
        (∀ d, d ∈ ps
          ↔ (d ∈ (Table.at two_reference_panel.pending_dependencies
                (two_reference_panel.processing_order.getD 1 [])).dependencies
              ∧ spliced two_reference_panel d = true))
        ∧ (walk_step sample_env two_reference_panel 1).1.processing_order
            = two_reference_panel.processing_order.take 1 ++ ps
              ++ two_reference_panel.processing_order.drop 1
        ∧ (walk_step sample_env two_reference_panel 1).2 = 1 + ps.length + 1 :=
  ⟨by decide,
    match (C29_placeholders_spliced_before_entry sample_env two_reference_panel 1 (by decide)).2 with
    | ⟨ps, _, _, hmem, hord, hix, _, _⟩ => ⟨ps, hmem, hord, hix⟩⟩

/-- C30: for every table that `_detect_code_changes` hands to
`_process_dependencies`, the order built before the walk is a permutation of
the keys of the table, each key standing in it exactly once; in that table the
type of every entry agrees with the end of its path, `script` exactly for
`.gd` and `scene` exactly for `.tscn`, and every entry is a script, a scene or
a resource whose path ends in neither, so no pass leaves an entry out. -/
theorem C30_order_is_permutation_of_keys (env : Env) (p : Panel) (p_response : Str)
    (h : (collect_dependencies env p p_response).isSome = true) :
    ∃ t, collect_dependencies env p p_response = some t
      ∧ (prepare env t).processing_order = build_order (prepare env t).pending_dependencies
      ∧ (prepare env t).processing_order.Perm (Map.keys (prepare env t).pending_dependencies)
      ∧ (prepare env t).processing_order.Nodup
      ∧ Map.keys (prepare env t).pending_dependencies = Map.keys t.pending_dependencies
      ∧ (∀ E ∈ (prepare env t).pending_dependencies,
          (E.2.type = "script".toList ↔ ends_with E.2.path ".gd".toList = true)
          ∧ (E.2.type = "scene".toList ↔ ends_with E.2.path ".tscn".toList = true)
          ∧ (E.2.type = "script".toList ∨ E.2.type = "scene".toList
              ∨ E.2.type = "resource".toList)) := by
  cases hc : collect_dependencies env p p_response with
  | none => rw [hc] at h; cases h
  | some t =>
    have hk := collect_dependencies_kind env p p_response t hc
    have hkeys := collect_dependencies_keys env p p_response t hc
    have hup := upgrade_scenes_extends env t.pending_dependencies t.seeds
    have hkind := upgrade_scenes_kind env t.pending_dependencies t.seeds hk.1
    have hagree := upgrade_scenes_agrees env t.pending_dependencies t.seeds hkeys.1
    have hperm := build_order_perm (upgrade_scenes env t.pending_dependencies t.seeds).1 hkind
    have hord : (prepare env t).processing_order
        = build_order (upgrade_scenes env t.pending_dependencies t.seeds).1 := by
      unfold prepare
      dsimp only
      rw [hk.2, List.nil_append]
    refine ⟨t, rfl, hord, ?_, ?_, hup.1, ?_⟩
    · rw [hord]; exact hperm
    · rw [hord]
      exact (List.Perm.nodup_iff hperm).mpr (by rw [hup.1]; exact hkeys.2)
    · intro E hE
      refine ⟨(hagree E hE).1, (hagree E hE).2, ?_⟩
      rcases hkind E hE with h1 | h1 | ⟨h1, _, _⟩
      · exact Or.inl h1
      · exact Or.inr (Or.inl h1)
      · exact Or.inr (Or.inr h1)

/-- Witness of C30: the response `hero_response`, whose table holds a scanned
scene, its companion script and the script of the code block. -/
theorem C30_order_is_permutation_of_keys_witness :
    (collect_dependencies sample_env blank_panel hero_response).isSome = true
    ∧ (match collect_dependencies sample_env blank_panel hero_response with
        | some t => (Map.keys t.pending_dependencies, (prepare sample_env t).processing_order)
        | none => ([], []))
      = (["res://Hero.tscn".toList, "res://Hero.gd".toList, "res://script_1700000000.gd".toList],
          ["res://Hero.gd".toList, "res://script_1700000000.gd".toList, "res://Hero.tscn".toList])
    ∧ ∃ t, collect_dependencies sample_env blank_panel hero_response = some t
      ∧ (prepare sample_env t).processing_order.Perm
          (Map.keys (prepare sample_env t).pending_dependencies)
      ∧ (prepare sample_env t).processing_order.Nodup :=
  ⟨by decide, by decide,
    match C30_order_is_permutation_of_keys sample_env blank_panel hero_response (by decide) with
    | ⟨t, ht, _, hperm, hnd, _, _⟩ => ⟨t, ht, hperm, hnd⟩⟩

end VectorAIPanel
end VectorAI
